import Mathlib

/-!
# phish-train-lite: campaign lifecycle and dispatch engine

A shallow embedding of `backend/server.js`, `backend/db.js`, `backend/safety.js`,
`backend/templates.js` and `backend/mailer.js`.

* The SQLite tables of `db.js` are lists of rows, in rowid order, inside `Store`.
* A request handler is a function from the store to a response and a new store;
  requests and scheduler scans are handled one after another. An `await` that
  rejects is an exception: the writes made before it stay.
* The clock (`new Date().toISOString()`) is an argument `now` of each handler,
  one reading per request; instants are ISO-8601 text compared as SQLite compares
  TEXT (`textLe`).
* `crypto` digests (`hashValue`, `createToken`) and the SMTP server are parameters
  (`Env`, and the `rand` argument of the handlers that issue tokens).
* `Store.outbox` is an observer's log of the messages a transport accepted; the
  engine never reads it.
-/

namespace PhishTrain

/-! ## Data model (`db.js`) -/

/-- The values the engine writes to `campaigns.status`. -/
inductive Status where
  | draft
  | scheduled
  | running
  | completed
  deriving DecidableEq, Repr

/-- Position of a status in the lifecycle `draft < scheduled < running < completed`. -/
def Status.rank : Status → Nat
  | .draft => 0
  | .scheduled => 1
  | .running => 2
  | .completed => 3

/-- The values the engine writes to `campaign_events.event_type`. -/
inductive EventType where
  | delivered
  | opened
  | clicked
  | submitted
  deriving DecidableEq, Repr

/-- Row of table `employees` (primary key `email`). -/
structure Employee where
  email : String
  name : Option String
  department : Option String
  created_at : String
  deriving DecidableEq, Repr

/-- Row of table `campaigns`. `name`, `subject` and `template_key` are `NOT NULL`;
the INTEGER flags hold 0 or 1 only and are booleans here. -/
structure Campaign where
  id : Nat
  name : String
  subject : String
  template_key : String
  scheduled_time : Option String
  end_time : Option String
  approval : Bool
  enable_sending : Bool
  smtp_host : Option String
  smtp_port : Option Int
  smtp_user : Option String
  smtp_pass : Option String
  from_email : Option String
  manager_email : Option String
  notified_high_clicks : Bool
  status : Status
  created_at : String
  updated_at : String
  deriving DecidableEq, Repr

/-- Row of table `campaign_targets` (`token` is `UNIQUE`). -/
structure CampaignTarget where
  id : Nat
  campaign_id : Nat
  email : String
  name : Option String
  department : Option String
  token : String
  delivered : Bool
  deriving DecidableEq, Repr

/-- Row of table `campaign_events`. -/
structure CampaignEvent where
  id : Nat
  campaign_id : Nat
  email : String
  event_type : EventType
  timestamp : String
  ip_hash : Option String
  simulated_entry : Bool
  deriving DecidableEq, Repr

/-- The argument of `transport.sendMail` (`to_addr` and `from_addr` are its `to`
and `from`). -/
structure Mail where
  to_addr : String
  from_addr : String
  subject : String
  text : String
  html : String
  deriving DecidableEq, Repr

/-- Which of the three `sendMail` call sites produced a message. -/
inductive MailKind where
  | simulation
  | debrief
  | alert
  deriving DecidableEq, Repr

/-- An entry of the observer's log: a message a transport accepted, with the call
site and the campaign it was sent for. -/
structure Sent where
  kind : MailKind
  campaign_id : Nat
  mail : Mail
  deriving DecidableEq, Repr

/-- The database, plus the log of accepted messages. The `*_seq` fields are the
`sqlite_sequence` counters of the three `AUTOINCREMENT` tables. -/
structure Store where
  employees : List Employee
  campaigns : List Campaign
  campaign_targets : List CampaignTarget
  campaign_events : List CampaignEvent
  campaigns_seq : Nat
  targets_seq : Nat
  events_seq : Nat
  outbox : List Sent
  deriving DecidableEq, Repr

/-- The database right after `db.js` has created its tables. -/
def Store.empty : Store :=
  { employees := [], campaigns := [], campaign_targets := [], campaign_events := [],
    campaigns_seq := 0, targets_seq := 0, events_seq := 0, outbox := [] }

/-- What the process takes from outside: configuration, SHA-256, and whether the
SMTP server accepts a message sent for a campaign. -/
structure Env where
  baseTrackingUrl : String
  mailFrom : Option String
  debriefUrl : Option String
  hashValue : String → String
  smtp : Campaign → Mail → Bool

/-! ## SQL and JavaScript primitives -/

/-- Comparison `a <= b` of two TEXT values under SQLite's BINARY collation. -/
def charsLe : List Char → List Char → Bool
  | [], _ => true
  | _ :: _, [] => false
  | a :: as, b :: bs =>
    if a.toNat < b.toNat then true
    else if b.toNat < a.toNat then false
    else charsLe as bs

/-- SQL `a <= b` on TEXT. -/
def textLe (a b : String) : Bool := charsLe a.toList b.toList

/-- The value of SQL `CURRENT_TIMESTAMP` when the clock of the server reads `now`: the
`YYYY-MM-DD HH:MM:SS` part of the ISO reading, in UTC as the reading is. -/
def currentTimestamp (now : String) : String :=
  String.mk ((now.toList.take 19).map (fun c => if c = 'T' then ' ' else c))

/-- The rowid an `AUTOINCREMENT` table gives its next row: one more than the
largest rowid the table holds or has ever held. -/
def nextRowid (ids : List Nat) (seq : Nat) : Nat :=
  max seq (ids.foldr max 0) + 1

/-- JavaScript truthiness of a value that is a string, `null` or `undefined`. -/
def truthy : Option String → Bool
  | none => false
  | some v => v != ""

/-- JavaScript `a || b` where `a` is a string, `null` or `undefined`. -/
def orElse (a : Option String) (b : String) : String :=
  match a with
  | none => b
  | some v => if v = "" then b else v

/-- `Array.prototype.join`. -/
def join (sep : String) : List String → String
  | [] => ""
  | [a] => a
  | a :: b :: rest => a ++ sep ++ join sep (b :: rest)

/-- One character of `String.prototype.toLowerCase`: ASCII letters, and the Kelvin
sign, the one character outside ASCII whose lower case is an ASCII letter. JavaScript
lowers the other cased letters too; here they are left as they are. Their lower case is not
ASCII, so whether a domain equals an entry of the deny list is not affected; the text
stored for an address that holds such a letter is. -/
def lowerChar (c : Char) : Char :=
  if c.toNat = 0x212A then 'k' else c.toLower

/-- `String.prototype.toLowerCase` (see `lowerChar`). -/
def toLowerCase (s : String) : String := String.mk (s.toList.map lowerChar)

/-! ## `safety.js` -/

def DO_NOT_SEND_DOMAINS : List String :=
  ["gmail.com", "yahoo.com", "outlook.com", "hotmail.com"]

/-- `s.split('@')[1]`: the text between the first and the second `@`, or
`undefined` when `s` holds no `@`. -/
def secondSegment (cs : List Char) : Option (List Char) :=
  match cs.dropWhile (fun c => c != '@') with
  | [] => none
  | _ :: rest => some (rest.takeWhile (fun c => c != '@'))

/-- `isDomainAllowed(email)`. -/
def isDomainAllowed (email : String) : Bool :=
  match secondSegment email.toList with
  | none => false
  | some d =>
    let domain := toLowerCase (String.mk d)
    if domain = "" then false
    else !(DO_NOT_SEND_DOMAINS.contains domain)

/-! ## `templates.js` -/

structure Template where
  key : String
  name : String
  subject : String
  body : String
  deriving DecidableEq, Repr

def templates : List Template :=
  [ { key := "login-mimic",
      name := "Login Verification Notice",
      subject := "Action Required: Verify Your Account Access",
      body := "Hello \x7b\x7bname\x7d\x7d,\n\nWe noticed a login attempt to your \x7b\x7bdepartment\x7d\x7d tools from a new device. Please confirm your identity by visiting the secure verification page.\n\nIf you did not make this request, confirm immediately to avoid access interruption.\n\nThank you,\nSecurity Team" },
    { key := "urgent-policy",
      name := "Updated Security Policy Acknowledgement",
      subject := "Immediate Acknowledgement Required: Updated Security Policy",
      body := "Hi \x7b\x7bname\x7d\x7d,\n\nWe have refreshed our company-wide security policy. To maintain compliance for the \x7b\x7bdepartment\x7d\x7d team, review and acknowledge the update by the end of the day.\n\nClick the link below to review the summary and confirm your acknowledgement.\n\nRegards,\nCorporate Security" },
    { key := "package-delivery",
      name := "Package Delivery Confirmation",
      subject := "Package Arrival Confirmation Needed",
      body := "Hello \x7b\x7bname\x7d\x7d,\n\nA package addressed to the \x7b\x7bdepartment\x7d\x7d department requires your confirmation before it can be delivered.\n\nProvide confirmation using the secure link below.\n\nThanks,\nMail Services" } ]

/-- `templates.find(t => t.key === key)`. -/
def findTemplate (key : String) : Option Template :=
  templates.find? (fun t => t.key = key)

/-! ## `mailer.js` -/

/-- Whether `createTransport(campaign).sendMail(mail)` resolves. The console
transport, used while `enable_sending` is off, always does. -/
def sendMail (env : Env) (campaign : Campaign) (mail : Mail) : Bool :=
  if !campaign.enable_sending then true else env.smtp campaign mail

/-! ## `maskTemplate` -/

/-- The text a replacement string stands for at one match of
`String.prototype.replace`: `$$` is a dollar sign, `$&` the match, and the dollar
sign followed by a backtick or an apostrophe the text before or after the match.
The patterns used here have no capture group, so `$1` and the like are plain text. -/
def expandReplacement (matched before after : List Char) : List Char → List Char
  | [] => []
  | [c] => [c]
  | c :: d :: rest =>
    if c = '$' then
      if d = '$' then '$' :: expandReplacement matched before after rest
      else if d = '&' then matched ++ expandReplacement matched before after rest
      else if d = Char.ofNat 96 then before ++ expandReplacement matched before after rest
      else if d = Char.ofNat 39 then after ++ expandReplacement matched before after rest
      else c :: expandReplacement matched before after (d :: rest)
    else c :: expandReplacement matched before after (d :: rest)

/-- Scan of `subject.replace(/pat/g, repl)` for a literal pattern: `before` is
the part of the subject already passed, `skip` the characters of the current
match still to pass. -/
def replaceAllAux (pat repl : List Char) : List Char → Nat → List Char → List Char
  | _, _, [] => []
  | before, skip + 1, c :: rest => replaceAllAux pat repl (before ++ [c]) skip rest
  | before, 0, c :: rest =>
    if pat.isPrefixOf (c :: rest) then
      expandReplacement pat before ((c :: rest).drop pat.length) repl
        ++ replaceAllAux pat repl (before ++ [c]) (pat.length - 1) rest
    else c :: replaceAllAux pat repl (before ++ [c]) 0 rest

/-- `subject.replace(/pat/g, repl)` for a non-empty literal pattern. -/
def replaceAll (pat repl subject : String) : String :=
  String.mk (replaceAllAux pat.toList repl.toList [] 0 subject.toList)

/-- `maskTemplate(body, data)`. -/
def maskTemplate (body : String) (data : CampaignTarget) : String :=
  replaceAll "\x7b\x7bdepartment\x7d\x7d" (orElse data.department "your team")
    (replaceAll "\x7b\x7bname\x7d\x7d" (orElse data.name "Colleague") body)

/-! ## Table access -/

/-- What a handler answers: the HTTP status and, for an error, its message. The
JSON and HTML bodies of successful answers are not modelled. -/
inductive Response where
  | ok
  | badRequest (error : String)
  | notFound (error : String)
  | serverError (error : String)
  deriving DecidableEq, Repr

/-- A store together with whether the computation that produced it ended by
throwing. The writes made before the exception are in the store. -/
structure Outcome where
  store : Store
  threw : Bool
  deriving DecidableEq, Repr

/-- `SELECT * FROM campaigns WHERE id = ?` through `runGet`. -/
def getCampaign (s : Store) (id : Nat) : Option Campaign :=
  s.campaigns.find? (fun c => c.id = id)

/-- `UPDATE campaigns SET ... WHERE id = ?` for an assignment that cannot fail. -/
def updateCampaign (s : Store) (id : Nat) (f : Campaign → Campaign) : Store :=
  { s with campaigns := s.campaigns.map (fun c => if c.id = id then f c else c) }

/-- `getCampaignTargets(campaignId)`. -/
def getCampaignTargets (s : Store) (campaignId : Nat) : List CampaignTarget :=
  s.campaign_targets.filter (fun t => t.campaign_id = campaignId)

/-- `SELECT * FROM campaign_targets WHERE token = ?` through `runGet`. -/
def findByToken (s : Store) (token : String) : Option CampaignTarget :=
  s.campaign_targets.find? (fun t => t.token = token)

/-- `SELECT COUNT(*) FROM campaign_events WHERE campaign_id = ? AND event_type = ?`. -/
def countEvents (s : Store) (campaignId : Nat) (eventType : EventType) : Nat :=
  (s.campaign_events.filter
    (fun e => e.campaign_id = campaignId ∧ e.event_type = eventType)).length

/-- Rows of `employees` in ascending order of `email` under the BINARY collation: the
order of the index of the primary key. -/
def orderByEmail (rows : List Employee) : List Employee :=
  rows.insertionSort (fun a b => textLe a.email b.email = true)

/-- `SELECT email, name, department FROM employees WHERE email IN (...)`. SQLite looks the
values of the list up in the index of the primary key, in ascending order, so the rows come
ordered by `email`. -/
def selectEmployees (s : Store) (emails : List String) : List Employee :=
  orderByEmail (s.employees.filter (fun e => emails.contains e.email))

/-! ## Recipient validation and the target registry -/

/-- `SQLITE_MAX_VARIABLE_NUMBER` of the SQLite library: the most `?` parameters one
statement may hold. -/
def SQLITE_MAX_VARIABLE_NUMBER : Nat := 32766

/-- `ensureAllowlistEmails(emails)`: the message of the error it throws, if any.
`none` stands for a missing recipient list. The `SELECT ... WHERE email IN (?,...,?)` holds
one parameter per recipient, and SQLite refuses to prepare it when there are more than
`SQLITE_MAX_VARIABLE_NUMBER`; the promise of `runQuery` is then rejected with that error. -/
def ensureAllowlistEmails (s : Store) (emails : Option (List String)) : Except String Unit :=
  match emails with
  | none => .error "Recipients are required and must be on the allowlist."
  | some [] => .error "Recipients are required and must be on the allowlist."
  | some (e :: es) =>
    let emails := e :: es
    if SQLITE_MAX_VARIABLE_NUMBER < emails.length then
      .error "SQLITE_ERROR: too many SQL variables"
    else
      let rows := selectEmployees s emails
      if rows.length ≠ emails.length then
        .error "All recipients must exist in the allowlist."
      else
        let invalid := emails.filter (fun email => !isDomainAllowed email)
        if invalid.length ≠ 0 then
          .error ("Recipients contain forbidden domains: " ++ join ", " invalid)
        else .ok ()

/-- One `INSERT INTO campaign_targets(...)`. A token already in the table breaks
the `UNIQUE` constraint and the row is not inserted. -/
def insertTarget (s : Store) (campaignId : Nat) (employee : Employee) (token : String) : Store :=
  if s.campaign_targets.any (fun t => t.token = token) then s
  else
    let id := nextRowid (s.campaign_targets.map (fun t => t.id)) s.targets_seq
    { s with
      campaign_targets := s.campaign_targets ++
        [{ id := id, campaign_id := campaignId, email := employee.email, name := employee.name,
           department := employee.department, token := token, delivered := false }],
      targets_seq := id }

/-- The loop that creates one target per employee found; `rand` is `createToken`
as it answers during this request. -/
def insertTargets (rand : String → String) (campaignId : Nat) (employees : List Employee)
    (s : Store) : Store :=
  employees.foldl
    (fun st employee => insertTarget st campaignId employee
      (rand (employee.email ++ toString campaignId))) s

/-! ## Allowlist handlers -/

/-- An element of the `employees` array of `POST /api/allowlist`. -/
structure AllowlistEntry where
  email : Option String
  name : Option String
  department : Option String
  deriving DecidableEq, Repr

/-- `INSERT OR REPLACE INTO employees(email, name, department)`; `created_at` takes its
default, `CURRENT_TIMESTAMP`. -/
def insertOrReplaceEmployee (now : String) (email name department : String) (s : Store) : Store :=
  { s with
    employees := s.employees.filter (fun e => e.email ≠ email) ++
      [{ email := email, name := some name, department := some department,
         created_at := currentTimestamp now }] }

/-- `POST /api/allowlist` with an `employees` array. -/
def allowlistAdd (now : String) (employees : List AllowlistEntry) (s : Store) : Response × Store :=
  (.ok, employees.foldl
    (fun st entry =>
      match entry.email with
      | none => st
      | some email =>
        if email = "" then st
        else if !isDomainAllowed email then st
        else insertOrReplaceEmployee now (toLowerCase email) (orElse entry.name "")
          (orElse entry.department "") st) s)

/-- Split at every occurrence of `sep`, as `String.prototype.split` does for a
one-character separator. -/
def splitChar (sep : Char) : List Char → List (List Char)
  | [] => [[]]
  | c :: rest =>
    if c = sep then [] :: splitChar sep rest
    else
      match splitChar sep rest with
      | [] => [[c]]
      | seg :: segs => (c :: seg) :: segs

/-- Remove the carriage return that ends every segment but the last: together
with `splitChar '\n'` this is `split(/\r?\n/)`. -/
def dropCarriageReturns : List (List Char) → List (List Char)
  | [] => []
  | [seg] => [seg]
  | seg :: next :: segs =>
    (if seg.getLast? = some '\r' then seg.dropLast else seg) :: dropCarriageReturns (next :: segs)

/-- The characters `String.prototype.trim` removes. -/
def isJsWhitespace (c : Char) : Bool :=
  let n := c.toNat
  (0x09 ≤ n ∧ n ≤ 0x0D) ∨ n = 0x20 ∨ n = 0xA0 ∨ n = 0x1680 ∨ (0x2000 ≤ n ∧ n ≤ 0x200A)
    ∨ n = 0x2028 ∨ n = 0x2029 ∨ n = 0x202F ∨ n = 0x205F ∨ n = 0x3000 ∨ n = 0xFEFF

/-- `String.prototype.trim`. -/
def trim (cs : List Char) : List Char :=
  ((cs.dropWhile isJsWhitespace).reverse.dropWhile isJsWhitespace).reverse

/-- The entries `POST /api/allowlist/upload` keeps from a CSV body. -/
def parseCsv (csv : String) : List (String × String × String) :=
  let lines := (dropCarriageReturns (splitChar '\n' csv.toList)).filter (fun l => l ≠ [])
  lines.filterMap (fun line =>
    let parts := (splitChar ',' line).map (fun part => String.mk (trim part))
    let email := parts.getD 0 ""
    if email = "" then none
    else if !isDomainAllowed email then none
    else some (toLowerCase email, parts.getD 1 "", parts.getD 2 ""))

/-- `POST /api/allowlist/upload`. -/
def allowlistUpload (now : String) (csv : String) (s : Store) : Response × Store :=
  if csv = "" then (.badRequest "CSV body required", s)
  else
    (.ok, (parseCsv csv).foldl
      (fun st entry => insertOrReplaceEmployee now entry.1 entry.2.1 entry.2.2 st) s)

/-! ## Campaign handlers -/

/-- Body of `POST /api/campaigns`; `none` is a key that is missing or `null`. -/
structure CreateRequest where
  name : Option String
  template_key : Option String
  subject : Option String
  recipients : Option (List String)
  scheduled_time : Option String
  end_time : Option String
  from_email : Option String
  manager_email : Option String
  smtp_host : Option String
  smtp_port : Option Int
  smtp_user : Option String
  smtp_pass : Option String
  deriving DecidableEq, Repr

/-- The row `POST /api/campaigns` inserts, for the template found and a `name`
that is not `null`. -/
def createRow (campaignId : Nat) (now : String) (req : CreateRequest) (template : Template)
    (name : String) : Campaign :=
  { id := campaignId
    name := name
    subject := orElse req.subject template.subject
    template_key := template.key
    scheduled_time := req.scheduled_time
    end_time := req.end_time
    approval := false
    enable_sending := false
    smtp_host := some (orElse req.smtp_host "")
    smtp_port := if req.smtp_port = some 0 then none else req.smtp_port
    smtp_user := some (orElse req.smtp_user "")
    smtp_pass := some (orElse req.smtp_pass "")
    from_email := some (orElse req.from_email "")
    manager_email := some (orElse req.manager_email "")
    notified_high_clicks := false
    status := if truthy req.scheduled_time then .scheduled else .draft
    created_at := now
    updated_at := now }

/-- `POST /api/campaigns`. -/
def createCampaign (rand : String → String) (now : String) (req : CreateRequest) (s : Store) :
    Response × Store :=
  match ensureAllowlistEmails s req.recipients with
  | .error msg => (.badRequest msg, s)
  | .ok _ =>
    match req.template_key.bind findTemplate with
    | none => (.badRequest "Invalid template", s)
    | some template =>
      match req.name with
      | none => (.badRequest "SQLITE_CONSTRAINT: NOT NULL constraint failed: campaigns.name", s)
      | some name =>
        let campaignId := nextRowid (s.campaigns.map (fun c => c.id)) s.campaigns_seq
        let s1 := { s with
          campaigns := s.campaigns ++ [createRow campaignId now req template name],
          campaigns_seq := campaignId }
        let employees := selectEmployees s1 (req.recipients.getD [])
        (.ok, insertTargets rand campaignId employees s1)

/-- Body of `PUT /api/campaigns/:id`. For a column, `none` is a key that is not in
the body, `some none` the value `null`, `some (some v)` the value `v`; for the two
flags the supplied value counts by its truthiness; `recipients` is the list when
the body holds an array under that key. -/
structure EditRequest where
  name : Option (Option String)
  template_key : Option (Option String)
  subject : Option (Option String)
  scheduled_time : Option (Option String)
  end_time : Option (Option String)
  from_email : Option (Option String)
  manager_email : Option (Option String)
  smtp_host : Option (Option String)
  smtp_port : Option (Option Int)
  smtp_user : Option (Option String)
  smtp_pass : Option (Option String)
  enable_sending : Option Bool
  approval : Option Bool
  recipients : Option (List String)
  deriving DecidableEq, Repr

/-- The value of a nullable column after `SET col = ?` when the key is supplied. -/
def assign {α : Type} (supplied : Option (Option α)) (old : Option α) : Option α :=
  match supplied with
  | none => old
  | some v => v

/-- The value of a `NOT NULL` column after `SET col = ?`; `none` when the
constraint fails. -/
def assignNotNull (supplied : Option (Option String)) (old : String) : Option String :=
  match supplied with
  | none => some old
  | some v => v

/-- The row the `UPDATE` of `PUT /api/campaigns/:id` writes in place of `c`, or
`none` when a `NOT NULL` constraint fails. -/
def editRow (req : EditRequest) (now : String) (c : Campaign) : Option Campaign :=
  match assignNotNull req.name c.name, assignNotNull req.template_key c.template_key,
      assignNotNull req.subject c.subject with
  | some name, some template_key, some subject =>
    some { c with
      name := name
      template_key := template_key
      subject := subject
      scheduled_time := assign req.scheduled_time c.scheduled_time
      end_time := assign req.end_time c.end_time
      from_email := assign req.from_email c.from_email
      manager_email := assign req.manager_email c.manager_email
      smtp_host := assign req.smtp_host c.smtp_host
      smtp_port := assign req.smtp_port c.smtp_port
      smtp_user := assign req.smtp_user c.smtp_user
      smtp_pass := assign req.smtp_pass c.smtp_pass
      enable_sending := req.enable_sending.getD c.enable_sending
      approval := req.approval.getD c.approval
      updated_at := now }
  | _, _, _ => none

/-- The rows of `campaigns` after `UPDATE campaigns SET ... WHERE id = ?`, or `none`
when the statement fails (it then changes nothing). -/
def updateRows (f : Campaign → Option Campaign) (id : Nat) : List Campaign → Option (List Campaign)
  | [] => some []
  | c :: cs =>
    if c.id = id then
      match f c, updateRows f id cs with
      | some c', some cs' => some (c' :: cs')
      | _, _ => none
    else
      match updateRows f id cs with
      | some cs' => some (c :: cs')
      | none => none

/-- `PUT /api/campaigns/:id`. -/
def editCampaign (rand : String → String) (now : String) (id : Nat) (req : EditRequest)
    (s : Store) : Response × Store :=
  match getCampaign s id with
  | none => (.notFound "Campaign not found", s)
  | some campaign =>
    if campaign.status = .running ∨ campaign.status = .completed then
      (.badRequest "Cannot edit running or completed campaigns", s)
    else
      match updateRows (editRow req now) id s.campaigns with
      | none => (.badRequest "SQLITE_CONSTRAINT: NOT NULL constraint failed", s)
      | some rows =>
        let s1 := { s with campaigns := rows }
        match req.recipients with
        | none => (.ok, s1)
        | some recipients =>
          match ensureAllowlistEmails s1 (some recipients) with
          | .error msg => (.badRequest msg, s1)
          | .ok _ =>
            let s2 := { s1 with
              campaign_targets := s1.campaign_targets.filter (fun t => t.campaign_id ≠ id) }
            (.ok, insertTargets rand id (selectEmployees s2 recipients) s2)

/-- `POST /api/campaigns/:id/approve`. -/
def approveCampaign (now : String) (id : Nat) (s : Store) : Response × Store :=
  (.ok, updateCampaign s id (fun c => { c with approval := true, updated_at := now }))

/-- `POST /api/campaigns/:id/send`. -/
def queueSend (now : String) (id : Nat) (s : Store) : Response × Store :=
  match getCampaign s id with
  | none => (.notFound "Not found", s)
  | some campaign =>
    if !campaign.approval then (.badRequest "Campaign must be approved before sending", s)
    else
      (.ok, updateCampaign s id
        (fun c => { c with status := .scheduled, scheduled_time := some now, updated_at := now }))

/-! ## Events, notification, dispatch and debrief -/

/-- `recordEvent(campaignId, email, eventType, ip, simulatedEntry)`. The `INSERT` binds no
`timestamp`, so the column takes its default, `CURRENT_TIMESTAMP`. -/
def recordEvent (env : Env) (now : String) (campaignId : Nat) (email : String)
    (eventType : EventType) (ip : String) (simulatedEntry : Bool) (s : Store) : Store :=
  let ipHash := if ip ≠ "" ∧ ip ≠ "unknown" then some (env.hashValue ip) else none
  let id := nextRowid (s.campaign_events.map (fun e => e.id)) s.events_seq
  { s with
    campaign_events := s.campaign_events ++
      [{ id := id, campaign_id := campaignId, email := email, event_type := eventType,
         timestamp := currentTimestamp now, ip_hash := ipHash,
         simulated_entry := simulatedEntry }],
    events_seq := id }

/-- The `from` of every message: `campaign.from_email || process.env.MAIL_FROM || ...`. -/
def fromAddress (env : Env) (campaign : Campaign) : String :=
  orElse campaign.from_email (orElse env.mailFrom "security-training@example.com")

/-- The message `notifyManagerHighClicks` sends. -/
def alertMail (env : Env) (campaign : Campaign) : Mail :=
  { to_addr := campaign.manager_email.getD ""
    from_addr := fromAddress env campaign
    subject := "[Awareness] High click-through alert for campaign " ++ campaign.name
    text := "More than 50% of recipients clicked the simulation email. Please follow up with your team for additional coaching."
    html := "<p>More than 50% of recipients clicked the simulation email for <strong>"
      ++ campaign.name ++ "</strong>.</p><p>Please follow up with your team for additional coaching.</p>" }

/-- `notifyManagerHighClicks(campaign)`, where `campaign` is the row object the
caller read. -/
def notifyManagerHighClicks (env : Env) (campaign : Campaign) (s : Store) : Outcome :=
  if !truthy campaign.manager_email then ⟨s, false⟩
  else
    let delivered := countEvents s campaign.id .delivered
    let clicks := countEvents s campaign.id .clicked
    if delivered = 0 then ⟨s, false⟩
    else
      let ratio : ℚ := (clicks : ℚ) / (delivered : ℚ)
      if ratio ≥ 1 / 2 ∧ campaign.notified_high_clicks = false then
        if sendMail env campaign (alertMail env campaign) then
          ⟨updateCampaign
            { s with outbox := s.outbox ++ [⟨.alert, campaign.id, alertMail env campaign⟩] }
            campaign.id (fun c => { c with notified_high_clicks := true }), false⟩
        else ⟨s, true⟩
      else ⟨s, false⟩

/-- The message `sendDebrief` sends to one target. -/
def debriefMail (env : Env) (campaign : Campaign) (target : CampaignTarget) : Mail :=
  let url := orElse env.debriefUrl "https://intranet/security-awareness"
  { to_addr := target.email
    from_addr := fromAddress env campaign
    subject := "Security Simulation Debrief: " ++ campaign.name
    text := "This message is a debrief for the internal phishing awareness simulation \""
      ++ campaign.name ++ "\". The exercise is complete, and no action is required. Review the learning resources at "
      ++ url ++ "."
    html := "<p>This message is a debrief for the internal phishing awareness simulation <strong>"
      ++ campaign.name ++ "</strong>. The exercise is complete, and no action is required.</p><p>Review the learning resources at <a href=\""
      ++ url ++ "\">our security awareness page</a>.</p>" }

/-- The `for` loop of `sendDebrief`. -/
def debriefLoop (env : Env) (campaign : Campaign) : List CampaignTarget → Store → Outcome
  | [], s => ⟨s, false⟩
  | target :: rest, s =>
    if sendMail env campaign (debriefMail env campaign target) then
      debriefLoop env campaign rest
        { s with outbox := s.outbox ++ [⟨.debrief, campaign.id, debriefMail env campaign target⟩] }
    else ⟨s, true⟩

/-- `sendDebrief(campaign)`. -/
def sendDebrief (env : Env) (campaign : Campaign) (s : Store) : Outcome :=
  debriefLoop env campaign (getCampaignTargets s campaign.id) s

/-- The message `dispatchCampaign` sends to one target. -/
def simulationMail (env : Env) (campaign : Campaign) (template : Template)
    (target : CampaignTarget) : Mail :=
  let personalizedBody := maskTemplate template.body target
  let htmlBody := replaceAll "\n" "<br/>" personalizedBody
  let trackingPixel := "<img src=\"" ++ env.baseTrackingUrl ++ "/track/open/" ++ target.token
    ++ ".gif\" alt=\"\" width=\"1\" height=\"1\" style=\"display:none;\"/>"
  let clickUrl := env.baseTrackingUrl ++ "/track/click/" ++ target.token
  { to_addr := target.email
    from_addr := fromAddress env campaign
    subject := campaign.subject
    text := personalizedBody ++ "\n\nAccess secure page: " ++ clickUrl
    html := "<p>" ++ htmlBody ++ "</p><p><a href=\"" ++ clickUrl
      ++ "\">Access secure page</a></p>" ++ trackingPixel }

/-- `UPDATE campaign_targets SET delivered = 1 WHERE id = ?`. -/
def markDelivered (targetId : Nat) (s : Store) : Store :=
  { s with
    campaign_targets := s.campaign_targets.map
      (fun t => if t.id = targetId then { t with delivered := true } else t) }

/-- One turn of the loop of `dispatchCampaign` after `sendMail` has resolved: the
message is in the log, then `recordEvent`, then the `UPDATE` of the target. -/
def deliverOne (env : Env) (now : String) (campaign : Campaign) (template : Template)
    (target : CampaignTarget) (s : Store) : Store :=
  markDelivered target.id
    (recordEvent env now campaign.id target.email .delivered "internal" false
      { s with outbox := s.outbox ++
        [⟨.simulation, campaign.id, simulationMail env campaign template target⟩] })

/-- The `for` loop of `dispatchCampaign`. -/
def dispatchLoop (env : Env) (now : String) (campaign : Campaign) (template : Template) :
    List CampaignTarget → Store → Outcome
  | [], s => ⟨s, false⟩
  | target :: rest, s =>
    if sendMail env campaign (simulationMail env campaign template target) then
      dispatchLoop env now campaign template rest (deliverOne env now campaign template target s)
    else ⟨s, true⟩

/-- `dispatchCampaign(campaignId)`. -/
def dispatchCampaign (env : Env) (now : String) (campaignId : Nat) (s : Store) : Outcome :=
  match getCampaign s campaignId with
  | none => ⟨s, false⟩
  | some campaign =>
    match findTemplate campaign.template_key with
    | none => ⟨s, false⟩
    | some template =>
      dispatchLoop env now campaign template (getCampaignTargets s campaignId) s

/-! ## Scheduler -/

/-- The `WHERE` clause of `checkScheduledCampaigns`. -/
def dueToRun (now : String) (c : Campaign) : Bool :=
  c.approval && (c.status = .scheduled || c.status = .draft) &&
    (match c.scheduled_time with
     | none => false
     | some t => textLe t now)

/-- The row `UPDATE campaigns SET status = 'running', updated_at = ?` writes. -/
def promote (now : String) (c : Campaign) : Campaign :=
  { c with status := .running, updated_at := now }

/-- The row `UPDATE campaigns SET status = "completed", updated_at = ?` writes. -/
def complete (now : String) (c : Campaign) : Campaign :=
  { c with status := .completed, updated_at := now }

/-- The `for` loop of `checkScheduledCampaigns`. -/
def scheduledLoop (env : Env) (now : String) : List Campaign → Store → Outcome
  | [], s => ⟨s, false⟩
  | campaign :: rest, s =>
    let r := dispatchCampaign env now campaign.id (updateCampaign s campaign.id (promote now))
    if r.threw then r else scheduledLoop env now rest r.store

/-- `checkScheduledCampaigns()`. -/
def checkScheduledCampaigns (env : Env) (now : String) (s : Store) : Outcome :=
  scheduledLoop env now (s.campaigns.filter (dueToRun now)) s

/-- The `WHERE` clause of `checkDebriefs`. -/
def dueToComplete (now : String) (c : Campaign) : Bool :=
  c.status = .running &&
    (match c.end_time with
     | none => false
     | some t => textLe t now)

/-- The `for` loop of `checkDebriefs`. -/
def debriefsLoop (env : Env) (now : String) : List Campaign → Store → Outcome
  | [], s => ⟨s, false⟩
  | campaign :: rest, s =>
    let r := sendDebrief env campaign s
    if r.threw then r
    else
      debriefsLoop env now rest (updateCampaign r.store campaign.id (complete now))

/-- `checkDebriefs()`. -/
def checkDebriefs (env : Env) (now : String) (s : Store) : Outcome :=
  debriefsLoop env now (s.campaigns.filter (dueToComplete now)) s

/-- One firing of the `setInterval` callback. It calls `checkScheduledCampaigns()` and
`checkDebriefs()` one after the other without awaiting, each with its own `catch`: both
`SELECT`s are issued in that turn and read the store as the tick finds it. The two loops
then take turns at their `await`s; they write to different campaigns (one scan selected
rows that are scheduled or draft, the other rows that are running), and here the steps of
the promote-to-running loop come first. -/
def tick (env : Env) (now : String) (s : Store) : Store :=
  let due := s.campaigns.filter (dueToRun now)
  let ending := s.campaigns.filter (dueToComplete now)
  (debriefsLoop env now ending (scheduledLoop env now due s).store).store

/-! ## Tracking endpoints -/

/-- `GET /track/open/:token.gif`; `ip` is what `getClientIp(req)` returns. -/
def trackOpen (env : Env) (now : String) (token ip : String) (s : Store) : Response × Store :=
  match findByToken s token with
  | none => (.ok, s)
  | some target => (.ok, recordEvent env now target.campaign_id target.email .opened ip false s)

/-- `GET /track/click/:token`. Inside the `try` block the recorded click stays
when the notification throws. -/
def trackClick (env : Env) (now : String) (token ip : String) (s : Store) : Response × Store :=
  match findByToken s token with
  | none => (.ok, s)
  | some target =>
    let s1 := recordEvent env now target.campaign_id target.email .clicked ip false s
    match getCampaign s1 target.campaign_id with
    | none => (.ok, s1)
    | some campaign => (.ok, (notifyManagerHighClicks env campaign s1).store)

/-- `POST /landing/:token/submit`; `form` is the submitted body. -/
def submitLanding (env : Env) (now : String) (token ip : String) (_form : List (String × String))
    (s : Store) : Response × Store :=
  match findByToken s token with
  | none => (.ok, s)
  | some target => (.ok, recordEvent env now target.campaign_id target.email .submitted ip true s)

/-! ## Analytics -/

/-- `SELECT event_type, COUNT(*) as count FROM campaign_events WHERE campaign_id = ?
GROUP BY event_type`: one row for each event type that occurs. -/
def groupCounts (s : Store) (campaignId : Nat) : List (EventType × Nat) :=
  [EventType.clicked, EventType.delivered, EventType.opened, EventType.submitted].filterMap
    (fun ty =>
      let rows := s.campaign_events.filter
        (fun e => e.campaign_id = campaignId ∧ e.event_type = ty)
      if rows = [] then none else some (ty, rows.length))

/-- The object `totals.reduce(...)` builds, as a lookup. -/
def totalsMap (totals : List (EventType × Nat)) : EventType → Option Nat :=
  totals.foldl (fun acc curr => fun ty => if ty = curr.1 then some curr.2 else acc ty)
    (fun _ => none)

/-- The answer of `GET /api/campaigns/:id/analytics`. -/
structure Analytics where
  delivered : Nat
  opened : Nat
  clicked : Nat
  submitted : Nat
  openRate : ℚ
  clickRate : ℚ
  submitRate : ℚ
  deriving DecidableEq

/-- `GET /api/campaigns/:id/analytics`; `none` is the 404 answer. Quotients are
exact. -/
def analytics (s : Store) (id : Nat) : Option Analytics :=
  match getCampaign s id with
  | none => none
  | some _ =>
    let map := totalsMap (groupCounts s id)
    let delivered := (map .delivered).getD 0
    let opened := (map .opened).getD 0
    let clicked := (map .clicked).getD 0
    let submitted := (map .submitted).getD 0
    some
      { delivered := delivered
        opened := opened
        clicked := clicked
        submitted := submitted
        openRate := if delivered ≠ 0 then (opened : ℚ) / (delivered : ℚ) else 0
        clickRate := if delivered ≠ 0 then (clicked : ℚ) / (delivered : ℚ) else 0
        submitRate := if clicked ≠ 0 then (submitted : ℚ) / (clicked : ℚ) else 0 }

/-! ## The engine as a transition system -/

/-- A request, or one of the two scheduler scans, with the values it takes from
outside: the clock, and `createToken` for the requests that issue tokens. -/
inductive Op where
  | allowlistAdd (now : String) (employees : List AllowlistEntry)
  | allowlistUpload (now : String) (csv : String)
  | create (rand : String → String) (now : String) (req : CreateRequest)
  | edit (rand : String → String) (now : String) (id : Nat) (req : EditRequest)
  | approve (now : String) (id : Nat)
  | queueSend (now : String) (id : Nat)
  | trackOpen (now : String) (token ip : String)
  | trackClick (now : String) (token ip : String)
  | submit (now : String) (token ip : String) (form : List (String × String))
  | checkScheduled (now : String)
  | checkDebriefs (now : String)

/-- The store after one operation. -/
def step (env : Env) (op : Op) (s : Store) : Store :=
  match op with
  | .allowlistAdd now employees => (allowlistAdd now employees s).2
  | .allowlistUpload now csv => (allowlistUpload now csv s).2
  | .create rand now req => (createCampaign rand now req s).2
  | .edit rand now id req => (editCampaign rand now id req s).2
  | .approve now id => (approveCampaign now id s).2
  | .queueSend now id => (queueSend now id s).2
  | .trackOpen now token ip => (trackOpen env now token ip s).2
  | .trackClick now token ip => (trackClick env now token ip s).2
  | .submit now token ip form => (submitLanding env now token ip form s).2
  | .checkScheduled now => (checkScheduledCampaigns env now s).store
  | .checkDebriefs now => (checkDebriefs env now s).store

/-- The store after a sequence of operations handled one after another. -/
def run (env : Env) (ops : List Op) (s : Store) : Store :=
  ops.foldl (fun st op => step env op st) s

/-! ## `GET /track/click/:token`, one `await` at a time

Node runs a handler without interruption from one `await` to the next; at an `await`
another request may run. `clickStep` is what one click request does between two `await`s:
the awaited database call or send, and the code up to the next `await`. -/

/-- The `await` a click request is waiting at. -/
inductive ClickPoint where
  | findTarget
  | record (target : CampaignTarget)
  | loadCampaign (target : CampaignTarget)
  | countDelivered (campaign : Campaign)
  | countClicks (campaign : Campaign) (delivered : Nat)
  | send (campaign : Campaign)
  | setLatch (campaign : Campaign)
  | done
  deriving DecidableEq, Repr

/-- A click request: the clock reading, the token of the URL and what `getClientIp`
returns. -/
structure ClickRequest where
  now : String
  token : String
  ip : String
  deriving DecidableEq, Repr

/-- One step of a click request: from the `await` it is waiting at to the next one.
`findTarget` is the `runGet` of the target, `record` is `recordEvent`, `loadCampaign` the
`runGet` of the campaign, followed inside `notifyManagerHighClicks` by the two counts, the
`sendMail` and the `UPDATE` of the latch. -/
def clickStep (env : Env) (r : ClickRequest) : ClickPoint → Store → ClickPoint × Store
  | .findTarget, s =>
    match findByToken s r.token with
    | none => (.done, s)
    | some target => (.record target, s)
  | .record target, s =>
    (.loadCampaign target,
      recordEvent env r.now target.campaign_id target.email .clicked r.ip false s)
  | .loadCampaign target, s =>
    match getCampaign s target.campaign_id with
    | none => (.done, s)
    | some campaign =>
      if !truthy campaign.manager_email then (.done, s) else (.countDelivered campaign, s)
  | .countDelivered campaign, s =>
    (.countClicks campaign (countEvents s campaign.id .delivered), s)
  | .countClicks campaign delivered, s =>
    let clicks := countEvents s campaign.id .clicked
    if delivered = 0 then (.done, s)
    else
      let ratio : ℚ := (clicks : ℚ) / (delivered : ℚ)
      if ratio ≥ 1 / 2 ∧ campaign.notified_high_clicks = false then (.send campaign, s)
      else (.done, s)
  | .send campaign, s =>
    if sendMail env campaign (alertMail env campaign) then
      (.setLatch campaign,
        { s with outbox := s.outbox ++ [⟨.alert, campaign.id, alertMail env campaign⟩] })
    else (.done, s)
  | .setLatch campaign, s =>
    (.done, updateCampaign s campaign.id (fun c => { c with notified_high_clicks := true }))
  | .done, s => (.done, s)

/-- A click request handled alone for `n` steps. -/
def clickAlone (env : Env) (r : ClickRequest) : Nat → ClickPoint × Store → ClickPoint × Store
  | 0, st => st
  | n + 1, st => clickAlone env r n (clickStep env r st.1 st.2)

/-- Click requests in flight together: `schedule` names, step after step, the request
that runs next; `points` holds the `await` each request is waiting at. -/
def interleave (env : Env) (requests : List ClickRequest) :
    List Nat → List ClickPoint × Store → List ClickPoint × Store
  | [], st => st
  | i :: rest, st =>
    match requests.get? i, st.1.get? i with
    | some r, some p =>
      interleave env requests rest
        (st.1.set i (clickStep env r p st.2).1, (clickStep env r p st.2).2)
    | _, _ => interleave env requests rest st

/-! ## Relations used to state the properties -/

/-- The ways an operation `op`, applied to store `s`, may rewrite the row `c`. -/
inductive RowChange (s : Store) (op : Op) (c : Campaign) : Campaign → Prop where
  | same : RowChange s op c c
  | edited (rand : String → String) (now : String) (id : Nat) (req : EditRequest)
      (row : Campaign) : op = .edit rand now id req → editRow req now c = some row →
      RowChange s op c row
  | approved (now : String) (id : Nat) : op = .approve now id →
      RowChange s op c { c with approval := true, updated_at := now }
  | queued (now : String) (id : Nat) : op = .queueSend now id →
      RowChange s op c { c with status := .scheduled, scheduled_time := some now, updated_at := now }
  | latched (now : String) (token ip : String) : op = .trackClick now token ip →
      RowChange s op c { c with notified_high_clicks := true }
  | promoted (now : String) : op = .checkScheduled now →
      (∃ d ∈ s.campaigns, d.id = c.id ∧ dueToRun now d = true) →
      RowChange s op c (promote now c)
  | completed (now : String) : op = .checkDebriefs now →
      (∃ d ∈ s.campaigns, d.id = c.id ∧ dueToComplete now d = true) →
      RowChange s op c (complete now c)

/-- What holds of a row an operation adds to `campaigns`: only a create adds one,
with the next rowid, not approved, not yet notified, in status draft or scheduled. -/
def FreshRow (s : Store) (op : Op) (c : Campaign) : Prop :=
  (∃ rand now req, op = .create rand now req) ∧
    c.id = nextRowid (s.campaigns.map (fun d => d.id)) s.campaigns_seq ∧
    (c.status = .draft ∨ c.status = .scheduled) ∧
    c.approval = false ∧ c.notified_high_clicks = false

/-- The row an accepted edit is expected to leave: each field the request supplies holds
the supplied value, `updated_at` is the time of the request, and every other column is as
before. -/
def expectedEdit (req : EditRequest) (now : String) (c : Campaign) : Campaign :=
  { id := c.id
    name := match req.name with
      | some (some v) => v
      | _ => c.name
    subject := match req.subject with
      | some (some v) => v
      | _ => c.subject
    template_key := match req.template_key with
      | some (some v) => v
      | _ => c.template_key
    scheduled_time := req.scheduled_time.getD c.scheduled_time
    end_time := req.end_time.getD c.end_time
    approval := req.approval.getD c.approval
    enable_sending := req.enable_sending.getD c.enable_sending
    smtp_host := req.smtp_host.getD c.smtp_host
    smtp_port := req.smtp_port.getD c.smtp_port
    smtp_user := req.smtp_user.getD c.smtp_user
    smtp_pass := req.smtp_pass.getD c.smtp_pass
    from_email := req.from_email.getD c.from_email
    manager_email := req.manager_email.getD c.manager_email
    notified_high_clicks := c.notified_high_clicks
    status := c.status
    created_at := c.created_at
    updated_at := now }

/-- The request supplies `null` for a column declared `NOT NULL`. -/
def suppliesNull (req : EditRequest) : Prop :=
  req.name = some none ∨ req.template_key = some none ∨ req.subject = some none

/-- The store after the loop of `dispatchCampaign` has gone through `targets` with every
send accepted. -/
def afterSends (env : Env) (now : String) (campaign : Campaign) (template : Template)
    (targets : List CampaignTarget) (s : Store) : Store :=
  targets.foldl (fun st target => deliverOne env now campaign template target st) s

/-- The messages the transports accepted between the store `s` and the later store `s'`. -/
def sentSince (s s' : Store) : List Sent := s'.outbox.drop s.outbox.length

/-- The events recorded between the store `s` and the later store `s'`. -/
def recordedSince (s s' : Store) : List CampaignEvent :=
  s'.campaign_events.drop s.campaign_events.length

/-- The rows of `campaign_targets` in `s'` are those of `s`, row by row, some of them with
`delivered` set, and the targets of the campaigns outside `ids` are as they were. -/
def TargetsMarked (ids : List Nat) (s s' : Store) : Prop :=
  ∃ f : CampaignTarget → CampaignTarget,
    s'.campaign_targets = s.campaign_targets.map f ∧
    (∀ t, f t = t ∨ f t = { t with delivered := true }) ∧
    (∀ t ∈ s.campaign_targets, t.campaign_id ∉ ids → f t = t)

/-- The log and the events of `s'` continue those of `s`. -/
def Extends (s s' : Store) : Prop :=
  (∃ new : List Sent, s'.outbox = s.outbox ++ new) ∧
  ∃ evs : List CampaignEvent, s'.campaign_events = s.campaign_events ++ evs

/-- Reference definition of the analytics of campaign `id` over an event log, after the
specification: each count is the number of that campaign's events of the type; `openRate`
and `clickRate` are the quotients by `delivered`, or 0 when `delivered` is 0; `submitRate`
is `submitted / clicked`, or 0 when `clicked` is 0. -/
def analyticsReference (events : List CampaignEvent) (id : Nat) : Analytics :=
  let count := fun (ty : EventType) =>
    events.countP (fun e => e.campaign_id = id ∧ e.event_type = ty)
  { delivered := count .delivered
    opened := count .opened
    clicked := count .clicked
    submitted := count .submitted
    openRate := if 0 < count .delivered then (count .opened : ℚ) / (count .delivered : ℚ) else 0
    clickRate := if 0 < count .delivered then (count .clicked : ℚ) / (count .delivered : ℚ) else 0
    submitRate := if 0 < count .clicked then (count .submitted : ℚ) / (count .clicked : ℚ) else 0 }

/-- The number of high-click alerts the transports have accepted for campaign `id`. -/
def alertsSent (s : Store) (id : Nat) : Nat :=
  s.outbox.countP (fun m => m.kind = .alert ∧ m.campaign_id = id)

/-- The stored `notified_high_clicks` of campaign `id`; `false` when there is no such
campaign. -/
def latch (s : Store) (id : Nat) : Bool :=
  match getCampaign s id with
  | some c => c.notified_high_clicks
  | none => false

/-- The notification rule, on the row `c` read by the caller and the event log of `s`:
`manager_email` is set, the campaign has a delivered event, twice its clicks are at least
its delivered events, and the latch read is not set. -/
def highClickRule (s : Store) (c : Campaign) : Bool :=
  truthy c.manager_email && decide (0 < countEvents s c.id .delivered) &&
    decide (countEvents s c.id .delivered ≤ 2 * countEvents s c.id .clicked) &&
    !c.notified_high_clicks

/-- The text `part` occurs in the message `msg`. -/
def mentions (msg part : String) : Prop := part.toList <:+: msg.toList

/-- The addresses stored in the allowlist. -/
def allowlisted (s : Store) : List String := s.employees.map (fun e => e.email)

/-- The domain part of an address: the text after its last `@`; `none` when the address
holds no `@`. -/
def domainPart (email : String) : Option String :=
  match (splitChar '@' email.toList).reverse with
  | [] => none
  | [_] => none
  | d :: _ :: _ => some (String.mk d)

/-- The domain part of the address, compared without regard to case, is on the deny
list. -/
def onDenyList (email : String) : Bool :=
  match domainPart email with
  | none => false
  | some d => DO_NOT_SEND_DOMAINS.contains (toLowerCase d)

/-- Every address in the allowlist and every address of a campaign target passes
`isDomainAllowed`. -/
def addressesPass (s : Store) : Prop :=
  (∀ e ∈ s.employees, isDomainAllowed e.email = true) ∧
  (∀ t ∈ s.campaign_targets, isDomainAllowed t.email = true)

/-- The store `s'` holds the allowlist of `s` and targets with the same addresses, row by
row. -/
def SameAddresses (s s' : Store) : Prop :=
  s'.employees = s.employees ∧
  s'.campaign_targets.map (fun t => t.email) = s.campaign_targets.map (fun t => t.email)

/-- One left-to-right pass over a template body that replaces each occurrence of the
`name` placeholder by `name` and each occurrence of the `department` placeholder by
`department`, both copied as they are, and copies every other character; `skip` counts the
characters of the current placeholder still to pass. -/
def substituteAux (name department : List Char) : Nat → List Char → List Char
  | _, [] => []
  | skip + 1, _ :: rest => substituteAux name department skip rest
  | 0, c :: rest =>
    if "\x7b\x7bname\x7d\x7d".toList.isPrefixOf (c :: rest) then
      name ++ substituteAux name department 7 rest
    else if "\x7b\x7bdepartment\x7d\x7d".toList.isPrefixOf (c :: rest) then
      department ++ substituteAux name department 13 rest
    else c :: substituteAux name department 0 rest

/-- Reference rendering of a template body for a target: simultaneous, literal
substitution of the two placeholders, with the defaults `Colleague` and `your team` for a
value that is empty or absent. -/
def renderReference (body : String) (data : CampaignTarget) : String :=
  String.mk (substituteAux (orElse data.name "Colleague").toList
    (orElse data.department "your team").toList 0 body.toList)

/-- `dispatchCampaign(campaignId)` invoked once for each reading of `clock`, one
invocation after the other. -/
def dispatchEach (env : Env) (campaignId : Nat) (clock : List String) (s : Store) : Store :=
  clock.foldl (fun st now => (dispatchCampaign env now campaignId st).store) s

/-- The log entries of one dispatch that sends to every one of `targets`. -/
def dispatchMessages (env : Env) (campaign : Campaign) (template : Template)
    (targets : List CampaignTarget) : List Sent :=
  targets.map (fun t => ⟨.simulation, campaign.id, simulationMail env campaign template t⟩)

/-- The list `l` repeated `k` times. -/
def repeated {α : Type} (k : Nat) (l : List α) : List α :=
  match k with
  | 0 => []
  | k + 1 => l ++ repeated k l

/-! ## Example data -/

/-- An environment whose SMTP server refuses every message to `b@co.com`. -/
def exEnv : Env :=
  { baseTrackingUrl := "http://localhost:4000"
    mailFrom := none
    debriefUrl := none
    hashValue := fun v => "sha256:" ++ v
    smtp := fun _ mail => mail.to_addr != "b@co.com" }

/-- A campaign as `POST /api/campaigns` stores it, given an id, a schedule and the flags. -/
def exCampaign (id : Nat) (scheduled : Option String) (approval sending : Bool)
    (status : Status) : Campaign :=
  { id := id, name := "Q1 awareness", subject := "Action Required: Verify Your Account Access",
    template_key := "login-mimic", scheduled_time := scheduled, end_time := none,
    approval := approval, enable_sending := sending, smtp_host := some "", smtp_port := none,
    smtp_user := some "", smtp_pass := some "", from_email := some "", manager_email := some "",
    notified_high_clicks := false, status := status, created_at := "2026-01-01T08:00:00.000Z",
    updated_at := "2026-01-01T08:00:00.000Z" }

/-- A target of campaign `campaignId` that nothing was sent to yet. -/
def exTarget (id campaignId : Nat) (email token : String) : CampaignTarget :=
  { id := id, campaign_id := campaignId, email := email, name := some "", department := some "",
    token := token, delivered := false }

/-- A store holding one approved campaign that is due, with one target. -/
def exDueStore : Store :=
  { Store.empty with
    campaigns := [exCampaign 1 (some "2026-01-01T09:00:00.000Z") true false .scheduled]
    campaign_targets := [exTarget 1 1 "a@co.com" "tok-a"]
    campaigns_seq := 1
    targets_seq := 1 }

/-- The token `createToken` answers in the examples. -/
def exRand (seed : String) : String := "tok-" ++ seed

/-- A create request for one recipient, scheduled for nine o'clock. -/
def exCreate : CreateRequest :=
  { name := some "Q1 awareness", template_key := some "login-mimic", subject := none,
    recipients := some ["a@co.com"], scheduled_time := some "2026-01-01T09:00:00.000Z",
    end_time := none, from_email := none, manager_email := none, smtp_host := none,
    smtp_port := none, smtp_user := none, smtp_pass := none }

/-- Allowlist one employee, create a campaign for them, approve it, and let the
scheduler promote and dispatch it. -/
def exLaunch : List Op :=
  [ .allowlistAdd "2026-01-01T07:00:00.000Z" [⟨some "a@co.com", some "Al", some "Eng"⟩],
    .create exRand "2026-01-01T08:00:00.000Z" exCreate,
    .approve "2026-01-01T08:30:00.000Z" 1,
    .checkScheduled "2026-01-01T09:01:00.000Z" ]

/-- A store holding one allowlisted employee and one draft campaign targeting them. -/
def exDraftStore : Store :=
  { Store.empty with
    employees := [{ email := "a@co.com", name := some "Al", department := some "Eng",
                    created_at := "2026-01-01 07:00:00" }]
    campaigns := [exCampaign 1 none false false .draft]
    campaign_targets := [exTarget 1 1 "a@co.com" "tok-a"]
    campaigns_seq := 1
    targets_seq := 1 }

/-- An edit that supplies nothing. -/
def exNoEdit : EditRequest :=
  { name := none, template_key := none, subject := none, scheduled_time := none,
    end_time := none, from_email := none, manager_email := none, smtp_host := none,
    smtp_port := none, smtp_user := none, smtp_pass := none, enable_sending := none,
    approval := none, recipients := none }

/-- A store holding one campaign with real sending switched on and three targets; the
SMTP server of `exEnv` refuses the second one. -/
def exThreeStore : Store :=
  { Store.empty with
    campaigns := [exCampaign 1 (some "2026-01-01T09:00:00.000Z") true true .running]
    campaign_targets := [exTarget 1 1 "a@co.com" "tok-a", exTarget 2 1 "b@co.com" "tok-b",
      exTarget 3 1 "c@co.com" "tok-c"]
    campaigns_seq := 1
    targets_seq := 3 }

/-- A store holding two approved campaigns that are due. The first sends through SMTP and
its only target is the address `exEnv` refuses; the second uses the console transport. -/
def exTwoDueStore : Store :=
  { Store.empty with
    campaigns := [exCampaign 1 (some "2026-01-01T09:00:00.000Z") true true .scheduled,
      exCampaign 2 (some "2026-01-01T09:00:00.000Z") true false .scheduled]
    campaign_targets := [exTarget 1 1 "b@co.com" "tok-b", exTarget 2 2 "a@co.com" "tok-a"]
    campaigns_seq := 2
    targets_seq := 2 }

/-- The campaigns of `exTwoDueStore` once running, with an end time that has passed. -/
def exTwoEndingStore : Store :=
  { exTwoDueStore with
    campaigns := [
      { exCampaign 1 (some "2026-01-01T09:00:00.000Z") true true .running with
        end_time := some "2026-01-01T10:00:00.000Z" },
      { exCampaign 2 (some "2026-01-01T09:00:00.000Z") true false .running with
        end_time := some "2026-01-01T10:00:00.000Z" }] }

/-- The launch of `exLaunch` followed by two clicks of the one recipient on their link. -/
def exTwoClicks : List Op :=
  exLaunch ++
    [ .trackClick "2026-01-01T09:10:00.000Z" "tok-a@co.com1" "203.0.113.7",
      .trackClick "2026-01-01T09:11:00.000Z" "tok-a@co.com1" "203.0.113.7" ]

/-- A store holding a running campaign that reports to a manager whose address the SMTP
server of `exEnv` refuses, with two delivered events and one click. -/
def exAlertStore : Store :=
  { Store.empty with
    campaigns := [{ exCampaign 1 (some "2026-01-01T09:00:00.000Z") true true .running with
      manager_email := some "b@co.com" }]
    campaign_targets := [exTarget 1 1 "a@co.com" "tok-a", exTarget 2 1 "c@co.com" "tok-c"]
    campaign_events := [
      { id := 1, campaign_id := 1, email := "a@co.com", event_type := .delivered,
        timestamp := "2026-01-01 09:01:00", ip_hash := some "sha256:internal",
        simulated_entry := false },
      { id := 2, campaign_id := 1, email := "c@co.com", event_type := .delivered,
        timestamp := "2026-01-01 09:01:00", ip_hash := some "sha256:internal",
        simulated_entry := false },
      { id := 3, campaign_id := 1, email := "a@co.com", event_type := .clicked,
        timestamp := "2026-01-01 09:10:00", ip_hash := some "sha256:203.0.113.7",
        simulated_entry := false }]
    campaigns_seq := 1
    targets_seq := 2
    events_seq := 3 }

/-- An allowlist request for one colleague and one address on a deny-listed domain. -/
def exAllowlistOps : List Op :=
  [ .allowlistAdd "2026-01-01T07:00:00.000Z"
      [⟨some "a@co.com", some "Al", some "Eng"⟩, ⟨some "x@gmail.com", some "Ex", some "Ops"⟩] ]

/-- An address at `gmail.com` whose local part is quoted and holds an `@`. -/
def exQuotedAddress : String := "\"ops@hq\"@gmail.com"

/-- Allowlist the quoted address and create a campaign for it. -/
def exQuotedOps : List Op :=
  [ .allowlistAdd "2026-01-01T07:00:00.000Z" [⟨some exQuotedAddress, some "Ops", some "HQ"⟩],
    .create exRand "2026-01-01T08:00:00.000Z"
      { exCreate with recipients := some [exQuotedAddress] } ]

/-- A store holding a running campaign that reports to a manager, with two delivered
events and no click yet. Its mail goes to the console transport. -/
def exRaceStore : Store :=
  { Store.empty with
    campaigns := [{ exCampaign 1 (some "2026-01-01T09:00:00.000Z") true false .running with
      manager_email := some "boss@co.com" }]
    campaign_targets := [{ exTarget 1 1 "a@co.com" "tok-a" with delivered := true },
      { exTarget 2 1 "c@co.com" "tok-c" with delivered := true }]
    campaign_events := [
      { id := 1, campaign_id := 1, email := "a@co.com", event_type := .delivered,
        timestamp := "2026-01-01 09:01:00", ip_hash := some "sha256:internal",
        simulated_entry := false },
      { id := 2, campaign_id := 1, email := "c@co.com", event_type := .delivered,
        timestamp := "2026-01-01 09:01:00", ip_hash := some "sha256:internal",
        simulated_entry := false }]
    campaigns_seq := 1
    targets_seq := 2
    events_seq := 2 }

/-- The clicks of the two recipients of `exRaceStore`, arriving together. -/
def exRaceRequests : List ClickRequest :=
  [ ⟨"2026-01-01T09:10:00.000Z", "tok-a", "203.0.113.7"⟩,
    ⟨"2026-01-01T09:10:00.000Z", "tok-c", "203.0.113.9"⟩ ]

/-- The store after `a@co.com` was allowlisted and a campaign scheduled for them was
created: the campaign has one target, whose token is `tok-a@co.com1`. -/
def exCreatedStore : Store :=
  run exEnv
    [ .allowlistAdd "2026-01-01T07:00:00.000Z" [⟨some "a@co.com", some "Al", some "Eng"⟩],
      .create exRand "2026-01-01T08:00:00.000Z" exCreate ] Store.empty

/-- A token generator whose answers differ from those of `exRand`. -/
def exRandLater (seed : String) : String := "new-" ++ seed

/-- A store holding three approved campaigns that are due, each with one target. The
first and the third use the console transport; the second sends through SMTP and its
target is the address `exEnv` refuses. -/
def exThreeDueStore : Store :=
  { Store.empty with
    campaigns := [exCampaign 1 (some "2026-01-01T09:00:00.000Z") true false .scheduled,
      exCampaign 2 (some "2026-01-01T09:00:00.000Z") true true .scheduled,
      exCampaign 3 (some "2026-01-01T09:00:00.000Z") true false .scheduled]
    campaign_targets := [exTarget 1 1 "a@co.com" "tok-a", exTarget 2 2 "b@co.com" "tok-b",
      exTarget 3 3 "c@co.com" "tok-c"]
    campaigns_seq := 3
    targets_seq := 3 }

/-- The campaigns of `exThreeDueStore` once running, with an end time that has passed. -/
def exThreeEndingStore : Store :=
  { exThreeDueStore with
    campaigns := [
      { exCampaign 1 (some "2026-01-01T09:00:00.000Z") true false .running with
        end_time := some "2026-01-01T10:00:00.000Z" },
      { exCampaign 2 (some "2026-01-01T09:00:00.000Z") true true .running with
        end_time := some "2026-01-01T10:00:00.000Z" },
      { exCampaign 3 (some "2026-01-01T09:00:00.000Z") true false .running with
        end_time := some "2026-01-01T10:00:00.000Z" }] }

/-! ## What each part of the engine leaves alone -/

section frame

variable (env : Env) (now : String)

@[simp] theorem recordEvent_campaigns (campaignId : Nat) (email : String) (ty : EventType)
    (ip : String) (sim : Bool) (s : Store) :
    (recordEvent env now campaignId email ty ip sim s).campaigns = s.campaigns := rfl

@[simp] theorem markDelivered_campaigns (targetId : Nat) (s : Store) :
    (markDelivered targetId s).campaigns = s.campaigns := rfl

theorem insertTarget_campaigns (s : Store) (campaignId : Nat) (e : Employee) (token : String) :
    (insertTarget s campaignId e token).campaigns = s.campaigns := by
  unfold insertTarget
  split <;> rfl

theorem insertTargets_campaigns (rand : String → String) (campaignId : Nat)
    (employees : List Employee) (s : Store) :
    (insertTargets rand campaignId employees s).campaigns = s.campaigns := by
  unfold insertTargets
  induction employees generalizing s with
  | nil => rfl
  | cons e es ih => simp only [List.foldl_cons]; rw [ih, insertTarget_campaigns]

theorem allowlistAdd_campaigns (employees : List AllowlistEntry) (s : Store) :
    (allowlistAdd now employees s).2.campaigns = s.campaigns := by
  unfold allowlistAdd
  induction employees generalizing s with
  | nil => rfl
  | cons e es ih =>
    simp only [List.foldl_cons]
    rw [ih]
    cases e.email with
    | none => rfl
    | some email =>
      simp only
      split
      · rfl
      · split <;> rfl

theorem allowlistUpload_campaigns (csv : String) (s : Store) :
    (allowlistUpload now csv s).2.campaigns = s.campaigns := by
  unfold allowlistUpload
  split
  · rfl
  · simp only
    generalize parseCsv csv = entries
    induction entries generalizing s with
    | nil => rfl
    | cons e es ih => simp only [List.foldl_cons]; rw [ih]; rfl

theorem dispatchLoop_campaigns (campaign : Campaign) (template : Template)
    (targets : List CampaignTarget) (s : Store) :
    (dispatchLoop env now campaign template targets s).store.campaigns = s.campaigns := by
  induction targets generalizing s with
  | nil => rfl
  | cons t ts ih =>
    unfold dispatchLoop
    split
    · rw [ih]; rfl
    · rfl

theorem dispatchCampaign_campaigns (campaignId : Nat) (s : Store) :
    (dispatchCampaign env now campaignId s).store.campaigns = s.campaigns := by
  unfold dispatchCampaign
  split
  · rfl
  · split
    · rfl
    · exact dispatchLoop_campaigns env now _ _ _ s

theorem debriefLoop_campaigns (campaign : Campaign) (targets : List CampaignTarget) (s : Store) :
    (debriefLoop env campaign targets s).store.campaigns = s.campaigns := by
  induction targets generalizing s with
  | nil => rfl
  | cons t ts ih =>
    unfold debriefLoop
    split
    · rw [ih]
    · rfl

theorem sendDebrief_campaigns (campaign : Campaign) (s : Store) :
    (sendDebrief env campaign s).store.campaigns = s.campaigns :=
  debriefLoop_campaigns env campaign _ s

end frame

/-! ## How one operation changes the rows of `campaigns` -/

theorem editRow_id {req : EditRequest} {now : String} {c row : Campaign}
    (h : editRow req now c = some row) : row.id = c.id ∧ row.status = c.status ∧
      row.notified_high_clicks = c.notified_high_clicks := by
  unfold editRow at h
  split at h
  · cases h; exact ⟨rfl, rfl, rfl⟩
  · cases h

theorem RowChange.id_eq {s : Store} {op : Op} {c c' : Campaign} (h : RowChange s op c c') :
    c'.id = c.id := by
  cases h with
  | edited rand now id req row _ h => exact (editRow_id h).1
  | _ => rfl

theorem updateRows_eq_map {f : Campaign → Option Campaign} {id : Nat}
    {rows rows' : List Campaign} (h : updateRows f id rows = some rows') :
    rows' = rows.map (fun c => if c.id = id then (f c).getD c else c) ∧
      ∀ c ∈ rows, c.id = id → ∃ c', f c = some c' := by
  induction rows generalizing rows' with
  | nil =>
    simp only [updateRows, Option.some.injEq] at h
    subst h
    simp
  | cons c cs ih =>
    unfold updateRows at h
    split at h
    · rename_i hid
      split at h
      · rename_i c' cs' hc hcs
        cases h
        obtain ⟨hg, hall⟩ := ih hcs
        refine ⟨?_, ?_⟩
        · simp [hid, hc, hg]
        · intro x hx hxid
          rcases List.mem_cons.mp hx with rfl | hx
          · exact ⟨c', hc⟩
          · exact hall x hx hxid
      · cases h
    · rename_i hid
      split at h
      · rename_i cs' hcs
        cases h
        obtain ⟨hg, hall⟩ := ih hcs
        refine ⟨?_, ?_⟩
        · simp [hid, hg]
        · intro x hx hxid
          rcases List.mem_cons.mp hx with rfl | hx
          · exact absurd hxid hid
          · exact hall x hx hxid
      · cases h

/-- The rows of `campaigns` after `notifyManagerHighClicks`. -/
theorem notify_campaigns (env : Env) (campaign : Campaign) (s : Store) :
    (notifyManagerHighClicks env campaign s).store.campaigns = s.campaigns ∨
    (notifyManagerHighClicks env campaign s).store.campaigns =
      s.campaigns.map (fun c => if c.id = campaign.id then
        { c with notified_high_clicks := true } else c) := by
  unfold notifyManagerHighClicks
  split
  · exact Or.inl rfl
  · simp only
    split
    · exact Or.inl rfl
    · split
      · split
        · exact Or.inr rfl
        · exact Or.inl rfl
      · exact Or.inl rfl

@[simp] theorem promote_id (now : String) (c : Campaign) : (promote now c).id = c.id := rfl

@[simp] theorem complete_id (now : String) (c : Campaign) : (complete now c).id = c.id := rfl

@[simp] theorem promote_promote (now : String) (c : Campaign) :
    promote now (promote now c) = promote now c := rfl

@[simp] theorem complete_complete (now : String) (c : Campaign) :
    complete now (complete now c) = complete now c := rfl

/-- The rows of `campaigns` after the loop of `checkScheduledCampaigns`: the rows
whose id is that of a campaign the loop reached are promoted. -/
theorem scheduledLoop_campaigns (env : Env) (now : String) (l : List Campaign) (s : Store) :
    ∃ done : List Campaign, done.Sublist l ∧
      (scheduledLoop env now l s).store.campaigns =
        s.campaigns.map (fun c => if c.id ∈ done.map (fun d => d.id) then promote now c else c) := by
  induction l generalizing s with
  | nil => exact ⟨[], List.Sublist.refl _, by simp [scheduledLoop]⟩
  | cons d ds ih =>
    unfold scheduledLoop
    simp only
    split
    · refine ⟨[d], by simp, ?_⟩
      rw [dispatchCampaign_campaigns]
      simp [updateCampaign]
    · obtain ⟨done, hsub, heq⟩ := ih
        (dispatchCampaign env now d.id (updateCampaign s d.id (promote now))).store
      refine ⟨d :: done, hsub.cons₂ d, ?_⟩
      rw [heq, dispatchCampaign_campaigns]
      simp only [updateCampaign, List.map_map, List.map_cons, List.mem_cons]
      apply List.map_congr_left
      intro c _
      simp only [Function.comp]
      by_cases h1 : c.id = d.id
      · simp [h1]
      · simp [h1]

/-- The rows of `campaigns` after the loop of `checkDebriefs`. -/
theorem debriefsLoop_campaigns (env : Env) (now : String) (l : List Campaign) (s : Store) :
    ∃ done : List Campaign, done.Sublist l ∧
      (debriefsLoop env now l s).store.campaigns =
        s.campaigns.map (fun c => if c.id ∈ done.map (fun d => d.id) then complete now c else c) := by
  induction l generalizing s with
  | nil => exact ⟨[], List.Sublist.refl _, by simp [debriefsLoop]⟩
  | cons d ds ih =>
    unfold debriefsLoop
    simp only
    split
    · refine ⟨[], by simp, ?_⟩
      rw [sendDebrief_campaigns]
      simp
    · obtain ⟨done, hsub, heq⟩ := ih
        (updateCampaign (sendDebrief env d s).store d.id (complete now))
      refine ⟨d :: done, hsub.cons₂ d, ?_⟩
      rw [heq]
      simp only [updateCampaign, sendDebrief_campaigns, List.map_map, List.map_cons,
        List.mem_cons]
      apply List.map_congr_left
      intro c _
      simp only [Function.comp]
      by_cases h1 : c.id = d.id
      · simp [h1]
      · simp [h1]

/-- Every operation rewrites each row of `campaigns` in place, in one of the ways
of `RowChange`, and adds at most the row of a create. -/
theorem step_rows (env : Env) (op : Op) (s : Store) :
    ∃ (g : Campaign → Campaign) (extra : List Campaign),
      (step env op s).campaigns = s.campaigns.map g ++ extra ∧
      (∀ c ∈ s.campaigns, RowChange s op c (g c)) ∧
      (∀ c ∈ extra, FreshRow s op c) := by
  have keep : ∀ s' : Store, s'.campaigns = s.campaigns →
      ∃ (g : Campaign → Campaign) (extra : List Campaign),
        s'.campaigns = s.campaigns.map g ++ extra ∧
        (∀ c ∈ s.campaigns, RowChange s op c (g c)) ∧
        (∀ c ∈ extra, FreshRow s op c) := by
    intro s' h
    exact ⟨fun c => c, [], by simp [h], fun _ _ => .same, by simp⟩
  cases op with
  | allowlistAdd now employees => exact keep _ (allowlistAdd_campaigns now employees s)
  | allowlistUpload now csv => exact keep _ (allowlistUpload_campaigns now csv s)
  | create rand now req =>
    simp only [step, createCampaign]
    split
    · exact keep _ rfl
    · split
      · exact keep _ rfl
      · split
        · exact keep _ rfl
        · rename_i template _ _ name _
          refine ⟨fun c => c, [createRow (nextRowid (s.campaigns.map (fun d => d.id))
            s.campaigns_seq) now req template name], ?_, fun _ _ => .same, ?_⟩
          · rw [insertTargets_campaigns]; simp
          · intro c hc
            rw [List.mem_singleton] at hc
            subst hc
            refine ⟨⟨rand, now, req, rfl⟩, rfl, ?_, rfl, rfl⟩
            simp only [createRow]
            split
            · exact Or.inr rfl
            · exact Or.inl rfl
  | edit rand now id req =>
    simp only [step, editCampaign]
    split
    · exact keep _ rfl
    · split
      · exact keep _ rfl
      · split
        · exact keep _ rfl
        · rename_i rows hrows
          obtain ⟨hmap, hall⟩ := updateRows_eq_map hrows
          have main : ∃ (g : Campaign → Campaign) (extra : List Campaign),
              rows = s.campaigns.map g ++ extra ∧
              (∀ c ∈ s.campaigns, RowChange s (.edit rand now id req) c (g c)) ∧
              (∀ c ∈ extra, FreshRow s (.edit rand now id req) c) := by
            refine ⟨_, [], by rw [List.append_nil]; exact hmap, ?_, by simp⟩
            intro c hc
            by_cases hid : c.id = id
            · obtain ⟨c', hc'⟩ := hall c hc hid
              simp only [hid, if_true, hc', Option.getD_some]
              exact .edited rand now id req c' rfl hc'
            · simp only [hid, if_false]
              exact .same
          split
          · exact main
          · split
            · exact main
            · rw [insertTargets_campaigns]; exact main
  | approve now id =>
    refine ⟨fun c => if c.id = id then { c with approval := true, updated_at := now } else c, [],
      by simp only [step, approveCampaign, updateCampaign, List.append_nil], ?_, by simp⟩
    intro c _
    by_cases hid : c.id = id
    · beta_reduce; rw [if_pos hid]; exact .approved now id rfl
    · beta_reduce; rw [if_neg hid]; exact .same
  | queueSend now id =>
    simp only [step, queueSend]
    split
    · exact keep _ rfl
    · split
      · exact keep _ rfl
      · refine ⟨fun c => if c.id = id then
            { c with status := .scheduled, scheduled_time := some now, updated_at := now } else c,
          [], by simp only [updateCampaign, List.append_nil], ?_, by simp⟩
        intro c _
        by_cases hid : c.id = id
        · beta_reduce; rw [if_pos hid]; exact .queued now id rfl
        · beta_reduce; rw [if_neg hid]; exact .same
  | trackOpen now token ip =>
    simp only [step, trackOpen]
    split <;> exact keep _ rfl
  | trackClick now token ip =>
    simp only [step, trackClick]
    split
    · exact keep _ rfl
    · split
      · exact keep _ rfl
      · rename_i _ target _ _ campaign _
        rcases notify_campaigns env campaign
          (recordEvent env now target.campaign_id target.email .clicked ip false s) with h | h
        · exact keep _ h
        · refine ⟨fun c => if c.id = campaign.id then
              { c with notified_high_clicks := true } else c, [],
            by rw [h, List.append_nil]; rfl, ?_, by simp⟩
          intro c _
          by_cases hid : c.id = campaign.id
          · beta_reduce; rw [if_pos hid]; exact .latched now token ip rfl
          · beta_reduce; rw [if_neg hid]; exact .same
  | submit now token ip form =>
    simp only [step, submitLanding]
    split <;> exact keep _ rfl
  | checkScheduled now =>
    obtain ⟨done, hsub, heq⟩ :=
      scheduledLoop_campaigns env now (s.campaigns.filter (dueToRun now)) s
    refine ⟨_, [], by simp only [step, checkScheduledCampaigns, List.append_nil]; exact heq, ?_,
      by simp⟩
    intro c _
    by_cases hid : c.id ∈ done.map (fun d => d.id)
    · simp only [hid, if_true]
      obtain ⟨d, hd, hdid⟩ := List.mem_map.mp hid
      have hd' := List.mem_filter.mp (hsub.subset hd)
      exact .promoted now rfl ⟨d, hd'.1, hdid, hd'.2⟩
    · simp only [hid, if_false]; exact .same
  | checkDebriefs now =>
    obtain ⟨done, hsub, heq⟩ :=
      debriefsLoop_campaigns env now (s.campaigns.filter (dueToComplete now)) s
    refine ⟨_, [], by simp only [step, checkDebriefs, List.append_nil]; exact heq, ?_,
      by simp⟩
    intro c _
    by_cases hid : c.id ∈ done.map (fun d => d.id)
    · simp only [hid, if_true]
      obtain ⟨d, hd, hdid⟩ := List.mem_map.mp hid
      have hd' := List.mem_filter.mp (hsub.subset hd)
      exact .completed now rfl ⟨d, hd'.1, hdid, hd'.2⟩
    · simp only [hid, if_false]; exact .same

theorem le_foldr_max {ids : List Nat} {n : Nat} (h : n ∈ ids) : n ≤ ids.foldr max 0 := by
  induction ids with
  | nil => cases h
  | cons a as ih =>
    simp only [List.foldr_cons]
    rcases List.mem_cons.mp h with rfl | h
    · exact Nat.le_max_left _ _
    · exact Nat.le_trans (ih h) (Nat.le_max_right _ _)

theorem lt_nextRowid {ids : List Nat} {n : Nat} (seq : Nat) (h : n ∈ ids) :
    n < nextRowid ids seq := by
  unfold nextRowid
  exact Nat.lt_succ_of_le (Nat.le_trans (le_foldr_max h) (Nat.le_max_right _ _))

/-- Two rows of a table with unique ids that share an id are the same row. -/
theorem eq_of_id_eq {rows : List Campaign} (hkey : (rows.map (fun c => c.id)).Nodup)
    {a b : Campaign} (ha : a ∈ rows) (hb : b ∈ rows) (h : a.id = b.id) : a = b :=
  List.inj_on_of_nodup_map hkey ha hb h

theorem dueToRun_iff {now : String} {c : Campaign} (h : dueToRun now c = true) :
    c.approval = true ∧ (c.status = .draft ∨ c.status = .scheduled) ∧
      ∃ t, c.scheduled_time = some t ∧ textLe t now = true := by
  unfold dueToRun at h
  simp only [Bool.and_eq_true, Bool.or_eq_true, decide_eq_true_eq] at h
  obtain ⟨⟨h1, h2⟩, h3⟩ := h
  refine ⟨h1, h2.symm, ?_⟩
  cases hst : c.scheduled_time with
  | none => rw [hst] at h3; cases h3
  | some t => rw [hst] at h3; exact ⟨t, rfl, h3⟩

/-! ## Reading rows back, and the notification by cases -/

theorem find?_map_id (g : Campaign → Campaign) (hg : ∀ c, (g c).id = c.id) (j : Nat)
    (rows : List Campaign) :
    (rows.map g).find? (fun c => c.id = j) = (rows.find? (fun c => c.id = j)).map g := by
  induction rows with
  | nil => rfl
  | cons c cs ih =>
    simp only [List.map_cons, List.find?_cons, hg]
    split
    · rfl
    · exact ih

theorem getCampaign_mem {s : Store} {id : Nat} {c : Campaign} (h : getCampaign s id = some c) :
    c ∈ s.campaigns ∧ c.id = id := by
  unfold getCampaign at h
  exact ⟨List.mem_of_find?_eq_some h, by simpa using List.find?_some h⟩

theorem ratio_ge_half (k d : Nat) (hd : d ≠ 0) :
    ((k : ℚ) / (d : ℚ) ≥ 1 / 2) ↔ d ≤ 2 * k := by
  have hq : (0 : ℚ) < (d : ℚ) := by exact_mod_cast Nat.pos_of_ne_zero hd
  rw [ge_iff_le, le_div_iff₀ hq]
  constructor
  · intro h
    have : (d : ℚ) ≤ 2 * (k : ℚ) := by linarith
    exact_mod_cast this
  · intro h
    have : (d : ℚ) ≤ 2 * (k : ℚ) := by exact_mod_cast h
    linarith

/-- `notifyManagerHighClicks` by cases on the rule and on the transport's answer. -/
theorem notify_eq (env : Env) (c : Campaign) (s : Store) :
    notifyManagerHighClicks env c s =
      if highClickRule s c then
        if sendMail env c (alertMail env c) then
          ⟨updateCampaign { s with outbox := s.outbox ++ [⟨.alert, c.id, alertMail env c⟩] }
            c.id (fun r => { r with notified_high_clicks := true }), false⟩
        else ⟨s, true⟩
      else ⟨s, false⟩ := by
  unfold notifyManagerHighClicks highClickRule
  by_cases hm : truthy c.manager_email = true
  · by_cases hd : countEvents s c.id .delivered = 0
    · simp [hm, hd]
    · have hpos : 0 < countEvents s c.id .delivered := Nat.pos_of_ne_zero hd
      simp only [hm, hd, hpos, ratio_ge_half _ _ hd, Bool.not_true, Bool.false_eq_true,
        if_false, decide_True, Bool.true_and, Bool.and_eq_true, decide_eq_true_eq,
        Bool.not_eq_true']
  · simp [hm]

theorem find?_map_of_mem (g : Campaign → Campaign) (j : Nat) (rows : List Campaign)
    (hg : ∀ c ∈ rows, (g c).id = c.id) :
    (rows.map g).find? (fun c => c.id = j) = (rows.find? (fun c => c.id = j)).map g := by
  induction rows with
  | nil => rfl
  | cons c cs ih =>
    simp only [List.map_cons, List.find?_cons, hg c (List.mem_cons_self _ _)]
    split
    · rfl
    · exact ih (fun d hd => hg d (List.mem_cons_of_mem _ hd))

/-- Reading a campaign back after `UPDATE campaigns SET ... WHERE id = ?`. -/
theorem getCampaign_updateCampaign (s : Store) (id j : Nat) (f : Campaign → Campaign)
    (hf : ∀ c, (f c).id = c.id) :
    getCampaign (updateCampaign s id f) j =
      (getCampaign s j).map (fun c => if c.id = id then f c else c) := by
  unfold getCampaign updateCampaign
  simp only
  apply find?_map_of_mem
  intro c _
  split
  · exact hf c
  · rfl


/-! ## What each part of the engine appends to `campaign_events` -/

theorem insertTargets_events (rand : String → String) (campaignId : Nat)
    (employees : List Employee) (s : Store) :
    (insertTargets rand campaignId employees s).campaign_events = s.campaign_events := by
  unfold insertTargets
  induction employees generalizing s with
  | nil => rfl
  | cons e es ih =>
    simp only [List.foldl_cons]
    rw [ih]
    unfold insertTarget
    split <;> rfl

theorem allowlistAdd_events (now : String) (employees : List AllowlistEntry) (s : Store) :
    (allowlistAdd now employees s).2.campaign_events = s.campaign_events := by
  unfold allowlistAdd
  induction employees generalizing s with
  | nil => rfl
  | cons e es ih =>
    simp only [List.foldl_cons]
    rw [ih]
    cases e.email with
    | none => rfl
    | some email =>
      simp only
      split
      · rfl
      · split <;> rfl

theorem allowlistUpload_events (now : String) (csv : String) (s : Store) :
    (allowlistUpload now csv s).2.campaign_events = s.campaign_events := by
  unfold allowlistUpload
  split
  · rfl
  · simp only
    generalize parseCsv csv = entries
    induction entries generalizing s with
    | nil => rfl
    | cons e es ih => simp only [List.foldl_cons]; rw [ih]; rfl

theorem notify_events (env : Env) (campaign : Campaign) (s : Store) :
    (notifyManagerHighClicks env campaign s).store.campaign_events = s.campaign_events := by
  rw [notify_eq]
  split
  · split <;> rfl
  · rfl

/-- The event `recordEvent` appends. -/
theorem recordEvent_events (env : Env) (now : String) (campaignId : Nat) (email : String)
    (ty : EventType) (ip : String) (sim : Bool) (s : Store) :
    (recordEvent env now campaignId email ty ip sim s).campaign_events = s.campaign_events ++
      [{ id := nextRowid (s.campaign_events.map (fun e => e.id)) s.events_seq,
         campaign_id := campaignId, email := email, event_type := ty,
         timestamp := currentTimestamp now,
         ip_hash := if ip ≠ "" ∧ ip ≠ "unknown" then some (env.hashValue ip) else none,
         simulated_entry := sim }] := rfl

/-- The events the loop of `dispatchCampaign` appends: `delivered` events of its campaign,
with the digest of the text `internal` as origin and `simulated_entry` off. -/
theorem dispatchLoop_events (env : Env) (now : String) (campaign : Campaign)
    (template : Template) (targets : List CampaignTarget) (s : Store) :
    ∃ evs : List CampaignEvent,
      (dispatchLoop env now campaign template targets s).store.campaign_events =
        s.campaign_events ++ evs ∧
      ∀ e ∈ evs, e.campaign_id = campaign.id ∧ e.event_type = .delivered ∧
        e.ip_hash = some (env.hashValue "internal") ∧ e.simulated_entry = false := by
  induction targets generalizing s with
  | nil => exact ⟨[], by simp [dispatchLoop], by simp⟩
  | cons t ts ih =>
    unfold dispatchLoop
    split
    · obtain ⟨evs, h1, h2⟩ := ih (deliverOne env now campaign template t s)
      refine ⟨{ id := nextRowid (s.campaign_events.map (fun e => e.id)) s.events_seq,
                campaign_id := campaign.id, email := t.email, event_type := .delivered,
                timestamp := currentTimestamp now, ip_hash := some (env.hashValue "internal"),
                simulated_entry := false } :: evs, ?_, ?_⟩
      · rw [h1]
        simp [deliverOne, markDelivered, recordEvent]
      · intro e he
        rcases List.mem_cons.mp he with rfl | he
        · exact ⟨rfl, rfl, rfl, rfl⟩
        · exact h2 e he
    · exact ⟨[], by simp, by simp⟩

theorem dispatchCampaign_events (env : Env) (now : String) (campaignId : Nat) (s : Store) :
    ∃ evs : List CampaignEvent,
      (dispatchCampaign env now campaignId s).store.campaign_events =
        s.campaign_events ++ evs ∧
      ∀ e ∈ evs, e.campaign_id = campaignId ∧ e.event_type = .delivered ∧
        e.ip_hash = some (env.hashValue "internal") ∧ e.simulated_entry = false := by
  unfold dispatchCampaign
  split
  · exact ⟨[], by simp, by simp⟩
  · rename_i campaign hc
    split
    · exact ⟨[], by simp, by simp⟩
    · rename_i template _
      have hid := (getCampaign_mem hc).2
      have := dispatchLoop_events env now campaign template (getCampaignTargets s campaignId) s
      rw [hid] at this
      exact this

theorem scheduledLoop_events (env : Env) (now : String) (l : List Campaign) (s : Store) :
    ∃ evs : List CampaignEvent,
      (scheduledLoop env now l s).store.campaign_events = s.campaign_events ++ evs ∧
      ∀ e ∈ evs, e.event_type = .delivered ∧
        e.ip_hash = some (env.hashValue "internal") ∧ e.simulated_entry = false := by
  induction l generalizing s with
  | nil => exact ⟨[], by simp [scheduledLoop], by simp⟩
  | cons d ds ih =>
    obtain ⟨evs1, a1, a2⟩ :=
      dispatchCampaign_events env now d.id (updateCampaign s d.id (promote now))
    unfold scheduledLoop
    simp only
    split
    · exact ⟨evs1, a1, fun e he => (a2 e he).2⟩
    · obtain ⟨evs2, b1, b2⟩ :=
        ih (dispatchCampaign env now d.id (updateCampaign s d.id (promote now))).store
      refine ⟨evs1 ++ evs2, ?_, ?_⟩
      · rw [b1, a1, List.append_assoc]; rfl
      · intro e he
        rcases List.mem_append.mp he with he | he
        · exact (a2 e he).2
        · exact b2 e he

theorem debriefLoop_events (env : Env) (campaign : Campaign) (targets : List CampaignTarget)
    (s : Store) :
    (debriefLoop env campaign targets s).store.campaign_events = s.campaign_events := by
  induction targets generalizing s with
  | nil => rfl
  | cons t ts ih =>
    unfold debriefLoop
    split
    · rw [ih]
    · rfl

theorem debriefsLoop_events (env : Env) (now : String) (l : List Campaign) (s : Store) :
    (debriefsLoop env now l s).store.campaign_events = s.campaign_events := by
  induction l generalizing s with
  | nil => rfl
  | cons d ds ih =>
    unfold debriefsLoop
    simp only
    split
    · exact debriefLoop_events env d _ s
    · rw [ih]
      exact debriefLoop_events env d _ s

/-- The events one operation appends: none has `simulated_entry` on unless the operation
is a submission of the landing form. -/
theorem step_events (env : Env) (op : Op) (s : Store) :
    ∃ evs : List CampaignEvent,
      (step env op s).campaign_events = s.campaign_events ++ evs ∧
      ∀ e ∈ evs, e.simulated_entry = true →
        ∃ now token ip form, op = .submit now token ip form := by
  have keep : ∀ s' : Store, s'.campaign_events = s.campaign_events →
      ∃ evs : List CampaignEvent, s'.campaign_events = s.campaign_events ++ evs ∧
        ∀ e ∈ evs, e.simulated_entry = true →
          ∃ now token ip form, op = .submit now token ip form := by
    intro s' h
    exact ⟨[], by simp [h], by simp⟩
  have plain : ∀ (s' : Store) (now : String) (cid : Nat) (email : String) (ty : EventType)
      (ip : String), s'.campaign_events =
        (recordEvent env now cid email ty ip false s).campaign_events →
      ∃ evs : List CampaignEvent, s'.campaign_events = s.campaign_events ++ evs ∧
        ∀ e ∈ evs, e.simulated_entry = true →
          ∃ now token ip form, op = .submit now token ip form := by
    intro s' now cid email ty ip h
    refine ⟨_, h.trans (recordEvent_events env now cid email ty ip false s), ?_⟩
    intro e' he' ht
    rw [List.mem_singleton] at he'
    subst he'
    cases ht
  cases op with
  | allowlistAdd now employees => exact keep _ (allowlistAdd_events now employees s)
  | allowlistUpload now csv => exact keep _ (allowlistUpload_events now csv s)
  | create rand now req =>
    simp only [step, createCampaign]
    split
    · exact keep _ rfl
    · split
      · exact keep _ rfl
      · split
        · exact keep _ rfl
        · exact keep _ (by rw [insertTargets_events])
  | edit rand now id req =>
    simp only [step, editCampaign]
    split
    · exact keep _ rfl
    · split
      · exact keep _ rfl
      · split
        · exact keep _ rfl
        · split
          · exact keep _ rfl
          · split
            · exact keep _ rfl
            · exact keep _ (by rw [insertTargets_events])
  | approve now id => exact keep _ rfl
  | queueSend now id =>
    simp only [step, queueSend]
    split
    · exact keep _ rfl
    · split <;> exact keep _ rfl
  | trackOpen now token ip =>
    simp only [step, trackOpen]
    split
    · exact keep _ rfl
    · exact plain _ _ _ _ _ _ rfl
  | trackClick now token ip =>
    simp only [step, trackClick]
    split
    · exact keep _ rfl
    · split
      · exact plain _ _ _ _ _ _ rfl
      · exact plain _ _ _ _ _ _ (notify_events _ _ _)
  | submit now token ip form =>
    simp only [step, submitLanding]
    split
    · exact keep _ rfl
    · exact ⟨_, recordEvent_events _ _ _ _ _ _ _ _, fun _ _ _ => ⟨now, token, ip, form, rfl⟩⟩
  | checkScheduled now =>
    obtain ⟨evs, h1, h2⟩ :=
      scheduledLoop_events env now (s.campaigns.filter (dueToRun now)) s
    refine ⟨evs, h1, ?_⟩
    intro e he ht
    rw [(h2 e he).2.2] at ht
    cases ht
  | checkDebriefs now =>
    exact keep _ (debriefsLoop_events env now _ s)

/-! ## Recipient validation -/

theorem mem_selectEmployees (s : Store) (emails : List String) (e : Employee) :
    e ∈ selectEmployees s emails ↔ e ∈ s.employees ∧ emails.contains e.email = true := by
  unfold selectEmployees orderByEmail
  rw [(List.perm_insertionSort _ _).mem_iff, List.mem_filter]

theorem selectEmployees_emails (s : Store) (emails : List String) :
    ((selectEmployees s emails).map (fun e => e.email)).Perm
      ((s.employees.map (fun e => e.email)).filter (fun a => emails.contains a)) := by
  unfold selectEmployees orderByEmail
  rw [List.filter_map]
  exact (List.perm_insertionSort _ _).map _

/-- The count test of `ensureAllowlistEmails`: when the stored addresses are distinct, as
many employees are found as recipients were given exactly when the recipients are distinct
and all stored. -/
theorem found_all_iff (stored emails : List String) (hkey : stored.Nodup) :
    (stored.filter (fun a => emails.contains a)).length = emails.length ↔
      emails.Nodup ∧ ∀ a ∈ emails, a ∈ stored := by
  have hnd : (stored.filter (fun a => emails.contains a)).Nodup := hkey.filter _
  have hmem : ∀ a, a ∈ stored.filter (fun a => emails.contains a) ↔ a ∈ stored ∧ a ∈ emails := by
    intro a
    simp [List.mem_filter]
  constructor
  · intro hlen
    have hsub : (stored.filter (fun a => emails.contains a)).toFinset ⊆ emails.toFinset := by
      intro a ha
      rw [List.mem_toFinset] at ha ⊢
      exact ((hmem a).mp ha).2
    have hcard1 : (stored.filter (fun a => emails.contains a)).toFinset.card =
        emails.length := by
      rw [List.toFinset_card_of_nodup hnd, hlen]
    have hcard2 : emails.toFinset.card ≤ emails.length := List.toFinset_card_le emails
    have hcard3 := Finset.card_le_card hsub
    have hcardeq : emails.toFinset.card = emails.length := by omega
    have hnodup : emails.Nodup :=
      (@Multiset.toFinset_card_eq_card_iff_nodup String _ (emails : Multiset String)).mp hcardeq
    refine ⟨hnodup, ?_⟩
    have heq : (stored.filter (fun a => emails.contains a)).toFinset = emails.toFinset :=
      Finset.eq_of_subset_of_card_le hsub (by omega)
    intro a ha
    have : a ∈ (stored.filter (fun a => emails.contains a)).toFinset := by
      rw [heq, List.mem_toFinset]; exact ha
    rw [List.mem_toFinset] at this
    exact ((hmem a).mp this).1
  · rintro ⟨hnodup, hall⟩
    apply List.Perm.length_eq
    rw [List.perm_ext_iff_of_nodup hnd hnodup]
    intro a
    rw [hmem]
    exact ⟨fun h => h.2, fun h => ⟨hall a h, h⟩⟩

/-- `ensureAllowlistEmails` by cases, for a list that is given. -/
theorem ensure_eq (s : Store) (emails : List String) :
    ensureAllowlistEmails s (some emails) =
      if emails = [] then .error "Recipients are required and must be on the allowlist."
      else if SQLITE_MAX_VARIABLE_NUMBER < emails.length then
        .error "SQLITE_ERROR: too many SQL variables"
      else if (selectEmployees s emails).length ≠ emails.length then
        .error "All recipients must exist in the allowlist."
      else if (emails.filter (fun email => !isDomainAllowed email)).length ≠ 0 then
        .error ("Recipients contain forbidden domains: " ++
          join ", " (emails.filter (fun email => !isDomainAllowed email)))
      else .ok () := by
  cases emails with
  | nil => rfl
  | cons e es =>
    rw [if_neg (List.cons_ne_nil e es)]
    rfl

theorem selectEmployees_length (s : Store) (emails : List String) :
    (selectEmployees s emails).length =
      ((allowlisted s).filter (fun a => emails.contains a)).length := by
  unfold allowlisted
  rw [← (selectEmployees_emails s emails).length_eq, List.length_map]

/-- When the stored addresses are distinct, `ensureAllowlistEmails` accepts exactly the
lists that are not empty, hold no more addresses than one statement may hold parameters,
do not repeat an address, and hold only stored addresses that pass `isDomainAllowed`. -/
theorem ensure_ok_iff (s : Store) (emails : List String) (hkey : (allowlisted s).Nodup) :
    ensureAllowlistEmails s (some emails) = .ok () ↔
      emails ≠ [] ∧ emails.length ≤ SQLITE_MAX_VARIABLE_NUMBER ∧ emails.Nodup ∧
        (∀ a ∈ emails, a ∈ allowlisted s) ∧ ∀ a ∈ emails, isDomainAllowed a = true := by
  rw [ensure_eq]
  have hcount := found_all_iff (allowlisted s) emails hkey
  rw [← selectEmployees_length] at hcount
  by_cases h0 : emails = []
  · simp [h0]
  · rw [if_neg h0]
    by_cases hl : SQLITE_MAX_VARIABLE_NUMBER < emails.length
    · rw [if_pos hl]
      refine ⟨fun h => (by cases h), ?_⟩
      rintro ⟨_, hle, _⟩
      exact absurd hl (Nat.not_lt.mpr hle)
    · rw [if_neg hl]
      have hle : emails.length ≤ SQLITE_MAX_VARIABLE_NUMBER := Nat.not_lt.mp hl
      by_cases h1 : (selectEmployees s emails).length = emails.length
      · rw [if_neg (not_not.mpr h1)]
        have h1' := hcount.mp h1
        by_cases h2 : (emails.filter (fun email => !isDomainAllowed email)).length = 0
        · rw [if_neg (not_not.mpr h2)]
          refine ⟨fun _ => ⟨h0, hle, h1'.1, h1'.2, ?_⟩, fun _ => rfl⟩
          intro a ha
          rw [List.length_eq_zero, List.filter_eq_nil_iff] at h2
          simpa using h2 a ha
        · rw [if_pos h2]
          refine ⟨fun h => (by cases h), ?_⟩
          rintro ⟨_, _, _, _, hdom⟩
          exfalso
          apply h2
          rw [List.length_eq_zero, List.filter_eq_nil_iff]
          intro a ha
          simp [hdom a ha]
      · rw [if_pos h1]
        refine ⟨fun h => (by cases h), ?_⟩
        rintro ⟨_, _, hnd, hall, _⟩
        exact absurd (hcount.mpr ⟨hnd, hall⟩) h1

/-! ## Texts that hold other texts -/

theorem toList_append (a b : String) : (a ++ b).toList = a.toList ++ b.toList :=
  String.data_append a b

theorem mentions_append_right (a b part : String) (h : mentions b part) :
    mentions (a ++ b) part := by
  unfold mentions at h ⊢
  rw [toList_append]
  exact List.IsInfix.trans h (List.suffix_append a.toList b.toList).isInfix

theorem mentions_append_left (a b part : String) (h : mentions a part) :
    mentions (a ++ b) part := by
  unfold mentions at h ⊢
  rw [toList_append]
  exact List.IsInfix.trans h (List.prefix_append a.toList b.toList).isInfix

theorem mentions_self (a : String) : mentions a a := List.infix_refl _

/-- The text `join` builds holds each of the joined texts. -/
theorem mentions_join (sep : String) (l : List String) (a : String) (h : a ∈ l) :
    mentions (join sep l) a := by
  induction l with
  | nil => cases h
  | cons b bs ih =>
    cases bs with
    | nil =>
      rw [List.mem_singleton] at h
      subst h
      exact mentions_self _
    | cons c cs =>
      unfold join
      rcases List.mem_cons.mp h with rfl | h
      · exact mentions_append_left _ _ _ (mentions_append_left _ _ _ (mentions_self _))
      · exact mentions_append_right _ _ _ (ih h)


/-! ## Issuing targets -/

/-- With tokens that are new to the table and distinct from one another, the loop that
creates the targets inserts one row per employee, in order. -/
theorem insertTargets_fresh (rand : String → String) (campaignId : Nat)
    (employees : List Employee) (s : Store)
    (hnew : ∀ e ∈ employees, rand (e.email ++ toString campaignId) ∉
      s.campaign_targets.map (fun t => t.token))
    (hdistinct : (employees.map (fun e => rand (e.email ++ toString campaignId))).Nodup) :
    ∃ rows : List CampaignTarget,
      (insertTargets rand campaignId employees s).campaign_targets =
        s.campaign_targets ++ rows ∧
      rows.map (fun t => (t.campaign_id, t.email, t.name, t.department, t.token, t.delivered)) =
        employees.map (fun e => (campaignId, e.email, e.name, e.department,
          rand (e.email ++ toString campaignId), false)) := by
  induction employees generalizing s with
  | nil => exact ⟨[], by simp [insertTargets], rfl⟩
  | cons e es ih =>
    have hfresh := hnew e (List.mem_cons_self _ _)
    have hany : s.campaign_targets.any
        (fun t => t.token = rand (e.email ++ toString campaignId)) = false := by
      rw [Bool.eq_false_iff]
      intro h
      rw [List.any_eq_true] at h
      obtain ⟨t, ht, heq⟩ := h
      exact hfresh (List.mem_map.mpr ⟨t, ht, by simpa using heq⟩)
    rw [List.map_cons, List.nodup_cons] at hdistinct
    have hstep : insertTarget s campaignId e (rand (e.email ++ toString campaignId)) =
        { s with
          campaign_targets := s.campaign_targets ++
            [{ id := nextRowid (s.campaign_targets.map (fun t => t.id)) s.targets_seq,
               campaign_id := campaignId, email := e.email, name := e.name,
               department := e.department, token := rand (e.email ++ toString campaignId),
               delivered := false }],
          targets_seq := nextRowid (s.campaign_targets.map (fun t => t.id)) s.targets_seq } := by
      unfold insertTarget
      rw [hany]
      rfl
    obtain ⟨rows, h1, h2⟩ := ih
      (insertTarget s campaignId e (rand (e.email ++ toString campaignId)))
      (by
        intro e' he' hmem
        rw [hstep] at hmem
        simp only [List.map_append, List.map_cons, List.map_nil, List.mem_append,
          List.mem_singleton] at hmem
        rcases hmem with hmem | hmem
        · exact hnew e' (List.mem_cons_of_mem _ he') hmem
        · exact hdistinct.1 (hmem ▸ List.mem_map_of_mem
            (fun e => rand (e.email ++ toString campaignId)) he'))
      hdistinct.2
    refine ⟨{ id := nextRowid (s.campaign_targets.map (fun t => t.id)) s.targets_seq,
              campaign_id := campaignId, email := e.email, name := e.name,
              department := e.department, token := rand (e.email ++ toString campaignId),
              delivered := false } :: rows, ?_, ?_⟩
    · show (insertTargets rand campaignId es
        (insertTarget s campaignId e (rand (e.email ++ toString campaignId)))).campaign_targets = _
      rw [h1, hstep]
      simp only [List.append_assoc, List.singleton_append]
    · simp only [List.map_cons, h2]

/-! ## One click request handled alone -/

theorem clickAlone_succ (env : Env) (r : ClickRequest) (n : Nat) (p : ClickPoint) (s : Store) :
    clickAlone env r (n + 1) (p, s) = clickAlone env r n (clickStep env r p s) := rfl

theorem clickAlone_done (env : Env) (r : ClickRequest) (n : Nat) (s : Store) :
    clickAlone env r n (.done, s) = (.done, s) := by
  induction n with
  | zero => rfl
  | succ n ih => rw [clickAlone_succ]; exact ih

/-- A click request that no other request interleaves with reaches its end within seven
steps and leaves the store `trackClick` computes. -/
theorem clickAlone_eq_trackClick (env : Env) (r : ClickRequest) (s : Store) :
    clickAlone env r 7 (.findTarget, s) = (.done, (trackClick env r.now r.token r.ip s).2) := by
  unfold trackClick
  rw [clickAlone_succ]
  cases hf : findByToken s r.token with
  | none =>
    have h1 : clickStep env r .findTarget s = (.done, s) := by simp only [clickStep, hf]
    rw [h1, clickAlone_done]
  | some target =>
    have h1 : clickStep env r .findTarget s = (.record target, s) := by simp only [clickStep, hf]
    rw [h1, clickAlone_succ]
    have h2 : clickStep env r (.record target) s = (.loadCampaign target,
        recordEvent env r.now target.campaign_id target.email .clicked r.ip false s) := rfl
    rw [h2, clickAlone_succ]
    simp only
    generalize recordEvent env r.now target.campaign_id target.email .clicked r.ip false s = s1
    cases hc : getCampaign s1 target.campaign_id with
    | none =>
      have h3 : clickStep env r (.loadCampaign target) s1 = (.done, s1) := by
        simp only [clickStep, hc]
      rw [h3, clickAlone_done]
    | some campaign =>
      simp only [notifyManagerHighClicks]
      by_cases hm : truthy campaign.manager_email = true
      · have h3 : clickStep env r (.loadCampaign target) s1 = (.countDelivered campaign, s1) := by
          simp only [clickStep, hc, hm, Bool.not_true, Bool.false_eq_true, if_false]
        rw [h3, clickAlone_succ]
        have h4 : clickStep env r (.countDelivered campaign) s1
            = (.countClicks campaign (countEvents s1 campaign.id .delivered), s1) := rfl
        rw [h4, clickAlone_succ]
        simp only [hm, Bool.not_true, Bool.false_eq_true, if_false]
        by_cases hd : countEvents s1 campaign.id .delivered = 0
        · have h5 : clickStep env r
              (.countClicks campaign (countEvents s1 campaign.id .delivered)) s1 = (.done, s1) := by
            simp only [clickStep, hd, if_true]
          rw [h5, clickAlone_done, if_pos hd]
        · rw [if_neg hd]
          by_cases hr : ((countEvents s1 campaign.id .clicked : ℚ)
              / (countEvents s1 campaign.id .delivered : ℚ)) ≥ 1 / 2
                ∧ campaign.notified_high_clicks = false
          · have h5 : clickStep env r
                (.countClicks campaign (countEvents s1 campaign.id .delivered)) s1
                  = (.send campaign, s1) := by
              simp only [clickStep, if_neg hd, if_pos hr]
            rw [h5, clickAlone_succ, if_pos hr]
            by_cases hs : sendMail env campaign (alertMail env campaign) = true
            · have h6 : clickStep env r (.send campaign) s1 = (.setLatch campaign,
                  { s1 with outbox := s1.outbox ++ [⟨.alert, campaign.id, alertMail env campaign⟩] })
                  := by
                simp only [clickStep, if_pos hs]
              rw [h6, clickAlone_succ, if_pos hs]
              rfl
            · have h6 : clickStep env r (.send campaign) s1 = (.done, s1) := by
                simp only [clickStep, if_neg hs]
              rw [h6, clickAlone_done, if_neg hs]
          · have h5 : clickStep env r
                (.countClicks campaign (countEvents s1 campaign.id .delivered)) s1
                  = (.done, s1) := by
              simp only [clickStep, if_neg hd, if_neg hr]
            rw [h5, clickAlone_done, if_neg hr]
      · have h3 : clickStep env r (.loadCampaign target) s1 = (.done, s1) := by
          simp only [clickStep, hc, hm, Bool.not_false, if_true]
        rw [h3, clickAlone_done]
        simp only [hm, Bool.not_false, if_true]

/-! ## The domain test -/

theorem lowerChar_cases (c : Char) :
    lowerChar c = c ∨ c.toNat = 0x212A ∨ ∃ n, 65 ≤ n ∧ n ≤ 90 ∧ c = Char.ofNat n := by
  by_cases hk : c.toNat = 0x212A
  · exact Or.inr (Or.inl hk)
  · by_cases hu : c.toNat ≥ 65 ∧ c.toNat ≤ 90
    · exact Or.inr (Or.inr ⟨c.toNat, hu.1, hu.2, (Char.ofNat_toNat c).symm⟩)
    · left
      unfold lowerChar Char.toLower
      rw [if_neg hk]
      simp only
      rw [if_neg hu]

theorem eq_kelvin (c : Char) (h : c.toNat = 0x212A) : c = Char.ofNat 0x212A := by
  rw [← h, Char.ofNat_toNat]

/-- Lowering a character twice is lowering it once. -/
theorem lowerChar_idem (c : Char) : lowerChar (lowerChar c) = lowerChar c := by
  rcases lowerChar_cases c with h | h | ⟨n, h1, h2, rfl⟩
  · rw [h, h]
  · rw [eq_kelvin c h]; decide
  · interval_cases n <;> decide

/-- Lowering neither makes nor removes an `@`. -/
theorem lowerChar_eq_at (c : Char) : lowerChar c = '@' ↔ c = '@' := by
  rcases lowerChar_cases c with h | h | ⟨n, h1, h2, rfl⟩
  · rw [h]
  · rw [eq_kelvin c h]; decide
  · interval_cases n <;> decide

theorem toLowerCase_idem (s : String) : toLowerCase (toLowerCase s) = toLowerCase s := by
  unfold toLowerCase
  simp only [String.toList, List.map_map]
  congr 1
  apply List.map_congr_left
  intro c _
  exact lowerChar_idem c

theorem secondSegment_map_lowerChar (cs : List Char) :
    secondSegment (cs.map lowerChar) = (secondSegment cs).map (List.map lowerChar) := by
  have hp : ((fun c => c != '@') ∘ lowerChar) = (fun c => c != '@') := by
    funext c
    show (lowerChar c != '@') = (c != '@')
    by_cases h : c = '@'
    · subst h; rfl
    · have h2 : lowerChar c ≠ '@' := fun h3 => h ((lowerChar_eq_at c).mp h3)
      rw [bne_iff_ne.mpr h, bne_iff_ne.mpr h2]
  unfold secondSegment
  rw [List.dropWhile_map, hp]
  cases cs.dropWhile (fun c => c != '@') with
  | nil => rfl
  | cons c rest =>
    simp only [List.map_cons, Option.map_some']
    rw [List.takeWhile_map, hp]

/-- The domain test does not tell an address from its lowered form. -/
theorem isDomainAllowed_toLowerCase (email : String) :
    isDomainAllowed (toLowerCase email) = isDomainAllowed email := by
  unfold isDomainAllowed
  have h : (toLowerCase email).toList = email.toList.map lowerChar := rfl
  rw [h, secondSegment_map_lowerChar]
  cases secondSegment email.toList with
  | none => rfl
  | some d =>
    simp only [Option.map_some']
    have h2 : toLowerCase (String.mk (d.map lowerChar)) = toLowerCase (String.mk d) :=
      toLowerCase_idem (String.mk d)
    rw [h2]

theorem splitChar_cons_eq (sep : Char) (rest : List Char) :
    splitChar sep (sep :: rest) = [] :: splitChar sep rest := by
  simp [splitChar]

theorem splitChar_cons_ne {sep c : Char} (rest : List Char) (h : c ≠ sep) :
    splitChar sep (c :: rest) =
      match splitChar sep rest with
      | [] => [[c]]
      | seg :: segs => (c :: seg) :: segs := by
  simp [splitChar, h]

theorem splitChar_ne_nil (sep : Char) (cs : List Char) : splitChar sep cs ≠ [] := by
  cases cs with
  | nil => simp [splitChar]
  | cons c rest =>
    by_cases h : c = sep
    · subst h
      rw [splitChar_cons_eq]
      exact List.cons_ne_nil _ _
    · rw [splitChar_cons_ne rest h]
      split
      · exact List.cons_ne_nil _ _
      · exact List.cons_ne_nil _ _

theorem splitChar_length (sep : Char) (cs : List Char) :
    (splitChar sep cs).length = cs.count sep + 1 := by
  induction cs with
  | nil => rfl
  | cons c rest ih =>
    by_cases h : c = sep
    · subst h
      rw [splitChar_cons_eq]
      simp [ih]
    · rw [splitChar_cons_ne rest h, List.count_cons_of_ne (fun h2 => h h2.symm)]
      cases hs : splitChar sep rest with
      | nil => exact absurd hs (splitChar_ne_nil sep rest)
      | cons seg segs => rw [hs] at ih; simpa using ih

theorem splitChar_head (cs : List Char) :
    (splitChar '@' cs).head? = some (cs.takeWhile (fun c => c != '@')) := by
  induction cs with
  | nil => rfl
  | cons c rest ih =>
    by_cases h : c = '@'
    · subst h; rfl
    · rw [splitChar_cons_ne rest h]
      have hc : (c != '@') = true := by simp [h]
      rw [List.takeWhile_cons, hc]
      cases hs : splitChar '@' rest with
      | nil => exact absurd hs (splitChar_ne_nil '@' rest)
      | cons seg segs =>
        rw [hs] at ih
        simp only [List.head?_cons, Option.some.injEq] at ih
        simp [ih]

/-- The segment `isDomainAllowed` reads is the second element of `split('@')`. -/
theorem secondSegment_eq_get (cs : List Char) :
    secondSegment cs = (splitChar '@' cs).get? 1 := by
  induction cs with
  | nil => rfl
  | cons c rest ih =>
    by_cases h : c = '@'
    · subst h
      have h1 : secondSegment ('@' :: rest) = some (rest.takeWhile (fun c => c != '@')) := rfl
      rw [h1, splitChar_cons_eq, List.get?_cons_succ, ← splitChar_head rest]
      cases splitChar '@' rest <;> rfl
    · have hc : (c != '@') = true := by simp [h]
      have h1 : secondSegment (c :: rest) = secondSegment rest := by
        unfold secondSegment
        rw [List.dropWhile_cons, hc]
        rfl
      rw [h1, ih, splitChar_cons_ne rest h]
      cases hs : splitChar '@' rest with
      | nil => exact absurd hs (splitChar_ne_nil '@' rest)
      | cons seg segs => rfl

theorem domainPart_single_at (email : String) (h : email.toList.count '@' ≤ 1) :
    domainPart email = (secondSegment email.toList).map String.mk := by
  have hl := splitChar_length '@' email.toList
  unfold domainPart
  rw [secondSegment_eq_get]
  match hs : splitChar '@' email.toList with
  | [] => exact absurd hs (splitChar_ne_nil '@' email.toList)
  | [a] => rfl
  | [a, b] => rfl
  | a :: b :: c :: rest =>
    rw [hs] at hl
    simp only [List.length_cons] at hl
    omega

theorem toLowerCase_eq_empty (d : String) : toLowerCase d = "" ↔ d = "" := by
  constructor
  · intro h
    have h2 : (toLowerCase d).toList = [] := by rw [h]; rfl
    have h3 : d.toList.map lowerChar = [] := h2
    have h4 : d.toList = [] := List.map_eq_nil_iff.mp h3
    exact String.ext h4
  · intro h
    subst h
    rfl

/-- For an address with at most one `@`, `isDomainAllowed` answers true exactly when the
address has a domain part that is not empty and not on the deny list. -/
theorem isDomainAllowed_single_at (email : String) (h : email.toList.count '@' ≤ 1) :
    isDomainAllowed email =
      match domainPart email with
      | none => false
      | some d => decide (d ≠ "") && !onDenyList email := by
  unfold onDenyList
  rw [domainPart_single_at email h]
  unfold isDomainAllowed
  cases secondSegment email.toList with
  | none => rfl
  | some d =>
    simp only [Option.map_some']
    by_cases he : String.mk d = ""
    · rw [if_pos ((toLowerCase_eq_empty _).mpr he)]
      simp [he]
    · rw [if_neg (fun h2 => he ((toLowerCase_eq_empty _).mp h2))]
      simp [he]

/-! ## The addresses the store holds -/

theorem SameAddresses.rfl (s : Store) : SameAddresses s s := ⟨Eq.refl _, Eq.refl _⟩

theorem SameAddresses.trans {s1 s2 s3 : Store} (h12 : SameAddresses s1 s2)
    (h23 : SameAddresses s2 s3) : SameAddresses s1 s3 :=
  ⟨h23.1.trans h12.1, h23.2.trans h12.2⟩

theorem SameAddresses.pass {s s' : Store} (h : SameAddresses s s') (hs : addressesPass s) :
    addressesPass s' := by
  refine ⟨?_, ?_⟩
  · intro e he
    rw [h.1] at he
    exact hs.1 e he
  · intro t ht
    have hm : t.email ∈ s'.campaign_targets.map (fun t => t.email) :=
      List.mem_map_of_mem (fun t => t.email) ht
    rw [h.2] at hm
    obtain ⟨t0, ht0, heq⟩ := List.mem_map.mp hm
    rw [← heq]
    exact hs.2 t0 ht0

theorem markDelivered_same (targetId : Nat) (s : Store) :
    SameAddresses s (markDelivered targetId s) := by
  refine ⟨rfl, ?_⟩
  unfold markDelivered
  simp only [List.map_map]
  apply List.map_congr_left
  intro t _
  simp only [Function.comp]
  split <;> rfl

theorem dispatchLoop_same (env : Env) (now : String) (campaign : Campaign)
    (template : Template) (targets : List CampaignTarget) (s : Store) :
    SameAddresses s (dispatchLoop env now campaign template targets s).store := by
  induction targets generalizing s with
  | nil => exact SameAddresses.rfl s
  | cons t ts ih =>
    unfold dispatchLoop
    split
    · refine SameAddresses.trans ?_ (ih _)
      exact markDelivered_same t.id _
    · exact SameAddresses.rfl s

theorem dispatchCampaign_same (env : Env) (now : String) (campaignId : Nat) (s : Store) :
    SameAddresses s (dispatchCampaign env now campaignId s).store := by
  unfold dispatchCampaign
  split
  · exact SameAddresses.rfl s
  · split
    · exact SameAddresses.rfl s
    · exact dispatchLoop_same env now _ _ _ s

theorem scheduledLoop_same (env : Env) (now : String) (l : List Campaign) (s : Store) :
    SameAddresses s (scheduledLoop env now l s).store := by
  induction l generalizing s with
  | nil => exact SameAddresses.rfl s
  | cons c cs ih =>
    unfold scheduledLoop
    have h1 : SameAddresses s
        (dispatchCampaign env now c.id (updateCampaign s c.id (promote now))).store :=
      dispatchCampaign_same env now c.id (updateCampaign s c.id (promote now))
    simp only
    split
    · exact h1
    · exact SameAddresses.trans h1 (ih _)

theorem debriefLoop_same (env : Env) (campaign : Campaign) (targets : List CampaignTarget)
    (s : Store) : SameAddresses s (debriefLoop env campaign targets s).store := by
  induction targets generalizing s with
  | nil => exact SameAddresses.rfl s
  | cons t ts ih =>
    unfold debriefLoop
    split
    · exact ih _
    · exact SameAddresses.rfl s

theorem debriefsLoop_same (env : Env) (now : String) (l : List Campaign) (s : Store) :
    SameAddresses s (debriefsLoop env now l s).store := by
  induction l generalizing s with
  | nil => exact SameAddresses.rfl s
  | cons c cs ih =>
    unfold debriefsLoop
    have h1 : SameAddresses s (sendDebrief env c s).store := debriefLoop_same env c _ s
    simp only
    split
    · exact h1
    · exact SameAddresses.trans h1 (ih _)

theorem notify_same (env : Env) (campaign : Campaign) (s : Store) :
    SameAddresses s (notifyManagerHighClicks env campaign s).store := by
  unfold notifyManagerHighClicks
  split
  · exact SameAddresses.rfl s
  · simp only
    split
    · exact SameAddresses.rfl s
    · split
      · split
        · exact ⟨rfl, rfl⟩
        · exact SameAddresses.rfl s
      · exact SameAddresses.rfl s

theorem insertOrReplaceEmployee_pass (now email name department : String) (s : Store)
    (he : isDomainAllowed email = true) (hs : addressesPass s) :
    addressesPass (insertOrReplaceEmployee now email name department s) := by
  refine ⟨?_, hs.2⟩
  intro e hmem
  unfold insertOrReplaceEmployee at hmem
  simp only [List.mem_append, List.mem_filter, List.mem_singleton] at hmem
  rcases hmem with h | h
  · exact hs.1 e h.1
  · rw [h]; exact he

theorem allowlistAdd_pass (now : String) (employees : List AllowlistEntry) (s : Store)
    (hs : addressesPass s) : addressesPass (allowlistAdd now employees s).2 := by
  unfold allowlistAdd
  induction employees generalizing s with
  | nil => exact hs
  | cons e es ih =>
    simp only [List.foldl_cons]
    apply ih
    cases e.email with
    | none => exact hs
    | some email =>
      simp only
      split
      · exact hs
      · split
        · exact hs
        · rename_i hd
          apply insertOrReplaceEmployee_pass _ _ _ _ _ _ hs
          rw [isDomainAllowed_toLowerCase]
          simpa using hd

theorem parseCsv_pass (csv : String) :
    ∀ entry ∈ parseCsv csv, isDomainAllowed entry.1 = true := by
  intro entry hmem
  unfold parseCsv at hmem
  simp only [List.mem_filterMap] at hmem
  obtain ⟨line, _, h⟩ := hmem
  split at h
  · cases h
  · split at h
    · cases h
    · rename_i hd
      simp only [Option.some.injEq] at h
      rw [← h]
      simp only
      rw [isDomainAllowed_toLowerCase]
      simpa using hd

theorem allowlistUpload_pass (now : String) (csv : String) (s : Store)
    (hs : addressesPass s) : addressesPass (allowlistUpload now csv s).2 := by
  unfold allowlistUpload
  split
  · exact hs
  · simp only
    have hp := parseCsv_pass csv
    generalize parseCsv csv = entries at hp
    induction entries generalizing s with
    | nil => exact hs
    | cons e es ih =>
      simp only [List.foldl_cons]
      apply ih
      · exact insertOrReplaceEmployee_pass _ _ _ _ _ (hp e (List.mem_cons_self _ _)) hs
      · intro x hx
        exact hp x (List.mem_cons_of_mem _ hx)

theorem insertTargets_pass (rand : String → String) (campaignId : Nat)
    (employees : List Employee) (s : Store)
    (he : ∀ e ∈ employees, isDomainAllowed e.email = true) (hs : addressesPass s) :
    addressesPass (insertTargets rand campaignId employees s) := by
  unfold insertTargets
  induction employees generalizing s with
  | nil => exact hs
  | cons e es ih =>
    simp only [List.foldl_cons]
    apply ih
    · intro x hx
      exact he x (List.mem_cons_of_mem _ hx)
    · unfold insertTarget
      split
      · exact hs
      · refine ⟨hs.1, ?_⟩
        intro t ht
        simp only [List.mem_append, List.mem_singleton] at ht
        rcases ht with h | h
        · exact hs.2 t h
        · rw [h]
          exact he e (List.mem_cons_self _ _)

theorem selectEmployees_pass (s : Store) (emails : List String) (hs : addressesPass s) :
    ∀ e ∈ selectEmployees s emails, isDomainAllowed e.email = true := by
  intro e he
  exact hs.1 e ((mem_selectEmployees s emails e).mp he).1

theorem createCampaign_pass (rand : String → String) (now : String) (req : CreateRequest)
    (s : Store) (hs : addressesPass s) : addressesPass (createCampaign rand now req s).2 := by
  unfold createCampaign
  split
  · exact hs
  · split
    · exact hs
    · split
      · exact hs
      · simp only
        apply insertTargets_pass
        · exact selectEmployees_pass _ _ hs
        · exact hs

theorem editCampaign_pass (rand : String → String) (now : String) (id : Nat)
    (req : EditRequest) (s : Store) (hs : addressesPass s) :
    addressesPass (editCampaign rand now id req s).2 := by
  unfold editCampaign
  split
  · exact hs
  · split
    · exact hs
    · split
      · exact hs
      · simp only
        split
        · exact hs
        · split
          · exact hs
          · have h2 : addressesPass { s with
                campaigns := ‹List Campaign›,
                campaign_targets := s.campaign_targets.filter (fun t => t.campaign_id ≠ id) } :=
              ⟨hs.1, fun t ht => hs.2 t (List.mem_filter.mp ht).1⟩
            apply insertTargets_pass
            · exact selectEmployees_pass _ _ h2
            · exact h2

/-- Every operation keeps the allowlist and the targets within the addresses that pass
`isDomainAllowed`. -/
theorem step_addressesPass (env : Env) (op : Op) (s : Store) (hs : addressesPass s) :
    addressesPass (step env op s) := by
  cases op with
  | allowlistAdd now employees => exact allowlistAdd_pass now employees s hs
  | allowlistUpload now csv => exact allowlistUpload_pass now csv s hs
  | create rand now req => exact createCampaign_pass rand now req s hs
  | edit rand now id req => exact editCampaign_pass rand now id req s hs
  | approve now id => exact hs
  | queueSend now id =>
    show addressesPass (queueSend now id s).2
    unfold queueSend
    split
    · exact hs
    · split
      · exact hs
      · exact hs
  | trackOpen now token ip =>
    show addressesPass (trackOpen env now token ip s).2
    unfold trackOpen
    split
    · exact hs
    · exact hs
  | trackClick now token ip =>
    show addressesPass (trackClick env now token ip s).2
    unfold trackClick
    split
    · exact hs
    · simp only
      split
      · exact hs
      · exact (notify_same env _ _).pass hs
  | submit now token ip form =>
    show addressesPass (submitLanding env now token ip form s).2
    unfold submitLanding
    split
    · exact hs
    · exact hs
  | checkScheduled now => exact (scheduledLoop_same env now _ s).pass hs
  | checkDebriefs now => exact (debriefsLoop_same env now _ s).pass hs

theorem run_addressesPass (env : Env) (ops : List Op) (s : Store) (hs : addressesPass s) :
    addressesPass (run env ops s) := by
  unfold run
  induction ops generalizing s with
  | nil => exact hs
  | cons op ops ih =>
    simp only [List.foldl_cons]
    exact ih _ (step_addressesPass env op s hs)

/-- Starting from the empty store, after any sequence of operations every address in the
allowlist and every address of a campaign target passes `isDomainAllowed`. -/
theorem stored_addresses_pass (env : Env) (ops : List Op) :
    addressesPass (run env ops Store.empty) :=
  run_addressesPass env ops Store.empty
    ⟨fun _ h => absurd h (List.not_mem_nil _), fun _ h => absurd h (List.not_mem_nil _)⟩

/-! ## The allowlist holds each address once -/

theorem insertOrReplaceEmployee_nodup (now email name department : String) (s : Store)
    (hs : (allowlisted s).Nodup) :
    (allowlisted (insertOrReplaceEmployee now email name department s)).Nodup := by
  unfold allowlisted insertOrReplaceEmployee at *
  simp only [List.map_append, List.map_cons, List.map_nil]
  rw [List.nodup_append]
  refine ⟨(hs.sublist (List.Sublist.map _ (List.filter_sublist _))), List.nodup_singleton _, ?_⟩
  intro a ha hb
  rw [List.mem_singleton] at hb
  obtain ⟨e, he, rfl⟩ := List.mem_map.mp ha
  have := (List.mem_filter.mp he).2
  simp only [decide_eq_true_eq] at this
  exact this hb

theorem allowlistAdd_nodup (now : String) (employees : List AllowlistEntry) (s : Store)
    (hs : (allowlisted s).Nodup) : (allowlisted (allowlistAdd now employees s).2).Nodup := by
  unfold allowlistAdd
  induction employees generalizing s with
  | nil => exact hs
  | cons e es ih =>
    simp only [List.foldl_cons]
    apply ih
    cases e.email with
    | none => exact hs
    | some email =>
      simp only
      split
      · exact hs
      · split
        · exact hs
        · exact insertOrReplaceEmployee_nodup _ _ _ _ _ hs

theorem allowlistUpload_nodup (now : String) (csv : String) (s : Store)
    (hs : (allowlisted s).Nodup) : (allowlisted (allowlistUpload now csv s).2).Nodup := by
  unfold allowlistUpload
  split
  · exact hs
  · simp only
    generalize parseCsv csv = entries
    induction entries generalizing s with
    | nil => exact hs
    | cons e es ih =>
      simp only [List.foldl_cons]
      exact ih _ (insertOrReplaceEmployee_nodup _ _ _ _ _ hs)

theorem insertTargets_employees (rand : String → String) (campaignId : Nat)
    (employees : List Employee) (s : Store) :
    (insertTargets rand campaignId employees s).employees = s.employees := by
  unfold insertTargets
  induction employees generalizing s with
  | nil => rfl
  | cons e es ih =>
    simp only [List.foldl_cons]
    rw [ih]
    unfold insertTarget
    split <;> rfl

theorem createCampaign_employees (rand : String → String) (now : String) (req : CreateRequest)
    (s : Store) : (createCampaign rand now req s).2.employees = s.employees := by
  unfold createCampaign
  split
  · rfl
  · split
    · rfl
    · split
      · rfl
      · simp only
        rw [insertTargets_employees]

theorem editCampaign_employees (rand : String → String) (now : String) (id : Nat)
    (req : EditRequest) (s : Store) :
    (editCampaign rand now id req s).2.employees = s.employees := by
  unfold editCampaign
  split
  · rfl
  · split
    · rfl
    · split
      · rfl
      · simp only
        split
        · rfl
        · split
          · rfl
          · rw [insertTargets_employees]

/-- Only the two allowlist routes write to `employees`. -/
theorem step_employees (env : Env) (op : Op) (s : Store)
    (hop : ∀ now employees, op ≠ .allowlistAdd now employees)
    (hup : ∀ now csv, op ≠ .allowlistUpload now csv) :
    (step env op s).employees = s.employees := by
  cases op with
  | allowlistAdd now employees => exact absurd rfl (hop now employees)
  | allowlistUpload now csv => exact absurd rfl (hup now csv)
  | create rand now req => exact createCampaign_employees rand now req s
  | edit rand now id req => exact editCampaign_employees rand now id req s
  | approve now id => rfl
  | queueSend now id =>
    show (queueSend now id s).2.employees = s.employees
    unfold queueSend
    split
    · rfl
    · split <;> rfl
  | trackOpen now token ip =>
    show (trackOpen env now token ip s).2.employees = s.employees
    unfold trackOpen
    split <;> rfl
  | trackClick now token ip =>
    show (trackClick env now token ip s).2.employees = s.employees
    unfold trackClick
    split
    · rfl
    · simp only
      split
      · rfl
      · exact (notify_same env _ _).1
  | submit now token ip form =>
    show (submitLanding env now token ip form s).2.employees = s.employees
    unfold submitLanding
    split <;> rfl
  | checkScheduled now => exact (scheduledLoop_same env now _ s).1
  | checkDebriefs now => exact (debriefsLoop_same env now _ s).1

theorem step_allowlist_nodup (env : Env) (op : Op) (s : Store)
    (hs : (allowlisted s).Nodup) : (allowlisted (step env op s)).Nodup := by
  by_cases hop : ∃ now employees, op = .allowlistAdd now employees
  · obtain ⟨now, employees, rfl⟩ := hop
    exact allowlistAdd_nodup now employees s hs
  · by_cases hup : ∃ now csv, op = .allowlistUpload now csv
    · obtain ⟨now, csv, rfl⟩ := hup
      exact allowlistUpload_nodup now csv s hs
    · unfold allowlisted
      rw [step_employees env op s (fun now e h => hop ⟨now, e, h⟩)
        (fun now c h => hup ⟨now, c, h⟩)]
      exact hs

/-- Starting from the empty store, the allowlist never holds an address twice. -/
theorem stored_addresses_distinct (env : Env) (ops : List Op) :
    (allowlisted (run env ops Store.empty)).Nodup := by
  have h : ∀ s : Store, (allowlisted s).Nodup → (allowlisted (run env ops s)).Nodup := by
    unfold run
    induction ops with
    | nil => exact fun s hs => hs
    | cons op ops ih =>
      intro s hs
      simp only [List.foldl_cons]
      exact ih _ (step_allowlist_nodup env op s hs)
  exact h Store.empty List.nodup_nil

/-! ## C1 -/

/-- Every operation other than `POST /api/campaigns/:id/send` leaves the status of each
campaign where it was or moves it forward (ids are unique in `campaigns`). -/
theorem status_forward_except_queueSend (env : Env) (op : Op) (s : Store)
    (hkey : (s.campaigns.map (fun c => c.id)).Nodup)
    (hop : ∀ now id, op ≠ .queueSend now id) :
    ∀ c ∈ s.campaigns, ∀ c' ∈ (step env op s).campaigns, c'.id = c.id →
      c.status.rank ≤ c'.status.rank := by
  obtain ⟨g, extra, hrows, hg, hextra⟩ := step_rows env op s
  intro c hc c' hc' hid
  rw [hrows, List.mem_append] at hc'
  rcases hc' with hc' | hc'
  · obtain ⟨c0, hc0, heq⟩ := List.mem_map.mp hc'
    have hch := hg c0 hc0
    rw [heq] at hch
    have h0 : c0 = c := eq_of_id_eq hkey hc0 hc (hch.id_eq.symm.trans hid)
    subst h0
    cases hch with
    | same => exact Nat.le_refl _
    | edited rand now id req row _ h => rw [(editRow_id h).2.1]
    | approved now id _ => exact Nat.le_refl _
    | queued now id h => exact absurd h (hop now id)
    | latched now token ip _ => exact Nat.le_refl _
    | promoted now hop hd =>
      obtain ⟨d, hd, hdid, hdue⟩ := hd
      have : d = c0 := eq_of_id_eq hkey hd hc0 hdid
      subst this
      rcases (dueToRun_iff hdue).2.1 with h | h <;> simp [h, promote, Status.rank]
    | completed now _ _ =>
      simp only [complete, Status.rank]
      cases c0.status <;> simp [Status.rank]
  · obtain ⟨_, hnew, _⟩ := hextra c' hc'
    have hlt : c.id < nextRowid (s.campaigns.map (fun d => d.id)) s.campaigns_seq :=
      lt_nextRowid s.campaigns_seq (List.mem_map_of_mem (fun d => d.id) hc)
    omega

/-- C1, at the input where the code departs from it: a campaign the scheduler has
promoted to `running` is put back to `scheduled` by `POST /api/campaigns/:id/send`,
a status of lower rank. -/
theorem queueSend_moves_running_back_to_scheduled :
    (getCampaign (run exEnv exLaunch Store.empty) 1).map (fun c => (c.status, c.approval))
      = some (.running, true) ∧
    (queueSend "2026-01-01T09:05:00.000Z" 1 (run exEnv exLaunch Store.empty)).1 = .ok ∧
    (getCampaign (step exEnv (.queueSend "2026-01-01T09:05:00.000Z" 1)
      (run exEnv exLaunch Store.empty)) 1).map (fun c => c.status) = some .scheduled ∧
    Status.scheduled.rank < Status.running.rank := by
  decide

/-! ## C2 -/

/-- C2. A campaign reaches `running` only through the scheduler's promote-to-running,
and only when approved and due: if a row that was not `running` before an operation is
`running` after it, the operation is the promote-to-running scan at some time `now` and the
row had `approval = true`, status draft or scheduled, and a `scheduled_time` that is set and
`<= now`; and a row that did not exist before the operation is not `running` after it.
Ids are unique in `campaigns` (its primary key). -/
theorem running_only_when_approved_and_due (env : Env) (op : Op) (s : Store)
    (hkey : (s.campaigns.map (fun c => c.id)).Nodup) :
    (∀ c ∈ s.campaigns, ∀ c' ∈ (step env op s).campaigns, c'.id = c.id →
      c.status ≠ .running → c'.status = .running →
      ∃ now, op = .checkScheduled now ∧ c.approval = true ∧
        (c.status = .draft ∨ c.status = .scheduled) ∧
        ∃ t, c.scheduled_time = some t ∧ textLe t now = true) ∧
    (∀ c' ∈ (step env op s).campaigns, (∀ c ∈ s.campaigns, c.id ≠ c'.id) →
      c'.status ≠ .running) := by
  obtain ⟨g, extra, hrows, hg, hextra⟩ := step_rows env op s
  have fresh_not_running : ∀ c' ∈ extra, c'.status ≠ .running := by
    intro c' hc' hrun
    obtain ⟨_, _, hst, _⟩ := hextra c' hc'
    rw [hrun] at hst
    rcases hst with h | h <;> cases h
  constructor
  · intro c hc c' hc' hid hbefore hafter
    rw [hrows, List.mem_append] at hc'
    rcases hc' with hc' | hc'
    · obtain ⟨c0, hc0, heq⟩ := List.mem_map.mp hc'
      have hch := hg c0 hc0
      rw [heq] at hch
      have h0 : c0 = c := eq_of_id_eq hkey hc0 hc (hch.id_eq.symm.trans hid)
      subst h0
      cases hch with
      | same => exact absurd hafter hbefore
      | edited rand now id req row _ h =>
        exact absurd ((editRow_id h).2.1 ▸ hafter) hbefore
      | approved now id _ => exact absurd hafter hbefore
      | queued now id _ => cases hafter
      | latched now token ip _ => exact absurd hafter hbefore
      | promoted now hop hd =>
        obtain ⟨d, hd, hdid, hdue⟩ := hd
        have : d = c0 := eq_of_id_eq hkey hd hc0 hdid
        subst this
        exact ⟨now, hop, dueToRun_iff hdue⟩
      | completed now _ _ => cases hafter
    · exact absurd hafter (fresh_not_running c' hc')
  · intro c' hc' hnew
    rw [hrows, List.mem_append] at hc'
    rcases hc' with hc' | hc'
    · obtain ⟨c0, hc0, rfl⟩ := List.mem_map.mp hc'
      exact absurd (hg c0 hc0).id_eq.symm (hnew c0 hc0)
    · exact fresh_not_running c' hc'

/-- Witness for C2: the due campaign of `exDueStore` is promoted by the scan, and the
conditions it met are recovered from the general statement. -/
theorem running_only_when_approved_and_due_witness :
    (exDueStore.campaigns.map (fun c => c.id)).Nodup ∧
    ∃ now, Op.checkScheduled "2026-01-01T09:01:00.000Z" = .checkScheduled now ∧
      (exCampaign 1 (some "2026-01-01T09:00:00.000Z") true false .scheduled).approval = true ∧
      ((exCampaign 1 (some "2026-01-01T09:00:00.000Z") true false .scheduled).status = .draft ∨
        (exCampaign 1 (some "2026-01-01T09:00:00.000Z") true false .scheduled).status
          = .scheduled) ∧
      ∃ t, (exCampaign 1 (some "2026-01-01T09:00:00.000Z") true false .scheduled).scheduled_time
        = some t ∧ textLe t now = true :=
  ⟨by decide,
    (running_only_when_approved_and_due exEnv (.checkScheduled "2026-01-01T09:01:00.000Z")
      exDueStore (by decide)).1
      (exCampaign 1 (some "2026-01-01T09:00:00.000Z") true false .scheduled) (by decide)
      (promote "2026-01-01T09:01:00.000Z"
        (exCampaign 1 (some "2026-01-01T09:00:00.000Z") true false .scheduled))
      (by decide) rfl (by decide) rfl⟩

/-! ## C3 -/

theorem updateRows_none {f : Campaign → Option Campaign} {id : Nat} {rows : List Campaign}
    {c : Campaign} (hc : c ∈ rows) (hid : c.id = id) (hf : f c = none) :
    updateRows f id rows = none := by
  induction rows with
  | nil => cases hc
  | cons d ds ih =>
    unfold updateRows
    rcases List.mem_cons.mp hc with rfl | hc
    · simp [hid, hf]
    · rw [ih hc]
      split <;> simp

theorem updateRows_some {f : Campaign → Option Campaign} {id : Nat} {rows : List Campaign}
    (h : ∀ c ∈ rows, c.id = id → ∃ c', f c = some c') :
    updateRows f id rows =
      some (rows.map (fun c => if c.id = id then (f c).getD c else c)) := by
  induction rows with
  | nil => rfl
  | cons d ds ih =>
    unfold updateRows
    rw [ih (fun c hc => h c (List.mem_cons_of_mem _ hc))]
    by_cases hid : d.id = id
    · obtain ⟨c', hc'⟩ := h d (List.mem_cons_self _ _) hid
      simp [hid, hc']
    · simp [hid]

theorem editRow_eq_none {req : EditRequest} (now : String) (c : Campaign)
    (h : suppliesNull req) : editRow req now c = none := by
  unfold editRow assignNotNull
  rcases h with h | h | h <;> rw [h] <;> split <;> simp_all

theorem assign_eq_getD {α : Type} (supplied : Option (Option α)) (old : Option α) :
    assign supplied old = supplied.getD old := by
  cases supplied <;> rfl

theorem editRow_eq_some {req : EditRequest} (now : String) (c : Campaign)
    (h : ¬ suppliesNull req) : editRow req now c = some (expectedEdit req now c) := by
  unfold suppliesNull at h
  simp only [not_or] at h
  obtain ⟨h1, h2, h3⟩ := h
  rcases req with ⟨name, template_key, subject, scheduled_time, end_time, from_email,
    manager_email, smtp_host, smtp_port, smtp_user, smtp_pass, enable_sending, approval,
    recipients⟩
  simp only at h1 h2 h3
  rcases name with _ | _ | name <;> rcases template_key with _ | _ | template_key <;>
    rcases subject with _ | _ | subject <;>
    first
    | exact absurd rfl h1
    | exact absurd rfl h2
    | exact absurd rfl h3
    | simp [editRow, assignNotNull, assign_eq_getD, expectedEdit]

/-- C3, as the code has it. For an existing campaign and an edit that carries no recipient
list: the edit is refused with a validation error exactly when the campaign is running or
completed or the request supplies `null` for `name`, `template_key` or `subject`; a refused
edit leaves the whole store as it was; an accepted edit leaves the campaign's row with each
supplied field at its supplied value, `updated_at` at the time of the request and every
other column as before, and changes neither the targets nor any other campaign. -/
theorem edit_lock_and_not_null (rand : String → String) (now : String) (id : Nat)
    (req : EditRequest) (s : Store) (c : Campaign)
    (hc : getCampaign s id = some c) (hrec : req.recipients = none) :
    ((c.status = .running ∨ c.status = .completed ∨ suppliesNull req) →
      (∃ msg, (editCampaign rand now id req s).1 = .badRequest msg) ∧
      (editCampaign rand now id req s).2 = s) ∧
    (¬ (c.status = .running ∨ c.status = .completed ∨ suppliesNull req) →
      (editCampaign rand now id req s).1 = .ok ∧
      getCampaign (editCampaign rand now id req s).2 id = some (expectedEdit req now c) ∧
      (editCampaign rand now id req s).2.campaign_targets = s.campaign_targets ∧
      ∀ j, j ≠ id → getCampaign (editCampaign rand now id req s).2 j = getCampaign s j) := by
  obtain ⟨hmem, hid⟩ := getCampaign_mem hc
  constructor
  · intro h
    unfold editCampaign
    simp only [hc]
    by_cases hlock : c.status = .running ∨ c.status = .completed
    · rw [if_pos hlock]; exact ⟨⟨_, rfl⟩, rfl⟩
    · rw [if_neg hlock]
      have hnull : suppliesNull req := by
        rcases h with h | h | h
        · exact absurd (Or.inl h) hlock
        · exact absurd (Or.inr h) hlock
        · exact h
      rw [updateRows_none hmem hid (editRow_eq_none now c hnull)]
      exact ⟨⟨_, rfl⟩, rfl⟩
  · intro h
    simp only [not_or] at h
    obtain ⟨h1, h2, h3⟩ := h
    have hlock : ¬ (c.status = .running ∨ c.status = .completed) := by
      rintro (h | h)
      · exact h1 h
      · exact h2 h
    have hrows := @updateRows_some (editRow req now) id s.campaigns
      (fun d _ _ => ⟨_, editRow_eq_some now d h3⟩)
    have hg : ∀ d : Campaign,
        (if d.id = id then (editRow req now d).getD d else d).id = d.id := by
      intro d
      split
      · rw [editRow_eq_some now d h3]; rfl
      · rfl
    unfold editCampaign
    simp only [hc, if_neg hlock, hrows, hrec]
    refine ⟨trivial, ?_, trivial, ?_⟩
    · unfold getCampaign
      simp only
      rw [find?_map_id _ hg]
      unfold getCampaign at hc
      rw [hc]
      simp [hid, editRow_eq_some now c h3]
    · intro j hj
      unfold getCampaign
      simp only
      rw [find?_map_id _ hg]
      cases hfind : s.campaigns.find? (fun c => c.id = j) with
      | none => rfl
      | some d =>
        have hdj : d.id = j := by simpa using List.find?_some hfind
        have : d.id ≠ id := by rw [hdj]; exact hj
        simp [this]

/-- Witness for C3: an edit of the draft campaign of `exDraftStore` that supplies a new
subject is accepted and writes it. -/
theorem edit_lock_and_not_null_witness :
    getCampaign exDraftStore 1 = some (exCampaign 1 none false false .draft) ∧
    (editCampaign exRand "2026-01-01T08:10:00.000Z" 1
      { exNoEdit with subject := some (some "Please verify") } exDraftStore).1 = .ok ∧
    (getCampaign (editCampaign exRand "2026-01-01T08:10:00.000Z" 1
      { exNoEdit with subject := some (some "Please verify") } exDraftStore).2 1).map
        (fun c => c.subject) = some "Please verify" := by
  have h := (edit_lock_and_not_null exRand "2026-01-01T08:10:00.000Z" 1
    { exNoEdit with subject := some (some "Please verify") } exDraftStore
    (exCampaign 1 none false false .draft) (by decide) rfl).2
    (by simp [suppliesNull, exCampaign, exNoEdit])
  exact ⟨by decide, h.1, by rw [h.2.1]; rfl⟩

/-- C3 as stated fails: the campaign is a draft and the edit touches only `name`, without
a recipient list, yet the edit is refused, because it supplies `null` for a column declared
`NOT NULL`; the stored row is unchanged. -/
theorem edit_of_draft_refused_for_null_name :
    (getCampaign exDraftStore 1).map (fun c => c.status) = some .draft ∧
    ({ exNoEdit with name := some none } : EditRequest).recipients = none ∧
    (editCampaign exRand "2026-01-01T08:10:00.000Z" 1 { exNoEdit with name := some none }
      exDraftStore) =
      (.badRequest "SQLITE_CONSTRAINT: NOT NULL constraint failed", exDraftStore) := by
  decide

/-! ## C4 -/

/-- C4, at an input where the code departs from it: an edit of a draft campaign that
supplies a new name together with an empty recipient list is refused by recipient
validation, but the `UPDATE` has already run: the stored name is the new one and
`updated_at` has moved, while the targets are as before. The same happens when the
recipient list names an address that is not on the allowlist. -/
theorem rejected_edit_keeps_field_changes :
    (getCampaign exDraftStore 1).map (fun c => (c.status, c.name))
      = some (.draft, "Q1 awareness") ∧
    (editCampaign exRand "2026-01-01T08:10:00.000Z" 1
      { exNoEdit with name := some (some "Renamed"), recipients := some [] } exDraftStore).1
      = .badRequest "Recipients are required and must be on the allowlist." ∧
    (getCampaign (editCampaign exRand "2026-01-01T08:10:00.000Z" 1
      { exNoEdit with name := some (some "Renamed"), recipients := some [] } exDraftStore).2 1).map
        (fun c => (c.name, c.updated_at)) = some ("Renamed", "2026-01-01T08:10:00.000Z") ∧
    (editCampaign exRand "2026-01-01T08:10:00.000Z" 1
      { exNoEdit with name := some (some "Renamed"), recipients := some [] }
      exDraftStore).2.campaign_targets = exDraftStore.campaign_targets ∧
    (editCampaign exRand "2026-01-01T08:10:00.000Z" 1
      { exNoEdit with name := some (some "Renamed"), recipients := some ["x@gmail.com"] }
      exDraftStore).1 = .badRequest "All recipients must exist in the allowlist." ∧
    (getCampaign (editCampaign exRand "2026-01-01T08:10:00.000Z" 1
      { exNoEdit with name := some (some "Renamed"), recipients := some ["x@gmail.com"] }
      exDraftStore).2 1).map (fun c => c.name) = some "Renamed" := by
  decide

/-! ## C5 -/

section dispatch

variable (env : Env) (now : String) (campaign : Campaign) (template : Template)

/-- While every send is accepted the loop of `dispatchCampaign` goes on. -/
theorem dispatchLoop_append (pre rest : List CampaignTarget) (s : Store)
    (hok : ∀ t ∈ pre, sendMail env campaign (simulationMail env campaign template t) = true) :
    dispatchLoop env now campaign template (pre ++ rest) s =
      dispatchLoop env now campaign template rest (afterSends env now campaign template pre s) := by
  induction pre generalizing s with
  | nil => rfl
  | cons t ts ih =>
    have ht := hok t (List.mem_cons_self _ _)
    rw [List.cons_append, dispatchLoop, if_pos ht,
      ih _ (fun u hu => hok u (List.mem_cons_of_mem _ hu))]
    rfl

theorem afterSends_cons (t : CampaignTarget) (ts : List CampaignTarget) (s : Store) :
    afterSends env now campaign template (t :: ts) s =
      afterSends env now campaign template ts (deliverOne env now campaign template t s) := rfl

theorem afterSends_outbox (targets : List CampaignTarget) (s : Store) :
    (afterSends env now campaign template targets s).outbox = s.outbox ++
      targets.map (fun t => ⟨.simulation, campaign.id, simulationMail env campaign template t⟩) := by
  induction targets generalizing s with
  | nil => simp [afterSends]
  | cons t ts ih =>
    rw [afterSends_cons, ih]
    simp [deliverOne, markDelivered, recordEvent]

theorem afterSends_campaigns (targets : List CampaignTarget) (s : Store) :
    (afterSends env now campaign template targets s).campaigns = s.campaigns := by
  induction targets generalizing s with
  | nil => rfl
  | cons t ts ih =>
    rw [afterSends_cons, ih]
    rfl

theorem afterSends_targets (targets : List CampaignTarget) (s : Store) :
    (afterSends env now campaign template targets s).campaign_targets =
      s.campaign_targets.map (fun t =>
        if t.id ∈ targets.map (fun u => u.id) then { t with delivered := true } else t) := by
  induction targets generalizing s with
  | nil => simp [afterSends]
  | cons t ts ih =>
    rw [afterSends_cons, ih]
    simp only [deliverOne, markDelivered, recordEvent, List.map_map, List.map_cons,
      List.mem_cons]
    apply List.map_congr_left
    intro u _
    simp only [Function.comp]
    by_cases h1 : u.id = t.id
    · rw [if_pos h1, if_pos (Or.inl h1)]
      split <;> rfl
    · rw [if_neg h1]
      by_cases h2 : u.id ∈ ts.map (fun u => u.id)
      · rw [if_pos h2, if_pos (Or.inr h2)]
      · rw [if_neg h2, if_neg (by rintro (h | h); exact h1 h; exact h2 h)]

theorem afterSends_events (targets : List CampaignTarget) (s : Store) :
    ∃ evs : List CampaignEvent,
      (afterSends env now campaign template targets s).campaign_events =
        s.campaign_events ++ evs ∧
      evs.map (fun e => (e.campaign_id, e.email, e.event_type)) =
        targets.map (fun t => (campaign.id, t.email, EventType.delivered)) := by
  induction targets generalizing s with
  | nil => exact ⟨[], by simp [afterSends], rfl⟩
  | cons t ts ih =>
    obtain ⟨evs, h1, h2⟩ := ih (deliverOne env now campaign template t s)
    rw [afterSends_cons, h1]
    refine ⟨{ id := nextRowid (s.campaign_events.map (fun e => e.id)) s.events_seq,
              campaign_id := campaign.id, email := t.email, event_type := .delivered,
              timestamp := currentTimestamp now,
              ip_hash := if "internal" ≠ "" ∧ "internal" ≠ "unknown" then
                some (env.hashValue "internal") else none,
              simulated_entry := false } :: evs, ?_, ?_⟩
    · simp only [deliverOne, markDelivered, recordEvent, List.append_assoc,
        List.singleton_append]
    · simp [h2]

end dispatch

/-- The message for a target does not depend on its `delivered` flag. -/
theorem simulationMail_delivered (env : Env) (campaign : Campaign) (template : Template)
    (t : CampaignTarget) (b : Bool) :
    simulationMail env campaign template { t with delivered := b } =
      simulationMail env campaign template t := rfl

/-- A dispatch in which every send is accepted is the loop run to its end. -/
theorem dispatchCampaign_eq_afterSends (env : Env) (now : String) (campaignId : Nat)
    (s : Store) (campaign : Campaign) (template : Template)
    (hc : getCampaign s campaignId = some campaign)
    (ht : findTemplate campaign.template_key = some template)
    (hok : ∀ t ∈ getCampaignTargets s campaignId,
      sendMail env campaign (simulationMail env campaign template t) = true) :
    dispatchCampaign env now campaignId s =
      ⟨afterSends env now campaign template (getCampaignTargets s campaignId) s, false⟩ := by
  unfold dispatchCampaign
  simp only [hc, ht]
  have := dispatchLoop_append env now campaign template (getCampaignTargets s campaignId) []
    s hok
  rw [List.append_nil] at this
  rw [this]
  rfl

/-- After a dispatch in which every send is accepted, the targets of the campaign are the
ones it had, each with `delivered = true`. -/
theorem afterSends_own_targets (env : Env) (now : String) (campaign : Campaign)
    (template : Template) (campaignId : Nat) (s : Store) :
    getCampaignTargets
        (afterSends env now campaign template (getCampaignTargets s campaignId) s) campaignId =
      (getCampaignTargets s campaignId).map (fun t => { t with delivered := true }) := by
  unfold getCampaignTargets
  rw [afterSends_targets, List.filter_map]
  have hcomp : ((fun t : CampaignTarget => decide (t.campaign_id = campaignId)) ∘
      (fun t : CampaignTarget =>
        if t.id ∈ (s.campaign_targets.filter
          (fun u => u.campaign_id = campaignId)).map (fun u => u.id)
        then { t with delivered := true } else t)) =
      (fun t : CampaignTarget => decide (t.campaign_id = campaignId)) := by
    funext t
    simp only [Function.comp]
    split <;> rfl
  rw [hcomp]
  apply List.map_congr_left
  intro t ht
  rw [if_pos (List.mem_map_of_mem (fun u => u.id) ht)]

/-- C5, as the code has it. `dispatchCampaign` goes through the targets in order and
stops at the first one the transport refuses: it throws; exactly the targets before the
refused one are sent to, get a `delivered` event and end with `delivered = true`; the
refused target and every target after it are not sent to, get no event and keep their row
as it was, whatever the transport would have answered for them. Target ids are unique
(the primary key of `campaign_targets`). -/
theorem dispatch_stops_at_first_refusal (env : Env) (now : String) (campaignId : Nat)
    (s : Store) (campaign : Campaign) (template : Template) (pre post : List CampaignTarget)
    (r : CampaignTarget)
    (hc : getCampaign s campaignId = some campaign)
    (ht : findTemplate campaign.template_key = some template)
    (htargets : getCampaignTargets s campaignId = pre ++ r :: post)
    (hkey : (s.campaign_targets.map (fun t => t.id)).Nodup)
    (hok : ∀ t ∈ pre, sendMail env campaign (simulationMail env campaign template t) = true)
    (hfail : sendMail env campaign (simulationMail env campaign template r) = false) :
    (dispatchCampaign env now campaignId s).threw = true ∧
    (dispatchCampaign env now campaignId s).store.outbox = s.outbox ++
      pre.map (fun t => ⟨.simulation, campaignId, simulationMail env campaign template t⟩) ∧
    (∃ evs : List CampaignEvent,
      (dispatchCampaign env now campaignId s).store.campaign_events =
        s.campaign_events ++ evs ∧
      evs.map (fun e => (e.campaign_id, e.email, e.event_type)) =
        pre.map (fun t => (campaignId, t.email, EventType.delivered))) ∧
    (∀ t ∈ pre, { t with delivered := true } ∈
      (dispatchCampaign env now campaignId s).store.campaign_targets) ∧
    (∀ t ∈ r :: post, t ∈ (dispatchCampaign env now campaignId s).store.campaign_targets) := by
  have hid : campaign.id = campaignId := (getCampaign_mem hc).2
  have hrun : dispatchCampaign env now campaignId s =
      ⟨afterSends env now campaign template pre s, true⟩ := by
    unfold dispatchCampaign
    simp only [hc, ht, htargets]
    rw [dispatchLoop_append env now campaign template pre (r :: post) s hok]
    simp only [dispatchLoop, hfail]
    rfl
  have hsub : ∀ t ∈ pre ++ r :: post, t ∈ s.campaign_targets := by
    intro t h
    rw [← htargets] at h
    exact (List.mem_filter.mp h).1
  have hnodup : ((pre ++ r :: post).map (fun t => t.id)).Nodup := by
    rw [← htargets]
    exact (List.Sublist.map _ (List.filter_sublist _)).nodup hkey
  rw [hrun]
  refine ⟨rfl, ?_, ?_, ?_, ?_⟩
  · rw [afterSends_outbox, hid]
  · have := afterSends_events env now campaign template pre s
    rw [hid] at this
    exact this
  · intro t htp
    rw [afterSends_targets]
    refine List.mem_map.mpr ⟨t, hsub t (List.mem_append_left _ htp), ?_⟩
    rw [if_pos (List.mem_map_of_mem (fun u => u.id) htp)]
  · intro t htp
    rw [afterSends_targets]
    refine List.mem_map.mpr ⟨t, hsub t (List.mem_append_right _ htp), ?_⟩
    rw [if_neg]
    intro hmem
    rw [List.map_append, List.nodup_append] at hnodup
    exact hnodup.2.2 hmem (List.mem_map_of_mem (fun u => u.id) htp)

/-- Witness for C5: in `exThreeStore` the transport accepts the first target and refuses
the second; the first ends delivered, the second and the third keep their rows. -/
theorem dispatch_stops_at_first_refusal_witness :
    (dispatchCampaign exEnv "2026-01-01T09:01:00.000Z" 1 exThreeStore).threw = true ∧
    { exTarget 1 1 "a@co.com" "tok-a" with delivered := true } ∈
      (dispatchCampaign exEnv "2026-01-01T09:01:00.000Z" 1 exThreeStore).store.campaign_targets ∧
    exTarget 3 1 "c@co.com" "tok-c" ∈
      (dispatchCampaign exEnv "2026-01-01T09:01:00.000Z" 1 exThreeStore).store.campaign_targets := by
  have h := dispatch_stops_at_first_refusal exEnv "2026-01-01T09:01:00.000Z" 1 exThreeStore
    (exCampaign 1 (some "2026-01-01T09:00:00.000Z") true true .running)
    (templates.get ⟨0, by decide⟩) [exTarget 1 1 "a@co.com" "tok-a"]
    [exTarget 3 1 "c@co.com" "tok-c"] (exTarget 2 1 "b@co.com" "tok-b")
    (by decide) (by rfl) (by decide) (by decide) (by decide) (by decide)
  exact ⟨h.1, h.2.2.2.1 _ (by decide), h.2.2.2.2 _ (by decide)⟩

/-- C5 as stated fails: the transport refuses only `b@co.com`, the second of three
targets, and would accept the two others; after `dispatchCampaign` the third target,
`c@co.com`, still has `delivered = false`, has no `delivered` event and was sent nothing. -/
theorem dispatch_leaves_later_targets_unsent :
    (exThreeStore.campaign_targets.map (fun t =>
      sendMail exEnv (exCampaign 1 (some "2026-01-01T09:00:00.000Z") true true .running)
        (simulationMail exEnv (exCampaign 1 (some "2026-01-01T09:00:00.000Z") true true .running)
          (templates.get ⟨0, by decide⟩) t))) = [true, false, true] ∧
    (dispatchCampaign exEnv "2026-01-01T09:01:00.000Z" 1 exThreeStore).store.campaign_targets.map
      (fun t => (t.email, t.delivered))
      = [("a@co.com", true), ("b@co.com", false), ("c@co.com", false)] ∧
    (dispatchCampaign exEnv "2026-01-01T09:01:00.000Z" 1 exThreeStore).store.campaign_events.map
      (fun e => (e.email, e.event_type)) = [("a@co.com", .delivered)] ∧
    (dispatchCampaign exEnv "2026-01-01T09:01:00.000Z" 1 exThreeStore).store.outbox.map
      (fun m => m.mail.to_addr) = ["a@co.com"] := by
  decide

/-! ## C6 -/

section scans

variable (env : Env) (now : String)

/-- What the loop of `dispatchCampaign` adds to the log and to the events is for its
campaign. -/
theorem dispatchLoop_log (campaign : Campaign) (template : Template)
    (targets : List CampaignTarget) (s : Store) :
    ∃ (new : List Sent) (evs : List CampaignEvent),
      (dispatchLoop env now campaign template targets s).store.outbox = s.outbox ++ new ∧
      (∀ m ∈ new, m.campaign_id = campaign.id ∧ m.kind = .simulation) ∧
      (dispatchLoop env now campaign template targets s).store.campaign_events =
        s.campaign_events ++ evs ∧
      (∀ e ∈ evs, e.campaign_id = campaign.id ∧ e.event_type = .delivered) := by
  induction targets generalizing s with
  | nil => exact ⟨[], [], by simp [dispatchLoop], by simp, by simp [dispatchLoop], by simp⟩
  | cons t ts ih =>
    unfold dispatchLoop
    split
    · obtain ⟨new, evs, h1, h2, h3, h4⟩ := ih (deliverOne env now campaign template t s)
      refine ⟨⟨.simulation, campaign.id, simulationMail env campaign template t⟩ :: new,
        { id := nextRowid (s.campaign_events.map (fun e => e.id)) s.events_seq,
          campaign_id := campaign.id, email := t.email, event_type := .delivered,
          timestamp := currentTimestamp now,
          ip_hash := if "internal" ≠ "" ∧ "internal" ≠ "unknown" then
            some (env.hashValue "internal") else none,
          simulated_entry := false } :: evs, ?_, ?_, ?_, ?_⟩
      · rw [h1]; simp [deliverOne, markDelivered, recordEvent]
      · intro m hm
        rcases List.mem_cons.mp hm with rfl | hm
        · exact ⟨rfl, rfl⟩
        · exact h2 m hm
      · rw [h3]; simp [deliverOne, markDelivered, recordEvent]
      · intro e he
        rcases List.mem_cons.mp he with rfl | he
        · exact ⟨rfl, rfl⟩
        · exact h4 e he
    · exact ⟨[], [], by simp, by simp, by simp, by simp⟩

theorem dispatchCampaign_log (campaignId : Nat) (s : Store) :
    ∃ (new : List Sent) (evs : List CampaignEvent),
      (dispatchCampaign env now campaignId s).store.outbox = s.outbox ++ new ∧
      (∀ m ∈ new, m.campaign_id = campaignId ∧ m.kind = .simulation) ∧
      (dispatchCampaign env now campaignId s).store.campaign_events =
        s.campaign_events ++ evs ∧
      (∀ e ∈ evs, e.campaign_id = campaignId ∧ e.event_type = .delivered) := by
  unfold dispatchCampaign
  split
  · exact ⟨[], [], by simp, by simp, by simp, by simp⟩
  · rename_i campaign hc
    split
    · exact ⟨[], [], by simp, by simp, by simp, by simp⟩
    · rename_i template _
      have hid := (getCampaign_mem hc).2
      have := dispatchLoop_log env now campaign template (getCampaignTargets s campaignId) s
      rw [hid] at this
      exact this

theorem debriefLoop_log (campaign : Campaign) (targets : List CampaignTarget) (s : Store) :
    ∃ new : List Sent,
      (debriefLoop env campaign targets s).store.outbox = s.outbox ++ new ∧
      (∀ m ∈ new, m.campaign_id = campaign.id ∧ m.kind = .debrief) ∧
      (debriefLoop env campaign targets s).store.campaign_events = s.campaign_events := by
  induction targets generalizing s with
  | nil => exact ⟨[], by simp [debriefLoop], by simp, by simp [debriefLoop]⟩
  | cons t ts ih =>
    unfold debriefLoop
    split
    · obtain ⟨new, h1, h2, h3⟩ := ih { s with outbox := s.outbox ++
        [⟨.debrief, campaign.id, debriefMail env campaign t⟩] }
      refine ⟨⟨.debrief, campaign.id, debriefMail env campaign t⟩ :: new, ?_, ?_, ?_⟩
      · rw [h1]; simp
      · intro m hm
        rcases List.mem_cons.mp hm with rfl | hm
        · exact ⟨rfl, rfl⟩
        · exact h2 m hm
      · rw [h3]
    · exact ⟨[], by simp, by simp, rfl⟩

/-- While no dispatch throws the loop of `checkScheduledCampaigns` goes on. -/
theorem scheduledLoop_append (pre rest : List Campaign) (s : Store)
    (hpre : (scheduledLoop env now pre s).threw = false) :
    scheduledLoop env now (pre ++ rest) s =
      scheduledLoop env now rest (scheduledLoop env now pre s).store := by
  induction pre generalizing s with
  | nil => rfl
  | cons d ds ih =>
    unfold scheduledLoop at hpre
    simp only [List.cons_append]
    rw [scheduledLoop]
    simp only at hpre ⊢
    by_cases hd : (dispatchCampaign env now d.id (updateCampaign s d.id (promote now))).threw = true
    · rw [if_pos hd] at hpre
      rw [hd] at hpre
      cases hpre
    · rw [if_neg hd] at hpre
      rw [if_neg hd, ih _ hpre]
      conv_rhs => rw [scheduledLoop]
      simp only [if_neg hd]

/-- While no debrief throws the loop of `checkDebriefs` goes on. -/
theorem debriefsLoop_append (pre rest : List Campaign) (s : Store)
    (hpre : (debriefsLoop env now pre s).threw = false) :
    debriefsLoop env now (pre ++ rest) s =
      debriefsLoop env now rest (debriefsLoop env now pre s).store := by
  induction pre generalizing s with
  | nil => rfl
  | cons d ds ih =>
    unfold debriefsLoop at hpre
    simp only [List.cons_append]
    rw [debriefsLoop]
    simp only at hpre ⊢
    by_cases hd : (sendDebrief env d s).threw = true
    · rw [if_pos hd] at hpre
      rw [hd] at hpre
      cases hpre
    · rw [if_neg hd] at hpre
      rw [if_neg hd, ih _ hpre]
      conv_rhs => rw [debriefsLoop]
      simp only [if_neg hd]

/-- The rows after a promote-to-running loop in which no dispatch threw. -/
theorem scheduledLoop_campaigns_of_ok (l : List Campaign) (s : Store)
    (hok : (scheduledLoop env now l s).threw = false) :
    (scheduledLoop env now l s).store.campaigns =
      s.campaigns.map (fun c => if c.id ∈ l.map (fun d => d.id) then promote now c else c) := by
  induction l generalizing s with
  | nil => simp [scheduledLoop]
  | cons d ds ih =>
    unfold scheduledLoop at hok ⊢
    simp only at hok ⊢
    by_cases hd : (dispatchCampaign env now d.id (updateCampaign s d.id (promote now))).threw = true
    · rw [if_pos hd] at hok
      rw [hd] at hok
      cases hok
    · rw [if_neg hd] at hok
      rw [if_neg hd, ih _ hok, dispatchCampaign_campaigns]
      simp only [updateCampaign, List.map_map, List.map_cons, List.mem_cons]
      apply List.map_congr_left
      intro c _
      simp only [Function.comp]
      by_cases h1 : c.id = d.id
      · simp [h1]
      · simp [h1]

/-- The rows after a promote-to-completed loop in which no debrief threw. -/
theorem debriefsLoop_campaigns_of_ok (l : List Campaign) (s : Store)
    (hok : (debriefsLoop env now l s).threw = false) :
    (debriefsLoop env now l s).store.campaigns =
      s.campaigns.map (fun c => if c.id ∈ l.map (fun d => d.id) then complete now c else c) := by
  induction l generalizing s with
  | nil => simp [debriefsLoop]
  | cons d ds ih =>
    unfold debriefsLoop at hok ⊢
    simp only at hok ⊢
    by_cases hd : (sendDebrief env d s).threw = true
    · rw [if_pos hd] at hok
      rw [hd] at hok
      cases hok
    · rw [if_neg hd] at hok
      rw [if_neg hd, ih _ hok]
      simp only [updateCampaign, sendDebrief_campaigns, List.map_map, List.map_cons,
        List.mem_cons]
      apply List.map_congr_left
      intro c _
      simp only [Function.comp]
      by_cases h1 : c.id = d.id
      · simp [h1]
      · simp [h1]

/-- What a promote-to-running loop adds to the log and to the events is for the campaigns
of its list. -/
theorem scheduledLoop_log (l : List Campaign) (s : Store) :
    ∃ (new : List Sent) (evs : List CampaignEvent),
      (scheduledLoop env now l s).store.outbox = s.outbox ++ new ∧
      (∀ m ∈ new, m.campaign_id ∈ l.map (fun d => d.id) ∧ m.kind = .simulation) ∧
      (scheduledLoop env now l s).store.campaign_events = s.campaign_events ++ evs ∧
      (∀ e ∈ evs, e.campaign_id ∈ l.map (fun d => d.id)) := by
  induction l generalizing s with
  | nil => exact ⟨[], [], by simp [scheduledLoop], by simp, by simp [scheduledLoop], by simp⟩
  | cons d ds ih =>
    obtain ⟨new1, evs1, a1, a2, a3, a4⟩ :=
      dispatchCampaign_log env now d.id (updateCampaign s d.id (promote now))
    unfold scheduledLoop
    simp only
    split
    · refine ⟨new1, evs1, a1, ?_, a3, ?_⟩
      · intro m hm; exact ⟨by simp [(a2 m hm).1], (a2 m hm).2⟩
      · intro e he; simp [(a4 e he).1]
    · obtain ⟨new2, evs2, b1, b2, b3, b4⟩ :=
        ih (dispatchCampaign env now d.id (updateCampaign s d.id (promote now))).store
      refine ⟨new1 ++ new2, evs1 ++ evs2, ?_, ?_, ?_, ?_⟩
      · rw [b1, a1, List.append_assoc]; rfl
      · intro m hm
        rcases List.mem_append.mp hm with hm | hm
        · exact ⟨by simp [(a2 m hm).1], (a2 m hm).2⟩
        · exact ⟨List.mem_cons_of_mem _ (b2 m hm).1, (b2 m hm).2⟩
      · rw [b3, a3, List.append_assoc]; rfl
      · intro e he
        rcases List.mem_append.mp he with he | he
        · simp [(a4 e he).1]
        · exact List.mem_cons_of_mem _ (b4 e he)

/-- What a promote-to-completed loop adds to the log is for the campaigns of its list. -/
theorem debriefsLoop_log (l : List Campaign) (s : Store) :
    ∃ new : List Sent,
      (debriefsLoop env now l s).store.outbox = s.outbox ++ new ∧
      (∀ m ∈ new, m.campaign_id ∈ l.map (fun d => d.id) ∧ m.kind = .debrief) := by
  induction l generalizing s with
  | nil => exact ⟨[], by simp [debriefsLoop], by simp⟩
  | cons d ds ih =>
    obtain ⟨new1, a1, a2, _⟩ := debriefLoop_log env d (getCampaignTargets s d.id) s
    unfold debriefsLoop
    simp only
    split
    · refine ⟨new1, a1, ?_⟩
      intro m hm; exact ⟨by simp [(a2 m hm).1], (a2 m hm).2⟩
    · obtain ⟨new2, b1, b2⟩ :=
        ih (updateCampaign (sendDebrief env d s).store d.id (complete now))
      refine ⟨new1 ++ new2, ?_, ?_⟩
      · rw [b1, ← List.append_assoc]
        congr 1
      · intro m hm
        rcases List.mem_append.mp hm with hm | hm
        · exact ⟨by simp [(a2 m hm).1], (a2 m hm).2⟩
        · exact ⟨List.mem_cons_of_mem _ (b2 m hm).1, (b2 m hm).2⟩

end scans

/-! ### Targets through a scan -/

theorem TargetsMarked.marked_refl (ids : List Nat) (s : Store) : TargetsMarked ids s s :=
  ⟨fun t => t, by simp, fun _ => Or.inl rfl, fun _ _ _ => rfl⟩

theorem TargetsMarked.marked_trans {ids : List Nat} {s1 s2 s3 : Store}
    (h12 : TargetsMarked ids s1 s2) (h23 : TargetsMarked ids s2 s3) :
    TargetsMarked ids s1 s3 := by
  obtain ⟨f, hf1, hf2, hf3⟩ := h12
  obtain ⟨g, hg1, hg2, hg3⟩ := h23
  refine ⟨fun t => g (f t), ?_, ?_, ?_⟩
  · rw [hg1, hf1, List.map_map]
    rfl
  · intro t
    show g (f t) = t ∨ g (f t) = { t with delivered := true }
    rcases hf2 t with h | h
    · rw [h]
      exact hg2 t
    · rw [h]
      rcases hg2 { t with delivered := true } with h' | h'
      · exact Or.inr h'
      · exact Or.inr h'
  · intro t ht hid
    show g (f t) = t
    have h1 := hf3 t ht hid
    have h2 : f t ∈ s2.campaign_targets := by
      rw [hf1]
      exact List.mem_map_of_mem f ht
    rw [h1] at h2 ⊢
    exact hg3 t h2 hid

theorem TargetsMarked.mono {ids ids' : List Nat} {s s' : Store} (h : TargetsMarked ids s s')
    (hsub : ∀ i ∈ ids, i ∈ ids') : TargetsMarked ids' s s' := by
  obtain ⟨f, h1, h2, h3⟩ := h
  exact ⟨f, h1, h2, fun t ht hid => h3 t ht (fun hin => hid (hsub _ hin))⟩

theorem TargetsMarked.keys {ids : List Nat} {s s' : Store} (h : TargetsMarked ids s s') :
    s'.campaign_targets.map (fun t => (t.id, t.campaign_id)) =
      s.campaign_targets.map (fun t => (t.id, t.campaign_id)) := by
  obtain ⟨f, h1, h2, _⟩ := h
  rw [h1, List.map_map]
  apply List.map_congr_left
  intro t _
  simp only [Function.comp]
  rcases h2 t with h | h <;> rw [h]

theorem TargetsMarked.nodup {ids : List Nat} {s s' : Store} (h : TargetsMarked ids s s')
    (hkey : (s.campaign_targets.map (fun t => t.id)).Nodup) :
    (s'.campaign_targets.map (fun t => t.id)).Nodup := by
  have h1 := congrArg (List.map Prod.fst) h.keys
  simp only [List.map_map] at h1
  have h2 : (Prod.fst ∘ fun t : CampaignTarget => (t.id, t.campaign_id)) =
      fun t => t.id := rfl
  rw [h2] at h1
  rw [h1]
  exact hkey

/-- The targets of one campaign after rows were marked. -/
theorem TargetsMarked.own {ids : List Nat} {s s' : Store} (h : TargetsMarked ids s s')
    (campaignId : Nat) :
    ∃ f : CampaignTarget → CampaignTarget,
      getCampaignTargets s' campaignId = (getCampaignTargets s campaignId).map f ∧
      (∀ t, f t = t ∨ f t = { t with delivered := true }) := by
  obtain ⟨f, h1, h2, _⟩ := h
  refine ⟨f, ?_, h2⟩
  unfold getCampaignTargets
  rw [h1, List.filter_map]
  congr 1
  apply List.filter_congr
  intro t _
  simp only [Function.comp]
  rcases h2 t with h | h <;> rw [h]

/-- The targets of a campaign outside `ids` are as they were. -/
theorem TargetsMarked.others {ids : List Nat} {s s' : Store} (h : TargetsMarked ids s s')
    (campaignId : Nat) (hid : campaignId ∉ ids) :
    getCampaignTargets s' campaignId = getCampaignTargets s campaignId := by
  obtain ⟨f, h1, h2, h3⟩ := h
  unfold getCampaignTargets
  rw [h1, List.filter_map]
  have hf : (s.campaign_targets.filter
      ((fun t => decide (t.campaign_id = campaignId)) ∘ f)) =
      s.campaign_targets.filter (fun t => decide (t.campaign_id = campaignId)) := by
    apply List.filter_congr
    intro t _
    simp only [Function.comp]
    rcases h2 t with h | h <;> rw [h]
  rw [hf]
  conv_rhs => rw [← List.map_id (s.campaign_targets.filter
    (fun t => decide (t.campaign_id = campaignId)))]
  apply List.map_congr_left
  intro t ht
  rw [List.mem_filter] at ht
  have hc : t.campaign_id = campaignId := by simpa using ht.2
  rw [h3 t ht.1 (by rw [hc]; exact hid)]
  rfl

/-- A `delivered` flag that is set stays set. -/
theorem TargetsMarked.delivered {ids : List Nat} {s s' : Store} (h : TargetsMarked ids s s')
    (campaignId : Nat) (hall : ∀ t ∈ getCampaignTargets s campaignId, t.delivered = true) :
    ∀ t ∈ getCampaignTargets s' campaignId, t.delivered = true := by
  obtain ⟨f, h1, h2⟩ := h.own campaignId
  intro t ht
  rw [h1] at ht
  obtain ⟨t0, ht0, rfl⟩ := List.mem_map.mp ht
  rcases h2 t0 with h | h
  · rw [h]; exact hall t0 ht0
  · rw [h]

theorem markDelivered_marked (ids : List Nat) (targetId : Nat) (s : Store)
    (hrow : ∀ u ∈ s.campaign_targets, u.id = targetId → u.campaign_id ∈ ids) :
    TargetsMarked ids s (markDelivered targetId s) := by
  refine ⟨fun t => if t.id = targetId then { t with delivered := true } else t, rfl, ?_, ?_⟩
  · intro t
    by_cases h : t.id = targetId
    · exact Or.inr (if_pos h)
    · exact Or.inl (if_neg h)
  · intro t ht hid
    by_cases h : t.id = targetId
    · exact absurd (hrow t ht h) hid
    · exact if_neg h

theorem dispatchLoop_marked (env : Env) (now : String) (campaign : Campaign)
    (template : Template) (ids : List Nat) (targets : List CampaignTarget) (s : Store)
    (hrow : ∀ t ∈ targets, ∀ u ∈ s.campaign_targets, u.id = t.id → u.campaign_id ∈ ids) :
    TargetsMarked ids s (dispatchLoop env now campaign template targets s).store := by
  induction targets generalizing s with
  | nil => exact TargetsMarked.marked_refl ids s
  | cons t ts ih =>
    unfold dispatchLoop
    split
    · have h1 : TargetsMarked ids s (deliverOne env now campaign template t s) :=
        markDelivered_marked ids t.id _ (hrow t (List.mem_cons_self _ _))
      refine h1.marked_trans (ih _ ?_)
      intro t' ht' u hu hid
      have hk := h1.keys
      have hm : (u.id, u.campaign_id) ∈
          (deliverOne env now campaign template t s).campaign_targets.map
            (fun t => (t.id, t.campaign_id)) :=
        List.mem_map_of_mem (fun t => (t.id, t.campaign_id)) hu
      rw [hk] at hm
      obtain ⟨u0, hu0, heq⟩ := List.mem_map.mp hm
      simp only [Prod.mk.injEq] at heq
      rw [← heq.2]
      exact hrow t' (List.mem_cons_of_mem _ ht') u0 hu0 (by rw [heq.1]; exact hid)
    · exact TargetsMarked.marked_refl ids s

theorem dispatchCampaign_marked (env : Env) (now : String) (campaignId : Nat) (s : Store)
    (hkey : (s.campaign_targets.map (fun t => t.id)).Nodup) :
    TargetsMarked [campaignId] s (dispatchCampaign env now campaignId s).store := by
  unfold dispatchCampaign
  split
  · exact TargetsMarked.marked_refl _ s
  · split
    · exact TargetsMarked.marked_refl _ s
    · apply dispatchLoop_marked
      intro t ht u hu hid
      rw [getCampaignTargets, List.mem_filter] at ht
      have : u = t := List.inj_on_of_nodup_map hkey hu ht.1 hid
      rw [this]
      simpa using ht.2

theorem scheduledLoop_marked (env : Env) (now : String) (l : List Campaign) (s : Store)
    (hkey : (s.campaign_targets.map (fun t => t.id)).Nodup) :
    TargetsMarked (l.map (fun c => c.id)) s (scheduledLoop env now l s).store := by
  induction l generalizing s with
  | nil => exact TargetsMarked.marked_refl _ s
  | cons d ds ih =>
    have h1 : TargetsMarked [d.id] s
        (dispatchCampaign env now d.id (updateCampaign s d.id (promote now))).store :=
      dispatchCampaign_marked env now d.id (updateCampaign s d.id (promote now)) hkey
    have h1' : TargetsMarked ((d :: ds).map (fun c => c.id)) s
        (dispatchCampaign env now d.id (updateCampaign s d.id (promote now))).store :=
      h1.mono (by intro i hi; rw [List.mem_singleton] at hi; simp [hi])
    unfold scheduledLoop
    simp only
    split
    · exact h1'
    · refine h1'.marked_trans ((ih _ (h1.nodup hkey)).mono ?_)
      intro i hi
      exact List.mem_cons_of_mem _ hi

theorem debriefLoop_targets (env : Env) (campaign : Campaign) (targets : List CampaignTarget)
    (s : Store) :
    (debriefLoop env campaign targets s).store.campaign_targets = s.campaign_targets := by
  induction targets generalizing s with
  | nil => rfl
  | cons t ts ih =>
    unfold debriefLoop
    split
    · rw [ih]
    · rfl

theorem debriefsLoop_targets (env : Env) (now : String) (l : List Campaign) (s : Store) :
    (debriefsLoop env now l s).store.campaign_targets = s.campaign_targets := by
  induction l generalizing s with
  | nil => rfl
  | cons d ds ih =>
    unfold debriefsLoop
    simp only
    split
    · exact debriefLoop_targets env d _ s
    · rw [ih]
      exact debriefLoop_targets env d _ s

/-! ### The log through a scan -/

theorem Extends.extends_refl (s : Store) : Extends s s := ⟨⟨[], by simp⟩, ⟨[], by simp⟩⟩

theorem Extends.extends_trans {s1 s2 s3 : Store} (h12 : Extends s1 s2) (h23 : Extends s2 s3) :
    Extends s1 s3 := by
  obtain ⟨⟨a, ha⟩, ⟨e, he⟩⟩ := h12
  obtain ⟨⟨b, hb⟩, ⟨g, hg⟩⟩ := h23
  exact ⟨⟨a ++ b, by rw [hb, ha, List.append_assoc]⟩, ⟨e ++ g, by rw [hg, he, List.append_assoc]⟩⟩

theorem sentSince_of_append {s s' : Store} {new : List Sent}
    (h : s'.outbox = s.outbox ++ new) : sentSince s s' = new := by
  unfold sentSince
  rw [h, List.drop_left]

theorem recordedSince_of_append {s s' : Store} {evs : List CampaignEvent}
    (h : s'.campaign_events = s.campaign_events ++ evs) : recordedSince s s' = evs := by
  unfold recordedSince
  rw [h, List.drop_left]

/-- What was sent between `s0` and `s1` was sent between `s0` and any later store. -/
theorem Extends.sent {s0 s1 s2 : Store} (h01 : Extends s0 s1) (h12 : Extends s1 s2) :
    ∀ m ∈ sentSince s0 s1, m ∈ sentSince s0 s2 := by
  obtain ⟨⟨a, ha⟩, _⟩ := h01
  obtain ⟨⟨b, hb⟩, _⟩ := h12
  intro m hm
  rw [sentSince_of_append ha] at hm
  rw [sentSince_of_append (show s2.outbox = s0.outbox ++ (a ++ b) by
    rw [hb, ha, List.append_assoc])]
  exact List.mem_append_left _ hm

theorem Extends.recorded {s0 s1 s2 : Store} (h01 : Extends s0 s1) (h12 : Extends s1 s2) :
    ∀ e ∈ recordedSince s0 s1, e ∈ recordedSince s0 s2 := by
  obtain ⟨_, ⟨a, ha⟩⟩ := h01
  obtain ⟨_, ⟨b, hb⟩⟩ := h12
  intro m hm
  rw [recordedSince_of_append ha] at hm
  rw [recordedSince_of_append (show s2.campaign_events = s0.campaign_events ++ (a ++ b) by
    rw [hb, ha, List.append_assoc])]
  exact List.mem_append_left _ hm

theorem dispatchCampaign_extends (env : Env) (now : String) (campaignId : Nat) (s : Store) :
    Extends s (dispatchCampaign env now campaignId s).store := by
  obtain ⟨new, evs, h1, _, h3, _⟩ := dispatchCampaign_log env now campaignId s
  exact ⟨⟨new, h1⟩, ⟨evs, h3⟩⟩

theorem scheduledLoop_extends (env : Env) (now : String) (l : List Campaign) (s : Store) :
    Extends s (scheduledLoop env now l s).store := by
  obtain ⟨new, evs, h1, _, h3, _⟩ := scheduledLoop_log env now l s
  exact ⟨⟨new, h1⟩, ⟨evs, h3⟩⟩

theorem debriefsLoop_extends (env : Env) (now : String) (l : List Campaign) (s : Store) :
    Extends s (debriefsLoop env now l s).store := by
  obtain ⟨new, h1, _⟩ := debriefsLoop_log env now l s
  exact ⟨⟨new, h1⟩, ⟨[], by rw [debriefsLoop_events]; simp⟩⟩

theorem sendDebrief_extends (env : Env) (c : Campaign) (s : Store) :
    Extends s (sendDebrief env c s).store := by
  obtain ⟨new, h1, _, h3⟩ := debriefLoop_log env c (getCampaignTargets s c.id) s
  exact ⟨⟨new, h1⟩, ⟨[], by rw [List.append_nil]; exact h3⟩⟩

/-! ### One turn of a scan -/

/-- A loop of `dispatchCampaign` that did not throw had every send accepted. -/
theorem dispatchLoop_ok_of_not_threw (env : Env) (now : String) (campaign : Campaign)
    (template : Template) (targets : List CampaignTarget) (s : Store)
    (h : (dispatchLoop env now campaign template targets s).threw = false) :
    ∀ t ∈ targets, sendMail env campaign (simulationMail env campaign template t) = true := by
  induction targets generalizing s with
  | nil => intro t ht; cases ht
  | cons u us ih =>
    unfold dispatchLoop at h
    by_cases hu : sendMail env campaign (simulationMail env campaign template u) = true
    · rw [if_pos hu] at h
      intro t ht
      rcases List.mem_cons.mp ht with rfl | ht
      · exact hu
      · exact ih _ h t ht
    · rw [if_neg hu] at h
      cases h

/-- A row of a table with unique ids is the one its id selects. -/
theorem getCampaign_of_mem {s : Store} {c : Campaign}
    (hkey : (s.campaigns.map (fun c => c.id)).Nodup) (hc : c ∈ s.campaigns) :
    getCampaign s c.id = some c := by
  unfold getCampaign
  cases hf : s.campaigns.find? (fun d => d.id = c.id) with
  | none =>
    have := List.find?_eq_none.mp hf c hc
    simp at this
  | some d =>
    have hd : d ∈ s.campaigns := List.mem_of_find?_eq_some hf
    have hid : d.id = c.id := by simpa using List.find?_some hf
    rw [eq_of_id_eq hkey hd hc hid]

/-- One turn of the promote-to-running loop that does not throw, for the row `c` of a
campaign whose template is in the catalog: one message and one `delivered` event for each
of its targets, and all its targets end with `delivered = true`. -/
theorem turn_dispatched (env : Env) (now : String) (s : Store) (c : Campaign)
    (template : Template)
    (hc : getCampaign s c.id = some c)
    (ht : findTemplate c.template_key = some template)
    (hok : (dispatchCampaign env now c.id (updateCampaign s c.id (promote now))).threw = false) :
    (dispatchCampaign env now c.id (updateCampaign s c.id (promote now))).store.outbox =
      s.outbox ++ (getCampaignTargets s c.id).map
        (fun t => ⟨.simulation, c.id, simulationMail env (promote now c) template t⟩) ∧
    (∃ evs : List CampaignEvent,
      (dispatchCampaign env now c.id
        (updateCampaign s c.id (promote now))).store.campaign_events =
          s.campaign_events ++ evs ∧
      evs.map (fun e => (e.campaign_id, e.email, e.event_type)) =
        (getCampaignTargets s c.id).map (fun t => (c.id, t.email, EventType.delivered))) ∧
    getCampaignTargets
        (dispatchCampaign env now c.id (updateCampaign s c.id (promote now))).store c.id =
      (getCampaignTargets s c.id).map (fun t => { t with delivered := true }) := by
  have hc0 : getCampaign (updateCampaign s c.id (promote now)) c.id = some (promote now c) := by
    rw [getCampaign_updateCampaign s c.id c.id (promote now) (fun _ => rfl), hc]
    simp
  have ht0 : findTemplate (promote now c).template_key = some template := ht
  have hsend : ∀ t ∈ getCampaignTargets (updateCampaign s c.id (promote now)) c.id,
      sendMail env (promote now c) (simulationMail env (promote now c) template t) = true := by
    apply dispatchLoop_ok_of_not_threw env now (promote now c) template _
      (updateCampaign s c.id (promote now))
    unfold dispatchCampaign at hok
    simp only [hc0, ht0] at hok
    exact hok
  rw [dispatchCampaign_eq_afterSends env now c.id (updateCampaign s c.id (promote now))
    (promote now c) template hc0 ht0 hsend]
  refine ⟨?_, ?_, ?_⟩
  · rw [afterSends_outbox]
    rfl
  · exact afterSends_events env now (promote now c) template _ _
  · exact afterSends_own_targets env now (promote now c) template c.id
      (updateCampaign s c.id (promote now))

/-- A debrief that did not throw sent one message to each target. -/
theorem debriefLoop_sent (env : Env) (c : Campaign) (targets : List CampaignTarget) (s : Store)
    (h : (debriefLoop env c targets s).threw = false) :
    (debriefLoop env c targets s).store.outbox =
      s.outbox ++ targets.map (fun t => ⟨.debrief, c.id, debriefMail env c t⟩) := by
  induction targets generalizing s with
  | nil => simp [debriefLoop]
  | cons u us ih =>
    unfold debriefLoop at h ⊢
    by_cases hu : sendMail env c (debriefMail env c u) = true
    · rw [if_pos hu] at h ⊢
      rw [ih _ h]
      simp
    · rw [if_neg hu] at h
      cases h

/-- The message of the debrief does not depend on the `delivered` flag of its target. -/
theorem debriefMail_delivered (env : Env) (c : Campaign) (t : CampaignTarget) (b : Bool) :
    debriefMail env c { t with delivered := b } = debriefMail env c t := rfl

/-- A promote-to-running loop that did not throw did not throw on a part of its list. -/
theorem scheduledLoop_prefix_ok (env : Env) (now : String) (a rest : List Campaign) (s : Store)
    (h : (scheduledLoop env now (a ++ rest) s).threw = false) :
    (scheduledLoop env now a s).threw = false := by
  induction a generalizing s with
  | nil => rfl
  | cons d ds ih =>
    rw [List.cons_append] at h
    unfold scheduledLoop at h ⊢
    simp only at h ⊢
    by_cases hd :
        (dispatchCampaign env now d.id (updateCampaign s d.id (promote now))).threw = true
    · rw [if_pos hd] at h
      rw [hd] at h
      cases h
    · rw [if_neg hd] at h ⊢
      exact ih _ h

theorem debriefsLoop_prefix_ok (env : Env) (now : String) (a rest : List Campaign) (s : Store)
    (h : (debriefsLoop env now (a ++ rest) s).threw = false) :
    (debriefsLoop env now a s).threw = false := by
  induction a generalizing s with
  | nil => rfl
  | cons d ds ih =>
    rw [List.cons_append] at h
    unfold debriefsLoop at h ⊢
    simp only at h ⊢
    by_cases hd : (sendDebrief env d s).threw = true
    · rw [if_pos hd] at h
      rw [hd] at h
      cases h
    · rw [if_neg hd] at h ⊢
      exact ih _ h

/-- A campaign the promote-to-running scan selects and one the promote-to-completed scan
selects, from the same store, are different campaigns. -/
theorem due_ne_ending {now : String} {s : Store} {c e : Campaign}
    (hkey : (s.campaigns.map (fun c => c.id)).Nodup)
    (hc : c ∈ s.campaigns.filter (dueToRun now))
    (he : e ∈ s.campaigns.filter (dueToComplete now)) : c.id ≠ e.id := by
  intro hid
  rw [List.mem_filter] at hc he
  have heq := eq_of_id_eq hkey hc.1 he.1 hid
  obtain ⟨_, hst, _⟩ := dueToRun_iff hc.2
  have hrun : e.status = .running := by
    have := he.2
    unfold dueToComplete at this
    simp only [Bool.and_eq_true, decide_eq_true_eq] at this
    exact this.1
  rw [heq, hrun] at hst
  rcases hst with h | h <;> cases h

theorem TargetsMarked.of_eq (ids : List Nat) {s s' : Store}
    (h : s'.campaign_targets = s.campaign_targets) : TargetsMarked ids s s' :=
  ⟨fun t => t, by rw [h]; simp, fun _ => Or.inl rfl, fun _ _ _ => rfl⟩

/-- What was sent between `s1` and `s2` was sent between an earlier store and `s2`. -/
theorem Extends.sent_later {s0 s1 s2 : Store} (h01 : Extends s0 s1) (h12 : Extends s1 s2) :
    ∀ m ∈ sentSince s1 s2, m ∈ sentSince s0 s2 := by
  obtain ⟨⟨a, ha⟩, _⟩ := h01
  obtain ⟨⟨b, hb⟩, _⟩ := h12
  intro m hm
  rw [sentSince_of_append hb] at hm
  rw [sentSince_of_append (show s2.outbox = s0.outbox ++ (a ++ b) by
    rw [hb, ha, List.append_assoc])]
  exact List.mem_append_right _ hm

theorem Extends.recorded_later {s0 s1 s2 : Store} (h01 : Extends s0 s1)
    (h12 : Extends s1 s2) : ∀ e ∈ recordedSince s1 s2, e ∈ recordedSince s0 s2 := by
  obtain ⟨_, ⟨a, ha⟩⟩ := h01
  obtain ⟨_, ⟨b, hb⟩⟩ := h12
  intro m hm
  rw [recordedSince_of_append hb] at hm
  rw [recordedSince_of_append (show s2.campaign_events = s0.campaign_events ++ (a ++ b) by
    rw [hb, ha, List.append_assoc])]
  exact List.mem_append_right _ hm

/-- Targets that all have `delivered` set keep it. -/
theorem TargetsMarked.all_marked {ids : List Nat} {s s' : Store} (h : TargetsMarked ids s s')
    (campaignId : Nat) (l : List CampaignTarget)
    (hl : getCampaignTargets s campaignId = l.map (fun t => { t with delivered := true })) :
    getCampaignTargets s' campaignId = l.map (fun t => { t with delivered := true }) := by
  obtain ⟨f, h1, h2⟩ := h.own campaignId
  rw [h1, hl, List.map_map]
  apply List.map_congr_left
  intro t _
  simp only [Function.comp]
  rcases h2 { t with delivered := true } with h | h <;> rw [h]

theorem map_ids_of_preserving (g : Campaign → Campaign) (hg : ∀ c, (g c).id = c.id)
    (rows : List Campaign) :
    (rows.map g).map (fun c => c.id) = rows.map (fun c => c.id) := by
  rw [List.map_map]
  apply List.map_congr_left
  intro c _
  exact hg c

/-- A row whose campaign is not in the list of the promote-to-completed loop is kept. -/
theorem debriefsLoop_keeps (env : Env) (now : String) (l : List Campaign) (s : Store)
    (x : Campaign) (hx : x ∈ s.campaigns) (hid : x.id ∉ l.map (fun c => c.id)) :
    x ∈ (debriefsLoop env now l s).store.campaigns := by
  obtain ⟨done, hsub, heq⟩ := debriefsLoop_campaigns env now l s
  rw [heq]
  refine List.mem_map.mpr ⟨x, hx, ?_⟩
  rw [if_neg (fun h => hid ((hsub.map _).subset h))]

/-- A row whose campaign is not in the list of the promote-to-running loop is kept. -/
theorem scheduledLoop_keeps (env : Env) (now : String) (l : List Campaign) (s : Store)
    (x : Campaign) (hx : x ∈ s.campaigns) (hid : x.id ∉ l.map (fun c => c.id)) :
    x ∈ (scheduledLoop env now l s).store.campaigns := by
  obtain ⟨done, hsub, heq⟩ := scheduledLoop_campaigns env now l s
  rw [heq]
  refine List.mem_map.mpr ⟨x, hx, ?_⟩
  rw [if_neg (fun h => hid ((hsub.map _).subset h))]

theorem scheduledLoop_ids (env : Env) (now : String) (l : List Campaign) (s : Store) :
    (scheduledLoop env now l s).store.campaigns.map (fun c => c.id) =
      s.campaigns.map (fun c => c.id) := by
  obtain ⟨done, _, heq⟩ := scheduledLoop_campaigns env now l s
  rw [heq]
  apply map_ids_of_preserving
  intro c
  split <;> rfl

theorem debriefsLoop_ids (env : Env) (now : String) (l : List Campaign) (s : Store) :
    (debriefsLoop env now l s).store.campaigns.map (fun c => c.id) =
      s.campaigns.map (fun c => c.id) := by
  obtain ⟨done, _, heq⟩ := debriefsLoop_campaigns env now l s
  rw [heq]
  apply map_ids_of_preserving
  intro c
  split <;> rfl

/-- The turn of a campaign inside a promote-to-running loop that did not throw: the loop
went through the campaigns before it, its dispatch did not throw, and the loop went on
from the store its dispatch left. -/
theorem scheduledLoop_turn (env : Env) (now : String) (a b : List Campaign) (c : Campaign)
    (s : Store) (h : (scheduledLoop env now (a ++ c :: b) s).threw = false) :
    (scheduledLoop env now a s).threw = false ∧
    (dispatchCampaign env now c.id
      (updateCampaign (scheduledLoop env now a s).store c.id (promote now))).threw = false ∧
    scheduledLoop env now (a ++ c :: b) s =
      scheduledLoop env now b (dispatchCampaign env now c.id
        (updateCampaign (scheduledLoop env now a s).store c.id (promote now))).store := by
  have ha := scheduledLoop_prefix_ok env now a (c :: b) s h
  have hsplit := scheduledLoop_append env now a (c :: b) s ha
  rw [hsplit] at h ⊢
  unfold scheduledLoop at h
  simp only at h
  by_cases hd : (dispatchCampaign env now c.id
      (updateCampaign (scheduledLoop env now a s).store c.id (promote now))).threw = true
  · rw [if_pos hd] at h
    rw [hd] at h
    cases h
  · refine ⟨ha, by simpa using hd, ?_⟩
    conv_lhs => unfold scheduledLoop
    simp only [if_neg hd]

/-- The turn of a campaign inside a promote-to-completed loop that did not throw. -/
theorem debriefsLoop_turn (env : Env) (now : String) (a b : List Campaign) (c : Campaign)
    (s : Store) (h : (debriefsLoop env now (a ++ c :: b) s).threw = false) :
    (debriefsLoop env now a s).threw = false ∧
    (sendDebrief env c (debriefsLoop env now a s).store).threw = false ∧
    debriefsLoop env now (a ++ c :: b) s =
      debriefsLoop env now b (updateCampaign
        (sendDebrief env c (debriefsLoop env now a s).store).store c.id (complete now)) := by
  have ha := debriefsLoop_prefix_ok env now a (c :: b) s h
  have hsplit := debriefsLoop_append env now a (c :: b) s ha
  rw [hsplit] at h ⊢
  unfold debriefsLoop at h
  simp only at h
  by_cases hd : (sendDebrief env c (debriefsLoop env now a s).store).threw = true
  · rw [if_pos hd] at h
    rw [hd] at h
    cases h
  · refine ⟨ha, by simpa using hd, ?_⟩
    conv_lhs => unfold debriefsLoop
    simp only [if_neg hd]

/-- A campaign inside a promote-to-running loop that did not throw was dispatched: with
its template in the catalog, each of its targets got its message and a `delivered` event,
and all its targets end with `delivered = true`. Ids are unique in `campaigns` and in
`campaign_targets`. -/
theorem scheduledLoop_dispatched (env : Env) (now : String) (a b : List Campaign)
    (c : Campaign) (template : Template) (s : Store)
    (hkey : (s.campaigns.map (fun c => c.id)).Nodup)
    (htkey : (s.campaign_targets.map (fun t => t.id)).Nodup)
    (hc : c ∈ s.campaigns) (hca : c.id ∉ a.map (fun c => c.id))
    (htpl : findTemplate c.template_key = some template)
    (hok : (scheduledLoop env now (a ++ c :: b) s).threw = false) :
    (∀ t ∈ getCampaignTargets s c.id,
      (⟨.simulation, c.id, simulationMail env (promote now c) template t⟩ : Sent) ∈
        sentSince s (scheduledLoop env now (a ++ c :: b) s).store ∧
      ∃ e ∈ recordedSince s (scheduledLoop env now (a ++ c :: b) s).store,
        e.campaign_id = c.id ∧ e.email = t.email ∧ e.event_type = .delivered) ∧
    getCampaignTargets (scheduledLoop env now (a ++ c :: b) s).store c.id =
      (getCampaignTargets s c.id).map (fun t => { t with delivered := true }) := by
  obtain ⟨ha, hturn, hrest⟩ := scheduledLoop_turn env now a b c s hok
  have hrow : getCampaign (scheduledLoop env now a s).store c.id = some c := by
    apply getCampaign_of_mem
    · rw [scheduledLoop_ids]; exact hkey
    · exact scheduledLoop_keeps env now a s c hc hca
  have hmark_a := scheduledLoop_marked env now a s htkey
  obtain ⟨f, hf1, hf2⟩ := hmark_a.own c.id
  obtain ⟨hout, ⟨evs, hev1, hev2⟩, hflags⟩ :=
    turn_dispatched env now (scheduledLoop env now a s).store c template hrow htpl hturn
  have he_a : Extends s (scheduledLoop env now a s).store := scheduledLoop_extends env now a s
  have he_c : Extends (scheduledLoop env now a s).store
      (dispatchCampaign env now c.id
        (updateCampaign (scheduledLoop env now a s).store c.id (promote now))).store :=
    dispatchCampaign_extends env now c.id
      (updateCampaign (scheduledLoop env now a s).store c.id (promote now))
  have hm_c : TargetsMarked [c.id] (scheduledLoop env now a s).store
      (dispatchCampaign env now c.id
        (updateCampaign (scheduledLoop env now a s).store c.id (promote now))).store :=
    dispatchCampaign_marked env now c.id
      (updateCampaign (scheduledLoop env now a s).store c.id (promote now))
      (hmark_a.nodup htkey)
  rw [hrest]
  have he_b := scheduledLoop_extends env now b (dispatchCampaign env now c.id
    (updateCampaign (scheduledLoop env now a s).store c.id (promote now))).store
  have hm_b := scheduledLoop_marked env now b (dispatchCampaign env now c.id
    (updateCampaign (scheduledLoop env now a s).store c.id (promote now))).store
    (hm_c.nodup (hmark_a.nodup htkey))
  refine ⟨?_, ?_⟩
  · intro t ht
    have hft : f t ∈ getCampaignTargets (scheduledLoop env now a s).store c.id := by
      rw [hf1]
      exact List.mem_map_of_mem f ht
    have hmail : simulationMail env (promote now c) template (f t) =
        simulationMail env (promote now c) template t := by
      rcases hf2 t with h | h <;> rw [h]
      rfl
    have hemail : (f t).email = t.email := by
      rcases hf2 t with h | h <;> rw [h]
    constructor
    · apply (he_a.extends_trans he_c).sent he_b
      apply he_a.sent_later he_c
      rw [sentSince_of_append hout, ← hmail]
      exact List.mem_map_of_mem
        (fun t => (⟨.simulation, c.id, simulationMail env (promote now c) template t⟩ : Sent))
        hft
    · have hin : (c.id, (f t).email, EventType.delivered) ∈
          evs.map (fun e => (e.campaign_id, e.email, e.event_type)) := by
        rw [hev2]
        exact List.mem_map_of_mem (fun t => (c.id, t.email, EventType.delivered)) hft
      obtain ⟨e, he, heq⟩ := List.mem_map.mp hin
      simp only [Prod.mk.injEq] at heq
      refine ⟨e, ?_, heq.1, by rw [heq.2.1, hemail], heq.2.2⟩
      apply (he_a.extends_trans he_c).recorded he_b
      apply he_a.recorded_later he_c
      rw [recordedSince_of_append hev1]
      exact he
  · apply hm_b.all_marked c.id (getCampaignTargets s c.id)
    rw [hflags, hf1, List.map_map]
    apply List.map_congr_left
    intro t _
    simp only [Function.comp]
    rcases hf2 t with h | h <;> rw [h]

/-- A campaign inside a promote-to-completed loop that did not throw was debriefed: each of
its targets got the debrief message. -/
theorem debriefsLoop_debriefed (env : Env) (now : String) (a b : List Campaign)
    (c : Campaign) (s : Store)
    (hok : (debriefsLoop env now (a ++ c :: b) s).threw = false) :
    ∀ t ∈ getCampaignTargets s c.id,
      (⟨.debrief, c.id, debriefMail env c t⟩ : Sent) ∈
        sentSince s (debriefsLoop env now (a ++ c :: b) s).store := by
  obtain ⟨ha, hturn, hrest⟩ := debriefsLoop_turn env now a b c s hok
  have he_a : Extends s (debriefsLoop env now a s).store := debriefsLoop_extends env now a s
  have he_c : Extends (debriefsLoop env now a s).store
      (updateCampaign (sendDebrief env c (debriefsLoop env now a s).store).store c.id
        (complete now)) :=
    sendDebrief_extends env c (debriefsLoop env now a s).store
  rw [hrest]
  have he_b := debriefsLoop_extends env now b
    (updateCampaign (sendDebrief env c (debriefsLoop env now a s).store).store c.id
      (complete now))
  have hout := debriefLoop_sent env c
    (getCampaignTargets (debriefsLoop env now a s).store c.id)
    (debriefsLoop env now a s).store hturn
  have htargets : getCampaignTargets (debriefsLoop env now a s).store c.id =
      getCampaignTargets s c.id := by
    unfold getCampaignTargets
    rw [debriefsLoop_targets]
  rw [htargets] at hout
  intro t ht
  apply (he_a.extends_trans he_c).sent he_b
  apply he_a.sent_later he_c
  have hout' : (updateCampaign (sendDebrief env c (debriefsLoop env now a s).store).store c.id
      (complete now)).outbox = (debriefsLoop env now a s).store.outbox ++
        (getCampaignTargets s c.id).map (fun t => ⟨.debrief, c.id, debriefMail env c t⟩) := by
    rw [← hout]
    unfold sendDebrief
    rw [htargets]
    rfl
  rw [sentSince_of_append hout']
  exact List.mem_map_of_mem (fun t => (⟨.debrief, c.id, debriefMail env c t⟩ : Sent)) ht

/-- C6, as the code has it. In a tick a scan stops at the first campaign whose dispatch
(debrief) throws; the exception is caught for that scan alone, and the other scan of the
tick runs. When the dispatch of the eligible campaign `d` throws in the promote-to-running
scan: the campaigns before it in the scan are set to `running` and dispatched (with the
template in the catalog, every target got its message and a `delivered` event and has
`delivered = true`), `d` is left `running`, and the campaigns after it keep their rows and
their targets, and no message was sent and no event recorded for them in the tick. When
the debrief of the eligible campaign `d` throws in the promote-to-completed scan: the
campaigns before it are debriefed, every target got the message, and set to `completed`;
`d` and the campaigns after it keep their rows, and no message was sent for the campaigns
after it. Ids are unique in `campaigns` and in `campaign_targets`. -/
theorem scan_stops_at_first_exception (env : Env) (now : String) (s : Store)
    (pre post : List Campaign) (d : Campaign)
    (hkey : (s.campaigns.map (fun c => c.id)).Nodup)
    (htkey : (s.campaign_targets.map (fun t => t.id)).Nodup) :
    (s.campaigns.filter (dueToRun now) = pre ++ d :: post →
      (scheduledLoop env now pre s).threw = false →
      (dispatchCampaign env now d.id
        (updateCampaign (scheduledLoop env now pre s).store d.id (promote now))).threw = true →
      (checkScheduledCampaigns env now s).threw = true ∧
      (checkScheduledCampaigns env now s).store =
        (dispatchCampaign env now d.id
          (updateCampaign (scheduledLoop env now pre s).store d.id (promote now))).store ∧
      tick env now s =
        (debriefsLoop env now (s.campaigns.filter (dueToComplete now))
          (checkScheduledCampaigns env now s).store).store ∧
      (∀ c ∈ pre ++ [d], promote now c ∈ (tick env now s).campaigns) ∧
      (∀ c ∈ post, c ∈ (tick env now s).campaigns) ∧
      (∀ c ∈ pre, ∀ template, findTemplate c.template_key = some template →
        (∀ t ∈ getCampaignTargets s c.id,
          (⟨.simulation, c.id, simulationMail env (promote now c) template t⟩ : Sent) ∈
            sentSince s (tick env now s) ∧
          ∃ e ∈ recordedSince s (tick env now s),
            e.campaign_id = c.id ∧ e.email = t.email ∧ e.event_type = .delivered) ∧
        getCampaignTargets (tick env now s) c.id =
          (getCampaignTargets s c.id).map (fun t => { t with delivered := true })) ∧
      (∀ c ∈ post,
        (∀ m ∈ sentSince s (tick env now s), m.campaign_id ≠ c.id) ∧
        (∀ e ∈ recordedSince s (tick env now s), e.campaign_id ≠ c.id) ∧
        getCampaignTargets (tick env now s) c.id = getCampaignTargets s c.id)) ∧
    (s.campaigns.filter (dueToComplete now) = pre ++ d :: post →
      (debriefsLoop env now pre (checkScheduledCampaigns env now s).store).threw = false →
      (sendDebrief env d
        (debriefsLoop env now pre (checkScheduledCampaigns env now s).store).store).threw
          = true →
      tick env now s =
        (sendDebrief env d
          (debriefsLoop env now pre (checkScheduledCampaigns env now s).store).store).store ∧
      (∀ c ∈ pre, complete now c ∈ (tick env now s).campaigns) ∧
      (∀ c ∈ d :: post, c ∈ (tick env now s).campaigns) ∧
      (∀ c ∈ pre, ∀ t ∈ getCampaignTargets s c.id,
        (⟨.debrief, c.id, debriefMail env c t⟩ : Sent) ∈ sentSince s (tick env now s)) ∧
      (∀ c ∈ post, ∀ m ∈ sentSince s (tick env now s), m.campaign_id ≠ c.id)) := by
  have htick : tick env now s =
      (debriefsLoop env now (s.campaigns.filter (dueToComplete now))
        (checkScheduledCampaigns env now s).store).store := rfl
  constructor
  · intro hscan hpre hfail
    have hcut : checkScheduledCampaigns env now s = scheduledLoop env now (pre ++ [d]) s := by
      unfold checkScheduledCampaigns
      rw [hscan, scheduledLoop_append env now pre (d :: post) s hpre,
        scheduledLoop_append env now pre [d] s hpre]
      simp only [scheduledLoop, hfail, if_true]
    have hS1 : (checkScheduledCampaigns env now s).store =
        (dispatchCampaign env now d.id
          (updateCampaign (scheduledLoop env now pre s).store d.id (promote now))).store := by
      rw [hcut, scheduledLoop_append env now pre [d] s hpre]
      simp only [scheduledLoop, hfail, if_true]
    have hrows : (checkScheduledCampaigns env now s).store.campaigns =
        (s.campaigns.map (fun c => if c.id ∈ pre.map (fun d => d.id) then promote now c
          else c)).map (fun c => if c.id = d.id then promote now c else c) := by
      rw [hS1, dispatchCampaign_campaigns]
      simp only [updateCampaign]
      rw [scheduledLoop_campaigns_of_ok env now pre s hpre]
    have hsub : ∀ c ∈ pre ++ d :: post, c ∈ s.campaigns := by
      intro c h
      rw [← hscan] at h
      exact (List.mem_filter.mp h).1
    have hdue : ∀ c ∈ pre ++ d :: post, c ∈ s.campaigns.filter (dueToRun now) := by
      intro c h
      rw [hscan]
      exact h
    have hnodup : ((pre ++ d :: post).map (fun c => c.id)).Nodup := by
      rw [← hscan]
      exact (List.Sublist.map _ (List.filter_sublist _)).nodup hkey
    have hnotending : ∀ c ∈ pre ++ d :: post,
        c.id ∉ (s.campaigns.filter (dueToComplete now)).map (fun c => c.id) := by
      intro c hc hin
      obtain ⟨e, he, heq⟩ := List.mem_map.mp hin
      exact due_ne_ending hkey (hdue c hc) he heq.symm
    have hpost_not : ∀ c ∈ post, c.id ∉ (pre ++ [d]).map (fun c => c.id) := by
      intro c hc hin
      rw [List.map_append, List.map_cons, List.nodup_append] at hnodup
      obtain ⟨_, hdpost, hdisj⟩ := hnodup
      have hcid := List.mem_map_of_mem (fun c => c.id) hc
      rw [List.map_append, List.mem_append] at hin
      rcases hin with h | h
      · exact hdisj h (List.mem_cons_of_mem _ hcid)
      · simp only [List.map_cons, List.map_nil, List.mem_singleton] at h
        rw [List.nodup_cons] at hdpost
        exact hdpost.1 (h ▸ hcid)
    have he_pre : Extends s (scheduledLoop env now pre s).store :=
      scheduledLoop_extends env now pre s
    have hm_pre := scheduledLoop_marked env now pre s htkey
    have he_d : Extends (scheduledLoop env now pre s).store
        (checkScheduledCampaigns env now s).store := by
      rw [hS1]
      exact dispatchCampaign_extends env now d.id
        (updateCampaign (scheduledLoop env now pre s).store d.id (promote now))
    have hm_d : TargetsMarked [d.id] (scheduledLoop env now pre s).store
        (checkScheduledCampaigns env now s).store := by
      rw [hS1]
      exact dispatchCampaign_marked env now d.id
        (updateCampaign (scheduledLoop env now pre s).store d.id (promote now))
        (hm_pre.nodup htkey)
    have he_t : Extends (checkScheduledCampaigns env now s).store (tick env now s) := by
      rw [htick]
      exact debriefsLoop_extends env now _ _
    have ht_t : (tick env now s).campaign_targets =
        (checkScheduledCampaigns env now s).store.campaign_targets := by
      rw [htick]
      exact debriefsLoop_targets env now _ _
    refine ⟨by rw [hcut, scheduledLoop_append env now pre [d] s hpre]
               simp only [scheduledLoop, hfail, if_true], hS1, htick, ?_, ?_, ?_, ?_⟩
    · intro c hc
      have hcin : c ∈ pre ++ d :: post := by
        rcases List.mem_append.mp hc with h | h
        · exact List.mem_append_left _ h
        · rw [List.mem_singleton] at h
          subst h
          exact List.mem_append_right _ (List.mem_cons_self _ _)
      rw [htick]
      apply debriefsLoop_keeps
      · rw [hrows, List.map_map]
        refine List.mem_map.mpr ⟨c, hsub c hcin, ?_⟩
        simp only [Function.comp]
        rcases List.mem_append.mp hc with h | h
        · rw [if_pos (List.mem_map_of_mem (fun d => d.id) h)]
          split <;> rfl
        · rw [List.mem_singleton] at h
          subst h
          split <;> simp
      · exact hnotending c hcin
    · intro c hc
      have hcin : c ∈ pre ++ d :: post :=
        List.mem_append_right _ (List.mem_cons_of_mem _ hc)
      rw [htick]
      apply debriefsLoop_keeps
      · rw [hcut]
        exact scheduledLoop_keeps env now (pre ++ [d]) s c (hsub c hcin) (hpost_not c hc)
      · exact hnotending c hcin
    · intro c hc template htpl
      obtain ⟨a, b, rfl⟩ := List.append_of_mem hc
      have hca : c.id ∉ a.map (fun c => c.id) := by
        intro hin
        rw [List.map_append, List.nodup_append] at hnodup
        have h1 := hnodup.1
        rw [List.map_append, List.map_cons, List.nodup_append] at h1
        exact h1.2.2 hin (List.mem_cons_self _ _)
      obtain ⟨hA1, hA2⟩ := scheduledLoop_dispatched env now a b c template s hkey htkey
        (hsub c (List.mem_append_left _ hc)) hca htpl hpre
      refine ⟨fun t ht => ?_, ?_⟩
      · obtain ⟨hm, e, he, hprops⟩ := hA1 t ht
        exact ⟨he_pre.sent (he_d.extends_trans he_t) _ hm, e,
          he_pre.recorded (he_d.extends_trans he_t) e he, hprops⟩
      · have h1 := hm_d.all_marked c.id _ hA2
        unfold getCampaignTargets at h1 ⊢
        rw [ht_t]
        exact h1
    · intro c hc
      have hcin : c ∈ pre ++ d :: post :=
        List.mem_append_right _ (List.mem_cons_of_mem _ hc)
      obtain ⟨new1, evs1, o1, m1, e1, i1⟩ := scheduledLoop_log env now (pre ++ [d]) s
      rw [← hcut] at o1 e1
      obtain ⟨new2, o2, m2⟩ := debriefsLoop_log env now
        (s.campaigns.filter (dueToComplete now)) (checkScheduledCampaigns env now s).store
      rw [← htick] at o2
      have hout : (tick env now s).outbox = s.outbox ++ (new1 ++ new2) := by
        rw [o2, o1, List.append_assoc]
      have hev : (tick env now s).campaign_events = s.campaign_events ++ evs1 := by
        rw [htick, debriefsLoop_events, e1]
      refine ⟨?_, ?_, ?_⟩
      · intro m hm heq
        rw [sentSince_of_append hout] at hm
        rcases List.mem_append.mp hm with h | h
        · exact hpost_not c hc (heq ▸ (m1 m h).1)
        · exact hnotending c hcin (heq ▸ (m2 m h).1)
      · intro e he heq
        rw [recordedSince_of_append hev] at he
        exact hpost_not c hc (heq ▸ i1 e he)
      · have hm1 : TargetsMarked ((pre ++ [d]).map (fun c => c.id)) s
            (checkScheduledCampaigns env now s).store := by
          rw [hcut]
          exact scheduledLoop_marked env now (pre ++ [d]) s htkey
        have h1 := hm1.others c.id (hpost_not c hc)
        unfold getCampaignTargets at h1 ⊢
        rw [ht_t]
        exact h1
  · intro hscan hpre hfail
    have hS1 : checkScheduledCampaigns env now s =
        scheduledLoop env now (s.campaigns.filter (dueToRun now)) s := rfl
    have hcut : debriefsLoop env now (pre ++ d :: post)
        (checkScheduledCampaigns env now s).store =
        ⟨(sendDebrief env d
          (debriefsLoop env now pre (checkScheduledCampaigns env now s).store).store).store,
          true⟩ := by
      rw [debriefsLoop_append env now pre (d :: post) _ hpre]
      simp only [debriefsLoop, hfail, if_true]
      rw [← hfail]
    have hcut2 : debriefsLoop env now (pre ++ d :: post)
        (checkScheduledCampaigns env now s).store =
        debriefsLoop env now (pre ++ [d]) (checkScheduledCampaigns env now s).store := by
      rw [hcut, debriefsLoop_append env now pre [d] _ hpre]
      simp only [debriefsLoop, hfail, if_true]
      rw [← hfail]
    have htick' : tick env now s =
        (sendDebrief env d
          (debriefsLoop env now pre (checkScheduledCampaigns env now s).store).store).store := by
      rw [htick, hscan, hcut]
    have hsub : ∀ c ∈ pre ++ d :: post, c ∈ s.campaigns := by
      intro c h
      rw [← hscan] at h
      exact (List.mem_filter.mp h).1
    have hending : ∀ c ∈ pre ++ d :: post, c ∈ s.campaigns.filter (dueToComplete now) := by
      intro c h
      rw [hscan]
      exact h
    have hnodup : ((pre ++ d :: post).map (fun c => c.id)).Nodup := by
      rw [← hscan]
      exact (List.Sublist.map _ (List.filter_sublist _)).nodup hkey
    have hnotdue : ∀ c ∈ pre ++ d :: post,
        c.id ∉ (s.campaigns.filter (dueToRun now)).map (fun c => c.id) := by
      intro c hc hin
      obtain ⟨e, he, heq⟩ := List.mem_map.mp hin
      exact due_ne_ending hkey he (hending c hc) heq
    have hin1 : ∀ c ∈ pre ++ d :: post, c ∈ (checkScheduledCampaigns env now s).store.campaigns := by
      intro c hc
      rw [hS1]
      exact scheduledLoop_keeps env now _ s c (hsub c hc) (hnotdue c hc)
    have hrows : (tick env now s).campaigns =
        (checkScheduledCampaigns env now s).store.campaigns.map
          (fun c => if c.id ∈ pre.map (fun d => d.id) then complete now c else c) := by
      rw [htick', sendDebrief_campaigns, debriefsLoop_campaigns_of_ok env now pre _ hpre]
    have he_1 : Extends s (checkScheduledCampaigns env now s).store := by
      rw [hS1]
      exact scheduledLoop_extends env now _ s
    have he_pre : Extends (checkScheduledCampaigns env now s).store
        (debriefsLoop env now pre (checkScheduledCampaigns env now s).store).store :=
      debriefsLoop_extends env now pre _
    have he_t : Extends
        (debriefsLoop env now pre (checkScheduledCampaigns env now s).store).store
        (tick env now s) := by
      rw [htick']
      exact sendDebrief_extends env d _
    refine ⟨htick', ?_, ?_, ?_, ?_⟩
    · intro c hc
      rw [hrows]
      refine List.mem_map.mpr ⟨c, hin1 c (List.mem_append_left _ hc), ?_⟩
      rw [if_pos (List.mem_map_of_mem (fun d => d.id) hc)]
    · intro c hc
      rw [hrows]
      refine List.mem_map.mpr ⟨c, hin1 c (List.mem_append_right _ hc), ?_⟩
      rw [List.map_append, List.nodup_append] at hnodup
      rw [if_neg (fun h => hnodup.2.2 h (List.mem_map_of_mem (fun c => c.id) hc))]
    · intro c hc t ht
      obtain ⟨a, b, rfl⟩ := List.append_of_mem hc
      have hB := debriefsLoop_debriefed env now a b c
        (checkScheduledCampaigns env now s).store hpre
      have hm1 : TargetsMarked ((s.campaigns.filter (dueToRun now)).map (fun c => c.id)) s
          (checkScheduledCampaigns env now s).store := by
        rw [hS1]
        exact scheduledLoop_marked env now _ s htkey
      obtain ⟨f, hf1, hf2⟩ := hm1.own c.id
      have hft : f t ∈ getCampaignTargets (checkScheduledCampaigns env now s).store c.id := by
        rw [hf1]
        exact List.mem_map_of_mem f ht
      have hmail : debriefMail env c (f t) = debriefMail env c t := by
        rcases hf2 t with h | h <;> rw [h]
        rfl
      have h1 := hB (f t) hft
      rw [hmail] at h1
      exact (he_1.extends_trans he_pre).sent he_t _ (he_1.sent_later he_pre _ h1)
    · intro c hc m hm heq
      have hcin : c ∈ pre ++ d :: post :=
        List.mem_append_right _ (List.mem_cons_of_mem _ hc)
      obtain ⟨new1, evs1, o1, m1, _, _⟩ :=
        scheduledLoop_log env now (s.campaigns.filter (dueToRun now)) s
      rw [← hS1] at o1
      obtain ⟨new2, o2, m2⟩ := debriefsLoop_log env now (pre ++ [d])
        (checkScheduledCampaigns env now s).store
      rw [← hcut2, ← hscan, ← htick] at o2
      have hout : (tick env now s).outbox = s.outbox ++ (new1 ++ new2) := by
        rw [o2, o1, List.append_assoc]
      rw [sentSince_of_append hout] at hm
      rcases List.mem_append.mp hm with h | h
      · exact hnotdue c hcin (heq ▸ (m1 m h).1)
      · have hin := (m2 m h).1
        rw [heq] at hin
        rw [List.map_append, List.map_cons, List.nodup_append] at hnodup
        obtain ⟨_, hdpost, hdisj⟩ := hnodup
        have hcid := List.mem_map_of_mem (fun c => c.id) hc
        rw [List.map_append, List.mem_append] at hin
        rcases hin with h' | h'
        · exact hdisj h' (List.mem_cons_of_mem _ hcid)
        · simp only [List.map_cons, List.map_nil, List.mem_singleton] at h'
          rw [List.nodup_cons] at hdpost
          exact hdpost.1 (h' ▸ hcid)

/-- Witness for C6. In `exThreeDueStore` the dispatch of the second of three due campaigns
throws: after the tick the first is `running` and its target is delivered, the third keeps
its row and its target. In `exThreeEndingStore` the debrief of the second of three ending
campaigns throws: after the tick the first is `completed` and its target got the debrief,
the third keeps its row. -/
theorem scan_stops_at_first_exception_witness :
    ((checkScheduledCampaigns exEnv "2026-01-01T09:01:00.000Z" exThreeDueStore).threw = true ∧
      promote "2026-01-01T09:01:00.000Z"
        (exCampaign 1 (some "2026-01-01T09:00:00.000Z") true false .scheduled) ∈
          (tick exEnv "2026-01-01T09:01:00.000Z" exThreeDueStore).campaigns ∧
      exCampaign 3 (some "2026-01-01T09:00:00.000Z") true false .scheduled ∈
        (tick exEnv "2026-01-01T09:01:00.000Z" exThreeDueStore).campaigns ∧
      getCampaignTargets (tick exEnv "2026-01-01T09:01:00.000Z" exThreeDueStore) 1 =
        (getCampaignTargets exThreeDueStore 1).map (fun t => { t with delivered := true }) ∧
      getCampaignTargets (tick exEnv "2026-01-01T09:01:00.000Z" exThreeDueStore) 3 =
        getCampaignTargets exThreeDueStore 3) ∧
    (complete "2026-01-01T10:01:00.000Z"
        { exCampaign 1 (some "2026-01-01T09:00:00.000Z") true false .running with
          end_time := some "2026-01-01T10:00:00.000Z" } ∈
          (tick exEnv "2026-01-01T10:01:00.000Z" exThreeEndingStore).campaigns ∧
      { exCampaign 3 (some "2026-01-01T09:00:00.000Z") true false .running with
        end_time := some "2026-01-01T10:00:00.000Z" } ∈
          (tick exEnv "2026-01-01T10:01:00.000Z" exThreeEndingStore).campaigns ∧
      (⟨.debrief, 1, debriefMail exEnv
        { exCampaign 1 (some "2026-01-01T09:00:00.000Z") true false .running with
          end_time := some "2026-01-01T10:00:00.000Z" }
        (exTarget 1 1 "a@co.com" "tok-a")⟩ : Sent) ∈
          sentSince exThreeEndingStore
            (tick exEnv "2026-01-01T10:01:00.000Z" exThreeEndingStore)) := by
  have h1 := (scan_stops_at_first_exception exEnv "2026-01-01T09:01:00.000Z" exThreeDueStore
    [exCampaign 1 (some "2026-01-01T09:00:00.000Z") true false .scheduled]
    [exCampaign 3 (some "2026-01-01T09:00:00.000Z") true false .scheduled]
    (exCampaign 2 (some "2026-01-01T09:00:00.000Z") true true .scheduled)
    (by decide) (by decide)).1 (by decide) (by decide) (by decide)
  have h2 := (scan_stops_at_first_exception exEnv "2026-01-01T10:01:00.000Z"
    exThreeEndingStore
    [{ exCampaign 1 (some "2026-01-01T09:00:00.000Z") true false .running with
        end_time := some "2026-01-01T10:00:00.000Z" }]
    [{ exCampaign 3 (some "2026-01-01T09:00:00.000Z") true false .running with
        end_time := some "2026-01-01T10:00:00.000Z" }]
    { exCampaign 2 (some "2026-01-01T09:00:00.000Z") true true .running with
        end_time := some "2026-01-01T10:00:00.000Z" }
    (by decide) (by decide)).2 (by decide) (by decide) (by decide)
  refine ⟨⟨h1.1, ?_, ?_, ?_, ?_⟩, ⟨?_, ?_, ?_⟩⟩
  · exact h1.2.2.2.1 _ (List.mem_cons_self _ _)
  · exact h1.2.2.2.2.1 _ (List.mem_cons_self _ _)
  · exact (h1.2.2.2.2.2.1 _ (List.mem_cons_self _ _) (templates.get ⟨0, by decide⟩)
      (by rfl)).2
  · exact (h1.2.2.2.2.2.2 _ (List.mem_cons_self _ _)).2.2
  · exact h2.2.1 _ (List.mem_cons_self _ _)
  · exact h2.2.2.1 _ (List.mem_cons_of_mem _ (List.mem_cons_self _ _))
  · exact h2.2.2.2.1 _ (List.mem_cons_self _ _) (exTarget 1 1 "a@co.com" "tok-a")
      (by decide)

/-- C6 as stated fails. In `exTwoDueStore` two campaigns are eligible for promote-to-running
and only the dispatch of the first throws (that of the second alone does not); after the
tick the second is still `scheduled`, its target is not delivered and nothing was sent for
it. In `exTwoEndingStore` two campaigns are eligible for promote-to-completed and only the
debrief of the first throws; after the tick the second is still `running` and got no
debrief. -/
theorem tick_leaves_later_campaigns_untouched :
    (exTwoDueStore.campaigns.filter (dueToRun "2026-01-01T09:01:00.000Z")).map (fun c => c.id)
      = [1, 2] ∧
    (dispatchCampaign exEnv "2026-01-01T09:01:00.000Z" 1
      (updateCampaign exTwoDueStore 1 (promote "2026-01-01T09:01:00.000Z"))).threw = true ∧
    (dispatchCampaign exEnv "2026-01-01T09:01:00.000Z" 2
      (updateCampaign exTwoDueStore 2 (promote "2026-01-01T09:01:00.000Z"))).threw = false ∧
    (tick exEnv "2026-01-01T09:01:00.000Z" exTwoDueStore).campaigns.map
      (fun c => (c.id, c.status)) = [(1, .running), (2, .scheduled)] ∧
    (tick exEnv "2026-01-01T09:01:00.000Z" exTwoDueStore).campaign_targets.map
      (fun t => (t.campaign_id, t.delivered)) = [(1, false), (2, false)] ∧
    (tick exEnv "2026-01-01T09:01:00.000Z" exTwoDueStore).outbox = [] ∧
    (exTwoEndingStore.campaigns.filter (dueToComplete "2026-01-01T10:01:00.000Z")).map
      (fun c => c.id) = [1, 2] ∧
    (sendDebrief exEnv { exCampaign 1 (some "2026-01-01T09:00:00.000Z") true true .running with
      end_time := some "2026-01-01T10:00:00.000Z" } exTwoEndingStore).threw = true ∧
    (sendDebrief exEnv { exCampaign 2 (some "2026-01-01T09:00:00.000Z") true false .running with
      end_time := some "2026-01-01T10:00:00.000Z" } exTwoEndingStore).threw = false ∧
    (tick exEnv "2026-01-01T10:01:00.000Z" exTwoEndingStore).campaigns.map
      (fun c => (c.id, c.status)) = [(1, .running), (2, .running)] ∧
    (tick exEnv "2026-01-01T10:01:00.000Z" exTwoEndingStore).outbox = [] := by
  decide

/-! ## C7 -/

/-- The lookup in the object built from the `GROUP BY` rows, with `|| 0`, is the count of
the campaign's events of that type. -/
theorem totals_lookup (s : Store) (id : Nat) (ty : EventType) :
    ((totalsMap (groupCounts s id)) ty).getD 0 = countEvents s id ty := by
  unfold groupCounts countEvents
  simp only [List.filterMap_cons, List.filterMap_nil]
  cases ty <;>
  · generalize s.campaign_events.filter
      (fun e => decide (e.campaign_id = id ∧ e.event_type = .clicked)) = rc
    generalize s.campaign_events.filter
      (fun e => decide (e.campaign_id = id ∧ e.event_type = .delivered)) = rd
    generalize s.campaign_events.filter
      (fun e => decide (e.campaign_id = id ∧ e.event_type = .opened)) = ro
    generalize s.campaign_events.filter
      (fun e => decide (e.campaign_id = id ∧ e.event_type = .submitted)) = rs
    by_cases hc : rc = [] <;> by_cases hd : rd = [] <;> by_cases ho : ro = [] <;>
      by_cases hs : rs = [] <;> simp [totalsMap, hc, hd, ho, hs]

theorem countEvents_eq_countP (s : Store) (id : Nat) (ty : EventType) :
    countEvents s id ty =
      s.campaign_events.countP (fun e => e.campaign_id = id ∧ e.event_type = ty) := by
  unfold countEvents
  rw [List.countP_eq_length_filter]

/-- For an existing campaign the analytics endpoint answers the reference analytics of
the event log. -/
theorem analytics_eq (s : Store) (id : Nat) (h : (getCampaign s id).isSome = true) :
    analytics s id = some (analyticsReference s.campaign_events id) := by
  unfold analytics
  cases hc : getCampaign s id with
  | none => rw [hc] at h; cases h
  | some c =>
    simp only [totals_lookup, countEvents_eq_countP, analyticsReference, Nat.pos_iff_ne_zero]

theorem countP_campaign_filter (events : List CampaignEvent) (id : Nat) (ty : EventType) :
    events.countP (fun e => e.campaign_id = id ∧ e.event_type = ty) =
      (events.filter (fun e => e.campaign_id = id)).countP
        (fun e => e.campaign_id = id ∧ e.event_type = ty) := by
  rw [List.countP_filter]
  congr 1
  funext e
  by_cases h : e.campaign_id = id <;> simp [h]

/-- The reference analytics of a campaign read only that campaign's events. -/
theorem analyticsReference_filter (events : List CampaignEvent) (id : Nat) :
    analyticsReference events id =
      analyticsReference (events.filter (fun e => e.campaign_id = id)) id := by
  unfold analyticsReference
  simp only [← countP_campaign_filter]

/-- C7. For an existing campaign, `GET /api/campaigns/:id/analytics` answers the reference
analytics of the event log: `delivered`, `opened`, `clicked` and `submitted` are the numbers
of that campaign's events of each type; `openRate` and `clickRate` are the exact quotients
of `opened` and `clicked` by `delivered`, or 0 when `delivered` is 0; `submitRate` is the
exact quotient of `submitted` by `clicked`, or 0 when `clicked` is 0. Two stores that hold
the same events for the campaign give the same answer, whatever events of other campaigns
they hold. -/
theorem analytics_matches_reference (s : Store) (id : Nat) (c : Campaign)
    (h : getCampaign s id = some c) :
    ∃ a : Analytics, analytics s id = some a ∧
      a = analyticsReference s.campaign_events id ∧
      a.delivered =
        s.campaign_events.countP (fun e => e.campaign_id = id ∧ e.event_type = .delivered) ∧
      a.opened =
        s.campaign_events.countP (fun e => e.campaign_id = id ∧ e.event_type = .opened) ∧
      a.clicked =
        s.campaign_events.countP (fun e => e.campaign_id = id ∧ e.event_type = .clicked) ∧
      a.submitted =
        s.campaign_events.countP (fun e => e.campaign_id = id ∧ e.event_type = .submitted) ∧
      a.openRate = (if 0 < a.delivered then (a.opened : ℚ) / (a.delivered : ℚ) else 0) ∧
      a.clickRate = (if 0 < a.delivered then (a.clicked : ℚ) / (a.delivered : ℚ) else 0) ∧
      a.submitRate = (if 0 < a.clicked then (a.submitted : ℚ) / (a.clicked : ℚ) else 0) ∧
      (∀ s' : Store, (getCampaign s' id).isSome = true →
        s'.campaign_events.filter (fun e => e.campaign_id = id) =
          s.campaign_events.filter (fun e => e.campaign_id = id) →
        analytics s' id = analytics s id) := by
  have hs : (getCampaign s id).isSome = true := by rw [h]; rfl
  refine ⟨analyticsReference s.campaign_events id, analytics_eq s id hs, rfl, rfl, rfl, rfl,
    rfl, rfl, rfl, rfl, ?_⟩
  intro s' hs' hev
  rw [analytics_eq s id hs, analytics_eq s' id hs', analyticsReference_filter, hev,
    ← analyticsReference_filter]

/-- Witness for C7: after the launch and two clicks the campaign exists, and its analytics
are those of the reference definition. -/
theorem analytics_matches_reference_witness :
    (getCampaign (run exEnv exTwoClicks Store.empty) 1).isSome = true ∧
    ∃ a : Analytics, analytics (run exEnv exTwoClicks Store.empty) 1 = some a ∧
      a = analyticsReference (run exEnv exTwoClicks Store.empty).campaign_events 1 := by
  refine ⟨by decide, ?_⟩
  cases h : getCampaign (run exEnv exTwoClicks Store.empty) 1 with
  | none => exact absurd h (by decide)
  | some c =>
    obtain ⟨a, h1, h2, _⟩ := analytics_matches_reference _ 1 c h
    exact ⟨a, h1, h2⟩

/-! ## C8 -/

/-- C8, as the code has it. For every store and campaign the analytics answer has a
`clickRate` that is never negative, is 0 when `delivered` is 0, and when `delivered > 0`
is the exact quotient `clicked / delivered`, which is at most 1 exactly when
`clicked <= delivered`, a bound nothing in the engine enforces. -/
theorem clickRate_bounds (s : Store) (id : Nat) (a : Analytics)
    (h : analytics s id = some a) :
    0 ≤ a.clickRate ∧
    (a.delivered = 0 → a.clickRate = 0) ∧
    (0 < a.delivered →
      a.clickRate = (a.clicked : ℚ) / (a.delivered : ℚ) ∧
      (a.clickRate ≤ 1 ↔ a.clicked ≤ a.delivered)) := by
  unfold analytics at h
  cases hc : getCampaign s id with
  | none => rw [hc] at h; cases h
  | some c =>
    rw [hc] at h
    simp only [Option.some.injEq] at h
    subst h
    simp only
    generalize ((totalsMap (groupCounts s id)) EventType.delivered).getD 0 = d
    generalize ((totalsMap (groupCounts s id)) EventType.clicked).getD 0 = k
    refine ⟨?_, ?_, ?_⟩
    · split
      · positivity
      · exact le_refl _
    · intro hd
      simp [hd]
    · intro hd
      have hne : d ≠ 0 := Nat.pos_iff_ne_zero.mp hd
      have hq : (0 : ℚ) < (d : ℚ) := by exact_mod_cast hd
      rw [if_pos hne]
      refine ⟨rfl, ?_⟩
      rw [div_le_one hq]
      exact_mod_cast Iff.rfl

/-- Witness for C8: after the launch and two clicks the analytics answer exists and its
`clickRate` is not negative. -/
theorem clickRate_bounds_witness :
    ∃ a, analytics (run exEnv exTwoClicks Store.empty) 1 = some a ∧ 0 ≤ a.clickRate := by
  cases h : analytics (run exEnv exTwoClicks Store.empty) 1 with
  | none =>
    rw [analytics_eq _ 1 (by decide)] at h
    cases h
  | some a => exact ⟨a, rfl, (clickRate_bounds _ 1 a h).1⟩

/-- C8 as stated fails: the event log reached by allowlisting one employee, creating a
campaign for them, approving it, letting the scheduler dispatch it, and then following the
click link twice has `delivered = 1` and `clicked = 2`, so `clickRate` is 2, outside
[0, 1]. -/
theorem clickRate_exceeds_one_after_repeated_clicks :
    ∃ a, analytics (run exEnv exTwoClicks Store.empty) 1 = some a ∧
      a.delivered = 1 ∧ a.clicked = 2 ∧ a.clickRate = 2 ∧ ¬ (a.clickRate ≤ 1) := by
  have hd : (run exEnv exTwoClicks Store.empty).campaign_events.countP
      (fun e => e.campaign_id = 1 ∧ e.event_type = .delivered) = 1 := by decide
  have hk : (run exEnv exTwoClicks Store.empty).campaign_events.countP
      (fun e => e.campaign_id = 1 ∧ e.event_type = .clicked) = 2 := by decide
  refine ⟨_, analytics_eq _ 1 (by decide), hd, hk, ?_, ?_⟩
  · simp only [analyticsReference, hd, hk]
    norm_num
  · simp only [analyticsReference, hd, hk]
    norm_num

/-! ## C9 -/

theorem insertTargets_outbox (rand : String → String) (campaignId : Nat)
    (employees : List Employee) (s : Store) :
    (insertTargets rand campaignId employees s).outbox = s.outbox := by
  unfold insertTargets
  induction employees generalizing s with
  | nil => rfl
  | cons e es ih =>
    simp only [List.foldl_cons]
    rw [ih]
    unfold insertTarget
    split <;> rfl

theorem allowlistAdd_outbox (now : String) (employees : List AllowlistEntry) (s : Store) :
    (allowlistAdd now employees s).2.outbox = s.outbox := by
  unfold allowlistAdd
  induction employees generalizing s with
  | nil => rfl
  | cons e es ih =>
    simp only [List.foldl_cons]
    rw [ih]
    cases e.email with
    | none => rfl
    | some email =>
      simp only
      split
      · rfl
      · split <;> rfl

theorem allowlistUpload_outbox (now : String) (csv : String) (s : Store) :
    (allowlistUpload now csv s).2.outbox = s.outbox := by
  unfold allowlistUpload
  split
  · rfl
  · simp only
    generalize parseCsv csv = entries
    induction entries generalizing s with
    | nil => rfl
    | cons e es ih => simp only [List.foldl_cons]; rw [ih]; rfl

theorem RowChange.latch_kept {s : Store} {op : Op} {c c' : Campaign} (h : RowChange s op c c')
    (hl : c.notified_high_clicks = true) : c'.notified_high_clicks = true := by
  cases h with
  | edited rand now id req row _ h => rw [(editRow_id h).2.2]; exact hl
  | latched now token ip _ => rfl
  | _ => exact hl

theorem find?_append_some {rows extra : List Campaign} {j : Nat} {c : Campaign}
    (h : rows.find? (fun c => c.id = j) = some c) :
    (rows ++ extra).find? (fun c => c.id = j) = some c := by
  rw [List.find?_append, h]
  rfl

/-- No operation resets the latch of a campaign. -/
theorem latch_step (env : Env) (op : Op) (s : Store) (id : Nat) (h : latch s id = true) :
    latch (step env op s) id = true := by
  obtain ⟨g, extra, hrows, hg, _⟩ := step_rows env op s
  unfold latch at h ⊢
  cases hc : getCampaign s id with
  | none => rw [hc] at h; cases h
  | some c =>
    rw [hc] at h
    have hmem := (getCampaign_mem hc).1
    have hfind : getCampaign (step env op s) id = some (g c) := by
      unfold getCampaign at hc ⊢
      rw [hrows]
      apply find?_append_some
      rw [find?_map_of_mem g id s.campaigns (fun d hd => (hg d hd).id_eq), hc]
      rfl
    rw [hfind]
    exact (hg c hmem).latch_kept h

/-- What one operation adds to the log of accepted messages: if an alert is among the
additions it is the only addition, its campaign's latch was not set before the operation
and is set after it. -/
theorem step_outbox (env : Env) (op : Op) (s : Store) :
    ∃ new : List Sent, (step env op s).outbox = s.outbox ++ new ∧
      ∀ m ∈ new, m.kind = .alert →
        new = [m] ∧ latch s m.campaign_id = false ∧
          latch (step env op s) m.campaign_id = true := by
  have keep : ∀ s' : Store, s'.outbox = s.outbox →
      ∃ new : List Sent, s'.outbox = s.outbox ++ new ∧
        ∀ m ∈ new, m.kind = .alert →
          new = [m] ∧ latch s m.campaign_id = false ∧ latch s' m.campaign_id = true := by
    intro s' h
    exact ⟨[], by simp [h], by simp⟩
  cases op with
  | allowlistAdd now employees => exact keep _ (allowlistAdd_outbox now employees s)
  | allowlistUpload now csv => exact keep _ (allowlistUpload_outbox now csv s)
  | create rand now req =>
    simp only [step, createCampaign]
    split
    · exact keep _ rfl
    · split
      · exact keep _ rfl
      · split
        · exact keep _ rfl
        · exact keep _ (by rw [insertTargets_outbox])
  | edit rand now id req =>
    simp only [step, editCampaign]
    split
    · exact keep _ rfl
    · split
      · exact keep _ rfl
      · split
        · exact keep _ rfl
        · split
          · exact keep _ rfl
          · split
            · exact keep _ rfl
            · exact keep _ (by rw [insertTargets_outbox])
  | approve now id => exact keep _ rfl
  | queueSend now id =>
    simp only [step, queueSend]
    split
    · exact keep _ rfl
    · split <;> exact keep _ rfl
  | trackOpen now token ip =>
    simp only [step, trackOpen]
    split <;> exact keep _ rfl
  | submit now token ip form =>
    simp only [step, submitLanding]
    split <;> exact keep _ rfl
  | checkScheduled now =>
    obtain ⟨new, _, h1, h2, _⟩ :=
      scheduledLoop_log env now (s.campaigns.filter (dueToRun now)) s
    refine ⟨new, h1, ?_⟩
    intro m hm hk
    rw [(h2 m hm).2] at hk
    cases hk
  | checkDebriefs now =>
    obtain ⟨new, h1, h2⟩ :=
      debriefsLoop_log env now (s.campaigns.filter (dueToComplete now)) s
    refine ⟨new, h1, ?_⟩
    intro m hm hk
    rw [(h2 m hm).2] at hk
    cases hk
  | trackClick now token ip =>
    simp only [step, trackClick]
    split
    · exact keep _ rfl
    · rename_i _ target _
      split
      · exact keep _ rfl
      · rename_i _ campaign hcamp
        have hcamp' : getCampaign s target.campaign_id = some campaign := hcamp
        have hid : campaign.id = target.campaign_id := (getCampaign_mem hcamp').2
        rw [notify_eq]
        by_cases hrule : highClickRule
            (recordEvent env now target.campaign_id target.email .clicked ip false s) campaign = true
        · by_cases hsend : sendMail env campaign (alertMail env campaign) = true
          · rw [if_pos hrule, if_pos hsend]
            refine ⟨[⟨.alert, campaign.id, alertMail env campaign⟩], rfl, ?_⟩
            intro m hm _
            rw [List.mem_singleton] at hm
            subst hm
            refine ⟨rfl, ?_, ?_⟩
            · unfold latch
              simp only [hid, hcamp']
              unfold highClickRule at hrule
              simp only [Bool.and_eq_true, Bool.not_eq_true'] at hrule
              exact hrule.2
            · unfold latch
              simp only
              rw [getCampaign_updateCampaign _ campaign.id campaign.id
                (fun r => { r with notified_high_clicks := true }) (fun _ => rfl)]
              have : getCampaign { recordEvent env now target.campaign_id target.email
                  .clicked ip false s with
                  outbox := (recordEvent env now target.campaign_id target.email
                    .clicked ip false s).outbox ++ [⟨.alert, campaign.id, alertMail env campaign⟩] }
                  campaign.id = some campaign := by
                rw [hid]; exact hcamp'
              rw [this]
              simp
          · rw [if_pos hrule, if_neg hsend]
            exact keep _ rfl
        · rw [if_neg hrule]
          exact keep _ rfl

/-- One operation does not raise the number of alerts sent for a campaign, unless its
latch was not set, and then by one at most, setting the latch. -/
theorem alerts_step (env : Env) (op : Op) (s : Store) (id : Nat) :
    alertsSent (step env op s) id + (if latch (step env op s) id then 0 else 1) ≤
      alertsSent s id + (if latch s id then 0 else 1) := by
  obtain ⟨new, hout, hnew⟩ := step_outbox env op s
  have hmono := latch_step env op s id
  unfold alertsSent
  rw [hout, List.countP_append]
  by_cases hany : ∃ m ∈ new, m.kind = .alert ∧ m.campaign_id = id
  · obtain ⟨m, hm, hk, hmid⟩ := hany
    obtain ⟨h1, h2, h3⟩ := hnew m hm hk
    rw [hmid] at h2 h3
    rw [h1, h2, h3]
    simp [hk, hmid]
  · have hzero : new.countP (fun m => m.kind = .alert ∧ m.campaign_id = id) = 0 := by
      rw [List.countP_eq_zero]
      intro m hm hp
      exact hany ⟨m, hm, by simpa using hp⟩
    rw [hzero]
    cases hl : latch s id with
    | true => rw [hmono hl]; simp
    | false => split <;> simp

/-- C9. Over every sequence of operations handled one after another, with any transport,
at most one high-click alert is accepted for a campaign, and none when its latch was
already set; and once the stored `notified_high_clicks` of a campaign is true it is true
after every operation. -/
theorem alert_sent_at_most_once (env : Env) (ops : List Op) (s : Store) (id : Nat) :
    alertsSent (run env ops s) id ≤ alertsSent s id + (if latch s id then 0 else 1) ∧
    (latch s id = true → latch (run env ops s) id = true) ∧
    (∀ op : Op, latch s id = true → latch (step env op s) id = true) := by
  have key : ∀ (ops : List Op) (s : Store),
      alertsSent (run env ops s) id + (if latch (run env ops s) id then 0 else 1) ≤
        alertsSent s id + (if latch s id then 0 else 1) ∧
      (latch s id = true → latch (run env ops s) id = true) := by
    intro ops
    induction ops with
    | nil => intro s; exact ⟨Nat.le_refl _, fun h => h⟩
    | cons op rest ih =>
      intro s
      obtain ⟨h1, h2⟩ := ih (step env op s)
      refine ⟨?_, fun h => h2 (latch_step env op s id h)⟩
      exact Nat.le_trans h1 (alerts_step env op s id)
  refine ⟨?_, (key ops s).2, fun op h => latch_step env op s id h⟩
  have := (key ops s).1
  omega

/-! ## C10 -/

/-- C10, as the code has it. Called with the stored row `c` of a campaign,
`notifyManagerHighClicks` sends the alert, to `manager_email`, exactly when the rule holds
(`manager_email` is set, `delivered > 0`, `2 * clicked >= delivered`, that is
`clicked / delivered >= 1/2`, and `notified_high_clicks` is false) and the transport
accepts the message; whenever it sends, the stored `notified_high_clicks` is true afterward;
whenever it does not send, the store is unchanged; it throws exactly when the rule holds and
the transport refuses the message. -/
theorem notification_rule (env : Env) (s : Store) (c : Campaign)
    (hc : getCampaign s c.id = some c) :
    (highClickRule s c = true ↔
      (truthy c.manager_email = true ∧ 0 < countEvents s c.id .delivered ∧
        ((countEvents s c.id .clicked : ℚ) / (countEvents s c.id .delivered : ℚ) ≥ 1 / 2) ∧
        countEvents s c.id .delivered ≤ 2 * countEvents s c.id .clicked ∧
        c.notified_high_clicks = false)) ∧
    (highClickRule s c = true ∧ sendMail env c (alertMail env c) = true →
      (notifyManagerHighClicks env c s).store.outbox =
        s.outbox ++ [⟨.alert, c.id, alertMail env c⟩] ∧
      c.manager_email = some (alertMail env c).to_addr ∧
      getCampaign (notifyManagerHighClicks env c s).store c.id =
        some { c with notified_high_clicks := true } ∧
      (notifyManagerHighClicks env c s).threw = false) ∧
    (¬ (highClickRule s c = true ∧ sendMail env c (alertMail env c) = true) →
      (notifyManagerHighClicks env c s).store = s) ∧
    ((notifyManagerHighClicks env c s).threw = true ↔
      (highClickRule s c = true ∧ sendMail env c (alertMail env c) = false)) := by
  refine ⟨?_, ?_, ?_, ?_⟩
  · unfold highClickRule
    simp only [Bool.and_eq_true, decide_eq_true_eq, Bool.not_eq_true']
    constructor
    · rintro ⟨⟨⟨h1, h2⟩, h3⟩, h4⟩
      exact ⟨h1, h2, (ratio_ge_half _ _ (Nat.pos_iff_ne_zero.mp h2)).mpr h3, h3, h4⟩
    · rintro ⟨h1, h2, _, h3, h4⟩
      exact ⟨⟨⟨h1, h2⟩, h3⟩, h4⟩
  · rintro ⟨hrule, hsend⟩
    rw [notify_eq, if_pos hrule, if_pos hsend]
    refine ⟨rfl, ?_, ?_, rfl⟩
    · unfold highClickRule at hrule
      simp only [Bool.and_eq_true] at hrule
      have hm := hrule.1.1.1
      cases hme : c.manager_email with
      | none => rw [hme] at hm; cases hm
      | some v => simp [alertMail, hme]
    · simp only
      rw [getCampaign_updateCampaign
        { s with outbox := s.outbox ++ [⟨.alert, c.id, alertMail env c⟩] } c.id c.id
        (fun r => { r with notified_high_clicks := true }) (fun _ => rfl)]
      have : getCampaign { s with outbox := s.outbox ++ [⟨.alert, c.id, alertMail env c⟩] } c.id
          = getCampaign s c.id := rfl
      rw [this, hc]
      simp
  · intro h
    rw [notify_eq]
    by_cases hrule : highClickRule s c = true
    · have hsend : ¬ sendMail env c (alertMail env c) = true := fun hs => h ⟨hrule, hs⟩
      rw [if_pos hrule, if_neg hsend]
    · rw [if_neg hrule]
  · rw [notify_eq]
    by_cases hrule : highClickRule s c = true
    · by_cases hsend : sendMail env c (alertMail env c) = true
      · rw [if_pos hrule, if_pos hsend]
        simp [hsend]
      · rw [if_pos hrule, if_neg hsend]
        simp [hrule, hsend]
    · rw [if_neg hrule]
      simp [hrule]

/-- Witness for C10: on `exAlertStore` the rule holds for the stored row. -/
theorem notification_rule_witness :
    highClickRule exAlertStore
      { exCampaign 1 (some "2026-01-01T09:00:00.000Z") true true .running with
        manager_email := some "b@co.com" } = true ∧
    ((notifyManagerHighClicks exEnv
      { exCampaign 1 (some "2026-01-01T09:00:00.000Z") true true .running with
        manager_email := some "b@co.com" } exAlertStore).threw = true ↔
      (highClickRule exAlertStore
        { exCampaign 1 (some "2026-01-01T09:00:00.000Z") true true .running with
          manager_email := some "b@co.com" } = true ∧
       sendMail exEnv
        { exCampaign 1 (some "2026-01-01T09:00:00.000Z") true true .running with
          manager_email := some "b@co.com" }
        (alertMail exEnv
          { exCampaign 1 (some "2026-01-01T09:00:00.000Z") true true .running with
            manager_email := some "b@co.com" }) = false)) :=
  ⟨by decide, (notification_rule exEnv exAlertStore
    { exCampaign 1 (some "2026-01-01T09:00:00.000Z") true true .running with
      manager_email := some "b@co.com" } (by decide)).2.2.2⟩

/-- C10 as stated fails: in `exAlertStore` `manager_email` is set, `delivered` is 2,
`clicked` is 1 (so `2 * clicked >= delivered`) and `notified_high_clicks` is false, yet no
alert is sent: real sending is on, the SMTP server refuses the message, the call throws and
the store, latch included, is unchanged. -/
theorem no_alert_when_transport_refuses :
    getCampaign exAlertStore 1 =
      some { exCampaign 1 (some "2026-01-01T09:00:00.000Z") true true .running with
        manager_email := some "b@co.com" } ∧
    countEvents exAlertStore 1 .delivered = 2 ∧ countEvents exAlertStore 1 .clicked = 1 ∧
    (notifyManagerHighClicks exEnv
      { exCampaign 1 (some "2026-01-01T09:00:00.000Z") true true .running with
        manager_email := some "b@co.com" } exAlertStore) = ⟨exAlertStore, true⟩ ∧
    exAlertStore.outbox = [] ∧ latch exAlertStore 1 = false := by
  refine ⟨by decide, by decide, by decide, ?_, rfl, by decide⟩
  rw [notify_eq]
  decide

/-! ## C11 -/

/-- C11: two click requests of `exRaceStore` that take turns at their `await`s each send
the manager alert, so two alerts leave for one campaign; handled one after the other they
send one. The first request has sent its alert while the stored latch is still unset: the
latch is written by an unconditional update after the send. -/
theorem interleaved_clicks_send_two_alerts :
    alertsSent (interleave exEnv exRaceRequests [0, 1, 0, 1, 0, 1, 0, 1, 0, 1, 0, 1, 0, 1]
      ([.findTarget, .findTarget], exRaceStore)).2 1 = 2 ∧
    alertsSent (interleave exEnv exRaceRequests [0, 0, 0, 0, 0, 0, 0, 1, 1, 1, 1, 1, 1, 1]
      ([.findTarget, .findTarget], exRaceStore)).2 1 = 1 ∧
    alertsSent (clickAlone exEnv ⟨"2026-01-01T09:10:00.000Z", "tok-a", "203.0.113.7"⟩ 6
      (.findTarget, exRaceStore)).2 1 = 1 ∧
    latch (clickAlone exEnv ⟨"2026-01-01T09:10:00.000Z", "tok-a", "203.0.113.7"⟩ 6
      (.findTarget, exRaceStore)).2 1 = false := by
  decide!

/-! ## C12 -/

/-- For an allowlist whose addresses are distinct (`email` is the primary key of
`employees`), `ensureAllowlistEmails` succeeds exactly when the list is not empty, holds no
more addresses than one statement may hold parameters, names no address twice, and every
address in it is an entry of the allowlist and passes `isDomainAllowed`; a missing list is
refused. -/
theorem valid_recipient_lists (s : Store) (emails : List String)
    (hkey : (allowlisted s).Nodup) :
    (ensureAllowlistEmails s (some emails) = .ok () ↔
      emails ≠ [] ∧ emails.length ≤ SQLITE_MAX_VARIABLE_NUMBER ∧ emails.Nodup ∧
        (∀ a ∈ emails, a ∈ allowlisted s) ∧ ∀ a ∈ emails, isDomainAllowed a = true) ∧
    ensureAllowlistEmails s none =
      .error "Recipients are required and must be on the allowlist." :=
  ⟨ensure_ok_iff s emails hkey, rfl⟩

/-- The one allowlisted address of `exDraftStore` is a valid list. -/
theorem valid_recipient_lists_witness :
    (allowlisted exDraftStore).Nodup ∧
    ensureAllowlistEmails exDraftStore (some ["a@co.com"]) = .ok () :=
  ⟨by decide, (valid_recipient_lists exDraftStore ["a@co.com"] (by decide)).1.mpr
    ⟨by decide, by decide, by decide, by decide, by decide⟩⟩

/-- A list of more addresses than one statement may hold parameters is refused with the
error of SQLite, whatever the addresses are. -/
theorem too_many_recipients_refused (s : Store) (emails : List String)
    (h : SQLITE_MAX_VARIABLE_NUMBER < emails.length) :
    ensureAllowlistEmails s (some emails) = .error "SQLITE_ERROR: too many SQL variables" := by
  rw [ensure_eq, if_neg, if_pos h]
  intro h0
  rw [h0] at h
  exact absurd h (by decide)

/-- C12, at an input where the code departs from it. After the allowlist request of
`exAllowlistOps` the allowlist holds `a@co.com`. The list that names `a@co.com` twice is
not empty and every address in it is an entry of the allowlist and passes
`isDomainAllowed`, yet `ensureAllowlistEmails` refuses it, with a text saying that all
recipients must exist in the allowlist, and `POST /api/campaigns` for that list answers
400 with that text and creates nothing. The list that names the address once is
accepted. -/
theorem repeated_recipient_refused :
    allowlisted (run exEnv exAllowlistOps Store.empty) = ["a@co.com"] ∧
    (["a@co.com", "a@co.com"] : List String) ≠ [] ∧
    (∀ a ∈ (["a@co.com", "a@co.com"] : List String),
      a ∈ allowlisted (run exEnv exAllowlistOps Store.empty) ∧ isDomainAllowed a = true) ∧
    ensureAllowlistEmails (run exEnv exAllowlistOps Store.empty)
      (some ["a@co.com", "a@co.com"]) =
        .error "All recipients must exist in the allowlist." ∧
    createCampaign exRand "2026-01-01T08:00:00.000Z"
      { exCreate with recipients := some ["a@co.com", "a@co.com"] }
      (run exEnv exAllowlistOps Store.empty) =
        (.badRequest "All recipients must exist in the allowlist.",
          run exEnv exAllowlistOps Store.empty) ∧
    ensureAllowlistEmails (run exEnv exAllowlistOps Store.empty) (some ["a@co.com"]) =
      .ok () :=
  ⟨by decide, by decide, by decide, by rfl, by rfl, by rfl⟩

/-! ## C13 -/

/-- On a store whose allowlist holds each address once and only addresses that pass
`isDomainAllowed`, the answer of `ensureAllowlistEmails` by cases on the list. -/
theorem ensure_on_clean_allowlist (s : Store) (emails : List String)
    (hkey : (allowlisted s).Nodup) (hpass : addressesPass s) :
    ensureAllowlistEmails s (some emails) =
      (if emails = [] then .error "Recipients are required and must be on the allowlist."
       else if SQLITE_MAX_VARIABLE_NUMBER < emails.length then
         .error "SQLITE_ERROR: too many SQL variables"
       else if emails.Nodup ∧ ∀ a ∈ emails, a ∈ allowlisted s then .ok ()
       else .error "All recipients must exist in the allowlist.") := by
  have hcount := found_all_iff (allowlisted s) emails hkey
  rw [← selectEmployees_length] at hcount
  rw [ensure_eq]
  by_cases h0 : emails = []
  · rw [if_pos h0, if_pos h0]
  · rw [if_neg h0, if_neg h0]
    by_cases hl : SQLITE_MAX_VARIABLE_NUMBER < emails.length
    · rw [if_pos hl, if_pos hl]
    · rw [if_neg hl, if_neg hl]
      by_cases h1 : (selectEmployees s emails).length = emails.length
      · have h1' := hcount.mp h1
        rw [if_neg (not_not.mpr h1), if_pos h1']
        have h2 : (emails.filter (fun email => !isDomainAllowed email)).length = 0 := by
          rw [List.length_eq_zero, List.filter_eq_nil_iff]
          intro a ha
          obtain ⟨e, he, heq⟩ := List.mem_map.mp (h1'.2 a ha)
          have := hpass.1 e he
          rw [heq] at this
          simp [this]
        rw [if_neg (not_not.mpr h2)]
      · rw [if_pos h1, if_neg (fun h => h1 (hcount.mpr h))]

/-- C13, as the code has it. On every store reached from the empty one, for every
recipient list, `ensureAllowlistEmails` either succeeds or throws one of three fixed
texts, chosen without naming anyone: the text for a missing or empty list, the error of
SQLite for a list of more than `SQLITE_MAX_VARIABLE_NUMBER` addresses, and otherwise, when
an address is repeated or is not an entry of the allowlist, the text `All recipients must
exist in the allowlist.` In particular a list within those bounds in which some recipient
is not on the allowlist or fails `isDomainAllowed` is refused with that fixed text, and
`POST /api/campaigns` for it answers 400 with that text and changes nothing: the text
that lists forbidden domains is never produced. -/
theorem validation_error_messages (env : Env) (ops : List Op) (emails : List String) :
    ensureAllowlistEmails (run env ops Store.empty) (some emails) =
      (if emails = [] then .error "Recipients are required and must be on the allowlist."
       else if SQLITE_MAX_VARIABLE_NUMBER < emails.length then
         .error "SQLITE_ERROR: too many SQL variables"
       else if emails.Nodup ∧ ∀ a ∈ emails, a ∈ allowlisted (run env ops Store.empty) then
         .ok ()
       else .error "All recipients must exist in the allowlist.") ∧
    ensureAllowlistEmails (run env ops Store.empty) none =
      .error "Recipients are required and must be on the allowlist." ∧
    (emails ≠ [] → emails.length ≤ SQLITE_MAX_VARIABLE_NUMBER →
      (∃ a ∈ emails, a ∉ allowlisted (run env ops Store.empty) ∨ isDomainAllowed a = false) →
      ensureAllowlistEmails (run env ops Store.empty) (some emails) =
        .error "All recipients must exist in the allowlist." ∧
      ∀ (rand : String → String) (now : String) (req : CreateRequest),
        req.recipients = some emails →
        createCampaign rand now req (run env ops Store.empty) =
          (.badRequest "All recipients must exist in the allowlist.",
            run env ops Store.empty)) := by
  have hkey := stored_addresses_distinct env ops
  have hpass := stored_addresses_pass env ops
  have heq := ensure_on_clean_allowlist (run env ops Store.empty) emails hkey hpass
  refine ⟨heq, rfl, ?_⟩
  intro h0 hle ⟨a, ha, hbad⟩
  have hnot : ¬ (emails.Nodup ∧ ∀ a ∈ emails, a ∈ allowlisted (run env ops Store.empty)) := by
    rintro ⟨_, hall⟩
    rcases hbad with hbad | hbad
    · exact hbad (hall a ha)
    · obtain ⟨e, he, heq⟩ := List.mem_map.mp (hall a ha)
      have := hpass.1 e he
      rw [heq, hbad] at this
      cases this
  have hmsg : ensureAllowlistEmails (run env ops Store.empty) (some emails) =
      .error "All recipients must exist in the allowlist." := by
    rw [heq, if_neg h0, if_neg (Nat.not_lt.mpr hle), if_neg hnot]
  refine ⟨hmsg, ?_⟩
  intro rand now req hreq
  unfold createCampaign
  rw [hreq, hmsg]

/-- Witness for C13: after the allowlist request of `exAllowlistOps`, which keeps
`a@co.com` and drops `x@gmail.com`, the list that names `x@gmail.com`, an address that
fails `isDomainAllowed`, is refused with the fixed text. -/
theorem validation_error_messages_witness :
    isDomainAllowed "x@gmail.com" = false ∧
    ensureAllowlistEmails (run exEnv exAllowlistOps Store.empty) (some ["x@gmail.com"]) =
      .error "All recipients must exist in the allowlist." :=
  ⟨by decide, ((validation_error_messages exEnv exAllowlistOps ["x@gmail.com"]).2.2
    (by decide) (by decide) ⟨"x@gmail.com", by decide, Or.inr (by decide)⟩).1⟩

/-- C13 as stated fails: after the allowlist request of `exAllowlistOps`, which keeps
`a@co.com` and drops `x@gmail.com`, creating a campaign whose only recipient is
`x@gmail.com`, an address on a deny-listed domain, is refused with a message that holds
neither the address nor its domain. -/
theorem deny_listed_recipient_not_named :
    allowlisted (run exEnv exAllowlistOps Store.empty) = ["a@co.com"] ∧
    isDomainAllowed "x@gmail.com" = false ∧
    (createCampaign exRand "2026-01-01T08:00:00.000Z"
      { exCreate with recipients := some ["x@gmail.com"] }
      (run exEnv exAllowlistOps Store.empty)).1 =
        .badRequest "All recipients must exist in the allowlist." ∧
    ¬ mentions "All recipients must exist in the allowlist." "x@gmail.com" ∧
    ¬ mentions "All recipients must exist in the allowlist." "gmail.com" := by
  unfold mentions
  decide

/-! ## C14 -/

/-- An accepted edit that carries a valid recipient list: the row is rewritten, the
campaign's targets are deleted, and one target per employee found is inserted. -/
theorem editCampaign_replace (rand : String → String) (now : String) (id : Nat)
    (req : EditRequest) (s : Store) (c : Campaign) (recipients : List String)
    (hc : getCampaign s id = some c)
    (hst : c.status = .draft ∨ c.status = .scheduled)
    (hnull : ¬ suppliesNull req)
    (hrec : req.recipients = some recipients)
    (hvalid : ensureAllowlistEmails s (some recipients) = .ok ()) :
    editCampaign rand now id req s =
      (.ok, insertTargets rand id (selectEmployees s recipients)
        { s with
          campaigns := s.campaigns.map
            (fun c => if c.id = id then (editRow req now c).getD c else c),
          campaign_targets := s.campaign_targets.filter (fun t => t.campaign_id ≠ id) }) := by
  have hlock : ¬ (c.status = .running ∨ c.status = .completed) := by
    rcases hst with h | h <;> rw [h] <;> simp
  have hrows := @updateRows_some (editRow req now) id s.campaigns
    (fun d _ _ => ⟨_, editRow_eq_some now d hnull⟩)
  have hvalid' : ∀ rows : List Campaign,
      ensureAllowlistEmails { s with campaigns := rows } (some recipients) = .ok () :=
    fun _ => hvalid
  unfold editCampaign
  simp only [hc, if_neg hlock, hrows, hrec, hvalid']
  rfl

/-- C14, as the code has it. For a campaign in status draft or scheduled and an edit that
supplies no `null` for a `NOT NULL` column and carries a valid recipient list, with a
token generator whose answers during the request are distinct from one another and from
every token in the table: after the edit the campaign has exactly one target per recipient,
with pairwise distinct tokens, the tokens being those the generator answered, and
`delivered = false`; no token that a target of the campaign held before the edit resolves
to a target any more; the targets of other campaigns are unchanged. Addresses are unique in
the allowlist and tokens are unique in `campaign_targets`. -/
theorem replacing_recipients_reissues_tokens (rand : String → String) (now : String)
    (id : Nat) (req : EditRequest) (s : Store) (c : Campaign) (recipients : List String)
    (hc : getCampaign s id = some c)
    (hst : c.status = .draft ∨ c.status = .scheduled)
    (hnull : ¬ suppliesNull req)
    (hrec : req.recipients = some recipients)
    (hallow : (allowlisted s).Nodup)
    (hvalid : ensureAllowlistEmails s (some recipients) = .ok ())
    (htokens : (s.campaign_targets.map (fun t => t.token)).Nodup)
    (hnew : ∀ e ∈ selectEmployees s recipients,
      rand (e.email ++ toString id) ∉ s.campaign_targets.map (fun t => t.token))
    (hdistinct : ((selectEmployees s recipients).map
      (fun e => rand (e.email ++ toString id))).Nodup) :
    (editCampaign rand now id req s).1 = .ok ∧
    ((getCampaignTargets (editCampaign rand now id req s).2 id).map
      (fun t => t.email)).Perm recipients ∧
    ((getCampaignTargets (editCampaign rand now id req s).2 id).map
      (fun t => t.token)).Nodup ∧
    (∀ t ∈ getCampaignTargets (editCampaign rand now id req s).2 id,
      t.delivered = false ∧ t.token = rand (t.email ++ toString id)) ∧
    (∀ t ∈ getCampaignTargets s id,
      findByToken (editCampaign rand now id req s).2 t.token = none) ∧
    (editCampaign rand now id req s).2.campaign_targets.filter
        (fun t => t.campaign_id ≠ id) =
      s.campaign_targets.filter (fun t => t.campaign_id ≠ id) := by
  rw [editCampaign_replace rand now id req s c recipients hc hst hnull hrec hvalid]
  obtain ⟨rows, hrows, hproj⟩ := insertTargets_fresh rand id (selectEmployees s recipients)
    { s with
      campaigns := s.campaigns.map
        (fun c => if c.id = id then (editRow req now c).getD c else c),
      campaign_targets := s.campaign_targets.filter (fun t => t.campaign_id ≠ id) }
    (by
      intro e he hmem
      apply hnew e he
      obtain ⟨t, ht, heq⟩ := List.mem_map.mp hmem
      exact List.mem_map.mpr ⟨t, (List.mem_filter.mp ht).1, heq⟩)
    hdistinct
  simp only at hrows
  have hrow : ∀ t ∈ rows, ∃ e ∈ selectEmployees s recipients,
      t.campaign_id = id ∧ t.email = e.email ∧ t.token = rand (e.email ++ toString id) ∧
        t.delivered = false := by
    intro t ht
    have := List.mem_map_of_mem
      (fun t => (t.campaign_id, t.email, t.name, t.department, t.token, t.delivered)) ht
    rw [hproj] at this
    obtain ⟨e, he, heq⟩ := List.mem_map.mp this
    simp only [Prod.mk.injEq] at heq
    exact ⟨e, he, heq.1.symm, heq.2.1.symm, heq.2.2.2.2.1.symm, heq.2.2.2.2.2.symm⟩
  have hemails : rows.map (fun t => t.email) =
      (selectEmployees s recipients).map (fun e => e.email) := by
    have := congrArg (List.map (fun p : Nat × String × Option String × Option String ×
      String × Bool => p.2.1)) hproj
    simpa [List.map_map, Function.comp] using this
  have htoks : rows.map (fun t => t.token) =
      (selectEmployees s recipients).map (fun e => rand (e.email ++ toString id)) := by
    have := congrArg (List.map (fun p : Nat × String × Option String × Option String ×
      String × Bool => p.2.2.2.2.1)) hproj
    simpa [List.map_map, Function.comp] using this
  have hmine : getCampaignTargets
      (insertTargets rand id (selectEmployees s recipients)
        { s with
          campaigns := s.campaigns.map
            (fun c => if c.id = id then (editRow req now c).getD c else c),
          campaign_targets := s.campaign_targets.filter (fun t => t.campaign_id ≠ id) }) id
      = rows := by
    unfold getCampaignTargets
    rw [hrows, List.filter_append, List.filter_filter]
    have h1 : s.campaign_targets.filter
        (fun t => decide (t.campaign_id = id) && decide (t.campaign_id ≠ id)) = [] := by
      rw [List.filter_eq_nil_iff]
      intro t _
      by_cases h : t.campaign_id = id <;> simp [h]
    have h2 : rows.filter (fun t => decide (t.campaign_id = id)) = rows := by
      rw [List.filter_eq_self]
      intro t ht
      obtain ⟨_, _, h, _⟩ := hrow t ht
      simpa using h
    rw [h1, h2, List.nil_append]
  obtain ⟨_, _, hnd, hmem, _⟩ := (ensure_ok_iff s recipients hallow).mp hvalid
  unfold allowlisted at hallow hmem
  refine ⟨rfl, ?_, ?_, ?_, ?_, ?_⟩
  · simp only
    rw [hmine, hemails]
    refine (selectEmployees_emails s recipients).trans ?_
    rw [List.perm_ext_iff_of_nodup (hallow.filter _) hnd]
    intro a
    simp only [List.mem_filter, List.contains_iff_exists_mem_beq, beq_iff_eq, exists_eq_right']
    exact ⟨fun h => h.2, fun h => ⟨hmem a h, h⟩⟩
  · simp only
    rw [hmine, htoks]
    exact hdistinct
  · simp only
    rw [hmine]
    intro t ht
    obtain ⟨e, _, _, h2, h3, h4⟩ := hrow t ht
    exact ⟨h4, by rw [h3, h2]⟩
  · intro t ht
    simp only
    unfold findByToken
    rw [hrows, List.find?_eq_none]
    intro u hu
    simp only [decide_eq_true_eq]
    intro heq
    have ht' := List.mem_filter.mp ht
    rcases List.mem_append.mp hu with hu | hu
    · have hu' := List.mem_filter.mp hu
      have : u = t := List.inj_on_of_nodup_map htokens hu'.1 ht'.1 heq
      subst this
      have h1 : u.campaign_id ≠ id := by simpa using hu'.2
      exact h1 (by simpa using ht'.2)
    · obtain ⟨e, he, _, _, h3, _⟩ := hrow u hu
      apply hnew e he
      rw [← h3, heq]
      exact List.mem_map_of_mem (fun t => t.token) ht'.1
  · simp only
    rw [hrows, List.filter_append, List.filter_filter]
    have h2 : rows.filter (fun t => decide (t.campaign_id ≠ id)) = [] := by
      rw [List.filter_eq_nil_iff]
      intro t ht
      obtain ⟨_, _, h, _⟩ := hrow t ht
      simp [h]
    rw [h2, List.append_nil]
    congr 1
    funext t
    simp

/-- Witness for C14: replacing the recipients of the draft campaign of `exDraftStore` by
the same one address issues a new token, and the old token no longer resolves. -/
theorem replacing_recipients_reissues_tokens_witness :
    (editCampaign exRand "2026-01-01T08:10:00.000Z" 1
      { exNoEdit with recipients := some ["a@co.com"] } exDraftStore).1 = .ok ∧
    findByToken (editCampaign exRand "2026-01-01T08:10:00.000Z" 1
      { exNoEdit with recipients := some ["a@co.com"] } exDraftStore).2 "tok-a" = none ∧
    (getCampaignTargets (editCampaign exRand "2026-01-01T08:10:00.000Z" 1
      { exNoEdit with recipients := some ["a@co.com"] } exDraftStore).2 1).map
        (fun t => (t.email, t.token, t.delivered)) = [("a@co.com", "tok-a@co.com1", false)] := by
  have h := replacing_recipients_reissues_tokens exRand "2026-01-01T08:10:00.000Z" 1
    { exNoEdit with recipients := some ["a@co.com"] } exDraftStore
    (exCampaign 1 none false false .draft) ["a@co.com"] (by decide) (by decide)
    (by simp [suppliesNull, exNoEdit]) rfl (by decide) rfl (by decide) (by decide) (by decide)
  exact ⟨h.1, h.2.2.2.2.1 (exTarget 1 1 "a@co.com" "tok-a") (by decide), by decide⟩

/-- C14 as stated fails. In `exCreatedStore` campaign 1 is scheduled and its one target
holds the token `tok-a@co.com1`; the list `["a@co.com"]` is valid and the generator
`exRandLater` answers a token never issued before. The edit that carries this list
together with `name: null` is refused by the `UPDATE` of the row, which comes before the
targets are replaced: the store is unchanged, the old token still resolves to its target
and no token was issued. The same edit without the `null` replaces the target and the old
token no longer resolves. -/
theorem null_name_edit_keeps_old_tokens :
    (getCampaign exCreatedStore 1).map (fun c => c.status) = some .scheduled ∧
    (getCampaignTargets exCreatedStore 1).map (fun t => (t.email, t.token)) =
      [("a@co.com", "tok-a@co.com1")] ∧
    ensureAllowlistEmails exCreatedStore (some ["a@co.com"]) = .ok () ∧
    exRandLater ("a@co.com" ++ toString 1) ∉
      exCreatedStore.campaign_targets.map (fun t => t.token) ∧
    editCampaign exRandLater "2026-01-01T08:10:00.000Z" 1
      { exNoEdit with name := some none, recipients := some ["a@co.com"] } exCreatedStore =
        (.badRequest "SQLITE_CONSTRAINT: NOT NULL constraint failed", exCreatedStore) ∧
    (findByToken (editCampaign exRandLater "2026-01-01T08:10:00.000Z" 1
      { exNoEdit with name := some none, recipients := some ["a@co.com"] }
        exCreatedStore).2 "tok-a@co.com1").map (fun t => t.email) = some "a@co.com" ∧
    (getCampaignTargets (editCampaign exRandLater "2026-01-01T08:10:00.000Z" 1
      { exNoEdit with recipients := some ["a@co.com"] } exCreatedStore).2 1).map
        (fun t => (t.email, t.token)) = [("a@co.com", "new-a@co.com1")] ∧
    findByToken (editCampaign exRandLater "2026-01-01T08:10:00.000Z" 1
      { exNoEdit with recipients := some ["a@co.com"] } exCreatedStore).2 "tok-a@co.com1" =
        none := by
  refine ⟨by decide, by decide, by rfl, by decide, by rfl, by decide, by decide, by decide⟩

/-! ## C15 -/

/-- C15, as the code has it. `recordEvent` appends exactly one event; its `ip_hash` is
`null` when the origin given is empty or the text `unknown`, and otherwise is the SHA-256
digest of the origin, never the origin itself. `dispatchCampaign` passes the text
`internal` as origin, so every `delivered` event it appends carries the digest of that
text, not `null`. -/
theorem origin_hash_rule (env : Env) (now : String) (s : Store) :
    (∀ (campaignId : Nat) (email : String) (ty : EventType) (ip : String) (sim : Bool),
      ∃ e : CampaignEvent,
        (recordEvent env now campaignId email ty ip sim s).campaign_events =
          s.campaign_events ++ [e] ∧
        e.campaign_id = campaignId ∧ e.email = email ∧ e.event_type = ty ∧
        (ip = "" ∨ ip = "unknown" → e.ip_hash = none) ∧
        (ip ≠ "" → ip ≠ "unknown" → e.ip_hash = some (env.hashValue ip))) ∧
    (∀ campaignId : Nat, ∃ evs : List CampaignEvent,
      (dispatchCampaign env now campaignId s).store.campaign_events =
        s.campaign_events ++ evs ∧
      ∀ e ∈ evs, e.event_type = .delivered ∧ e.campaign_id = campaignId ∧
        e.ip_hash = some (env.hashValue "internal")) := by
  constructor
  · intro campaignId email ty ip sim
    refine ⟨_, recordEvent_events env now campaignId email ty ip sim s, rfl, rfl, rfl, ?_, ?_⟩
    · intro h
      simp only
      rw [if_neg]
      rintro ⟨h1, h2⟩
      rcases h with h | h
      · exact h1 h
      · exact h2 h
    · intro h1 h2
      simp only
      rw [if_pos ⟨h1, h2⟩]
  · intro campaignId
    obtain ⟨evs, h1, h2⟩ := dispatchCampaign_events env now campaignId s
    exact ⟨evs, h1, fun e he => ⟨(h2 e he).2.1, (h2 e he).1, (h2 e he).2.2.1⟩⟩

/-- C15 as stated fails: the `delivered` event that `dispatchCampaign` appends for the
campaign of `exDueStore` has an `ip_hash`, the digest of the text `internal`; it is not
`null`. -/
theorem delivered_event_carries_a_hash :
    (dispatchCampaign exEnv "2026-01-01T09:01:00.000Z" 1 exDueStore).store.campaign_events.map
      (fun e => (e.event_type, e.email, e.ip_hash)) =
      [(.delivered, "a@co.com", some (exEnv.hashValue "internal"))] ∧
    (some (exEnv.hashValue "internal") : Option String) ≠ none := by
  decide

/-! ## C16 -/

/-- C16. Handling `POST /landing/:token/submit` gives the same answer and the same store
whatever the submitted form holds. When the token resolves, exactly one event is appended,
of type `submitted`, with `simulated_entry` on and the campaign and email of the token's
target, and the rest of the store is as before; when it does not resolve the store is
unchanged. No other operation appends an event with `simulated_entry` on. -/
theorem submitted_values_never_stored (env : Env) (now token ip : String) (s : Store) :
    (∀ b1 b2 : List (String × String),
      submitLanding env now token ip b1 s = submitLanding env now token ip b2 s) ∧
    (∀ (b : List (String × String)) (target : CampaignTarget),
      findByToken s token = some target →
      ∃ e : CampaignEvent,
        (submitLanding env now token ip b s).2.campaign_events = s.campaign_events ++ [e] ∧
        e.event_type = .submitted ∧ e.simulated_entry = true ∧ e.email = target.email ∧
        e.campaign_id = target.campaign_id ∧
        (submitLanding env now token ip b s).2.employees = s.employees ∧
        (submitLanding env now token ip b s).2.campaigns = s.campaigns ∧
        (submitLanding env now token ip b s).2.campaign_targets = s.campaign_targets ∧
        (submitLanding env now token ip b s).2.outbox = s.outbox) ∧
    (∀ b : List (String × String), findByToken s token = none →
      (submitLanding env now token ip b s).2 = s) ∧
    (∀ op : Op, ∃ evs : List CampaignEvent,
      (step env op s).campaign_events = s.campaign_events ++ evs ∧
      ∀ e ∈ evs, e.simulated_entry = true →
        ∃ now' token' ip' form, op = .submit now' token' ip' form) := by
  refine ⟨fun _ _ => rfl, ?_, ?_, fun op => step_events env op s⟩
  · intro b target h
    unfold submitLanding
    simp only [h]
    exact ⟨_, recordEvent_events env now _ _ _ _ _ s, rfl, rfl, rfl, rfl, rfl, rfl, rfl, rfl⟩
  · intro b h
    unfold submitLanding
    simp only [h]

/-! ## C17 -/

/-- C17, at an input where the code departs from it: the address `"ops@hq"@gmail.com` has
the domain part `gmail.com`, which is on the deny list, yet `isDomainAllowed` answers true
for it, because it reads the text between the first and the second `@`. The allowlist
route stores the address and a campaign can be created for it, so a target at a
deny-listed domain exists. -/
theorem quoted_local_part_passes_deny_list :
    domainPart exQuotedAddress = some "gmail.com" ∧
    onDenyList exQuotedAddress = true ∧
    isDomainAllowed exQuotedAddress = true ∧
    allowlisted (run exEnv exQuotedOps Store.empty) = [exQuotedAddress] ∧
    (run exEnv exQuotedOps Store.empty).campaign_targets.map (fun t => (t.campaign_id, t.email))
      = [(1, exQuotedAddress)] := by
  decide

/-! ## C18 -/

/-- C18, at inputs where the code departs from it. For a target named `Al` of department
`Sales`, `maskTemplate` and the reference rendering agree. For a target whose name is
`A$&B`, `maskTemplate` does not insert the name as it is: `$&` is read as a replacement
pattern and the placeholder itself comes back. For a target whose name is the text of the
`department` placeholder, the second `replace` rewrites the inserted name, so the name is
rendered as the department. -/
theorem maskTemplate_is_not_literal_substitution :
    maskTemplate "Dear \x7b\x7bname\x7d\x7d of \x7b\x7bdepartment\x7d\x7d"
      { exTarget 1 1 "a@co.com" "tok-a" with name := some "Al", department := some "Sales" }
      = "Dear Al of Sales" ∧
    renderReference "Dear \x7b\x7bname\x7d\x7d of \x7b\x7bdepartment\x7d\x7d"
      { exTarget 1 1 "a@co.com" "tok-a" with name := some "Al", department := some "Sales" }
      = "Dear Al of Sales" ∧
    maskTemplate "Dear \x7b\x7bname\x7d\x7d of \x7b\x7bdepartment\x7d\x7d"
      { exTarget 1 1 "a@co.com" "tok-a" with name := some "A$&B", department := some "Sales" }
      = "Dear A\x7b\x7bname\x7d\x7dB of Sales" ∧
    renderReference "Dear \x7b\x7bname\x7d\x7d of \x7b\x7bdepartment\x7d\x7d"
      { exTarget 1 1 "a@co.com" "tok-a" with name := some "A$&B", department := some "Sales" }
      = "Dear A$&B of Sales" ∧
    maskTemplate "Dear \x7b\x7bname\x7d\x7d of \x7b\x7bdepartment\x7d\x7d"
      { exTarget 1 1 "a@co.com" "tok-a" with
        name := some "\x7b\x7bdepartment\x7d\x7d", department := some "Sales" }
      = "Dear Sales of Sales" ∧
    renderReference "Dear \x7b\x7bname\x7d\x7d of \x7b\x7bdepartment\x7d\x7d"
      { exTarget 1 1 "a@co.com" "tok-a" with
        name := some "\x7b\x7bdepartment\x7d\x7d", department := some "Sales" }
      = "Dear \x7b\x7bdepartment\x7d\x7d of Sales" := by
  decide

/-! ## C19 -/

/-- The message for a target goes to the target's address, under the campaign's subject,
and its HTML holds the pixel address and the click address built from the target's token;
its text holds the click address. -/
theorem simulationMail_fields (env : Env) (campaign : Campaign) (template : Template)
    (t : CampaignTarget) :
    (simulationMail env campaign template t).to_addr = t.email ∧
    (simulationMail env campaign template t).subject = campaign.subject ∧
    mentions (simulationMail env campaign template t).html
      (env.baseTrackingUrl ++ "/track/open/" ++ t.token ++ ".gif") ∧
    mentions (simulationMail env campaign template t).html
      (env.baseTrackingUrl ++ "/track/click/" ++ t.token) ∧
    mentions (simulationMail env campaign template t).text
      (env.baseTrackingUrl ++ "/track/click/" ++ t.token) := by
  refine ⟨rfl, rfl, ?_, ?_, ?_⟩
  · unfold simulationMail
    simp only
    apply mentions_append_right
    have hsplit : (".gif\" alt=\"\" width=\"1\" height=\"1\" style=\"display:none;\"/>" : String)
        = ".gif" ++ "\" alt=\"\" width=\"1\" height=\"1\" style=\"display:none;\"/>" := by
      decide
    rw [hsplit]
    unfold mentions
    simp only [toList_append]
    exact ⟨"<img src=\"".toList,
      "\" alt=\"\" width=\"1\" height=\"1\" style=\"display:none;\"/>".toList,
      by simp only [List.append_assoc]⟩
  · unfold simulationMail
    simp only
    apply mentions_append_left
    apply mentions_append_left
    apply mentions_append_right
    exact mentions_self _
  · unfold simulationMail
    simp only
    apply mentions_append_right
    exact mentions_self _

theorem afterSends_employees (env : Env) (now : String) (campaign : Campaign)
    (template : Template) (targets : List CampaignTarget) (s : Store) :
    (afterSends env now campaign template targets s).employees = s.employees := by
  induction targets generalizing s with
  | nil => rfl
  | cons t ts ih =>
    rw [afterSends_cons, ih]
    rfl

/-- Marking the targets of one campaign leaves the targets of the other campaigns alone,
when ids are unique. -/
theorem marked_others_unchanged (rows : List CampaignTarget) (campaignId : Nat)
    (hkey : (rows.map (fun t => t.id)).Nodup) :
    (rows.map (fun t =>
      if t.id ∈ (rows.filter (fun u => u.campaign_id = campaignId)).map (fun u => u.id)
      then { t with delivered := true } else t)).filter (fun t => t.campaign_id ≠ campaignId) =
    rows.filter (fun t => t.campaign_id ≠ campaignId) := by
  rw [List.filter_map]
  have hcomp : ((fun t : CampaignTarget => decide (t.campaign_id ≠ campaignId)) ∘
      (fun t : CampaignTarget =>
        if t.id ∈ (rows.filter (fun u => u.campaign_id = campaignId)).map (fun u => u.id)
        then { t with delivered := true } else t)) =
      (fun t : CampaignTarget => decide (t.campaign_id ≠ campaignId)) := by
    funext t
    simp only [Function.comp]
    split <;> rfl
  rw [hcomp]
  conv_rhs => rw [← List.map_id (rows.filter (fun t => decide (t.campaign_id ≠ campaignId)))]
  apply List.map_congr_left
  intro t ht
  rw [List.mem_filter] at ht
  have hne : t.campaign_id ≠ campaignId := by simpa using ht.2
  rw [if_neg]
  · rfl
  · intro hmem
    obtain ⟨u, hu, huid⟩ := List.mem_map.mp hmem
    rw [List.mem_filter] at hu
    have : u = t := List.inj_on_of_nodup_map hkey hu.1 ht.1 huid
    subst this
    exact hne (by simpa using hu.2)

/-- C19. For an existing campaign whose template key is in the catalog and a transport
that accepts every message of the dispatch, `dispatchCampaign` does not throw; it sends
exactly one message per target of the campaign, in order, each to the target's address,
under the campaign's subject, with the target's token in the pixel address and in the click
address; it appends exactly one `delivered` event per target, for that campaign and
address; it leaves every target of the campaign with `delivered = true`; the targets and
events of other campaigns, the campaigns and the allowlist are unchanged (target ids are
unique). When the campaign or its template is missing, nothing is sent and the store is
unchanged. -/
theorem dispatch_success (env : Env) (now : String) (campaignId : Nat) (s : Store)
    (campaign : Campaign) (template : Template)
    (hc : getCampaign s campaignId = some campaign)
    (ht : findTemplate campaign.template_key = some template)
    (hkey : (s.campaign_targets.map (fun t => t.id)).Nodup)
    (hok : ∀ t ∈ getCampaignTargets s campaignId,
      sendMail env campaign (simulationMail env campaign template t) = true) :
    (dispatchCampaign env now campaignId s).threw = false ∧
    (dispatchCampaign env now campaignId s).store.outbox = s.outbox ++
      (getCampaignTargets s campaignId).map
        (fun t => ⟨.simulation, campaignId, simulationMail env campaign template t⟩) ∧
    (∀ t : CampaignTarget,
      (simulationMail env campaign template t).to_addr = t.email ∧
      (simulationMail env campaign template t).subject = campaign.subject ∧
      mentions (simulationMail env campaign template t).html
        (env.baseTrackingUrl ++ "/track/open/" ++ t.token ++ ".gif") ∧
      mentions (simulationMail env campaign template t).html
        (env.baseTrackingUrl ++ "/track/click/" ++ t.token) ∧
      mentions (simulationMail env campaign template t).text
        (env.baseTrackingUrl ++ "/track/click/" ++ t.token)) ∧
    (∃ evs : List CampaignEvent,
      (dispatchCampaign env now campaignId s).store.campaign_events =
        s.campaign_events ++ evs ∧
      evs.map (fun e => (e.campaign_id, e.email, e.event_type)) =
        (getCampaignTargets s campaignId).map
          (fun t => (campaignId, t.email, EventType.delivered))) ∧
    (∀ t ∈ (dispatchCampaign env now campaignId s).store.campaign_targets,
      t.campaign_id = campaignId → t.delivered = true) ∧
    (dispatchCampaign env now campaignId s).store.campaign_targets.map
        (fun t => (t.id, t.campaign_id, t.email, t.token)) =
      s.campaign_targets.map (fun t => (t.id, t.campaign_id, t.email, t.token)) ∧
    (dispatchCampaign env now campaignId s).store.campaign_targets.filter
        (fun t => t.campaign_id ≠ campaignId) =
      s.campaign_targets.filter (fun t => t.campaign_id ≠ campaignId) ∧
    (dispatchCampaign env now campaignId s).store.campaigns = s.campaigns ∧
    (dispatchCampaign env now campaignId s).store.employees = s.employees ∧
    (∀ (s' : Store) (id' : Nat),
      (getCampaign s' id' = none ∨
        ∃ c, getCampaign s' id' = some c ∧ findTemplate c.template_key = none) →
      dispatchCampaign env now id' s' = ⟨s', false⟩) := by
  have hid : campaign.id = campaignId := (getCampaign_mem hc).2
  have hrun : dispatchCampaign env now campaignId s =
      ⟨afterSends env now campaign template (getCampaignTargets s campaignId) s, false⟩ := by
    unfold dispatchCampaign
    simp only [hc, ht]
    have := dispatchLoop_append env now campaign template (getCampaignTargets s campaignId) []
      s hok
    rw [List.append_nil] at this
    rw [this]
    rfl
  rw [hrun]
  refine ⟨rfl, ?_, fun t => simulationMail_fields env campaign template t, ?_, ?_, ?_, ?_,
    afterSends_campaigns env now campaign template _ s, ?_, ?_⟩
  · rw [afterSends_outbox, hid]
  · have := afterSends_events env now campaign template (getCampaignTargets s campaignId) s
    rw [hid] at this
    exact this
  · intro t htm hcid
    simp only at htm
    rw [afterSends_targets] at htm
    obtain ⟨t0, ht0, rfl⟩ := List.mem_map.mp htm
    have hcid0 : t0.campaign_id = campaignId := by
      split at hcid
      · exact hcid
      · exact hcid
    have hin : t0.id ∈ (getCampaignTargets s campaignId).map (fun u => u.id) :=
      List.mem_map_of_mem (fun u => u.id) (List.mem_filter.mpr ⟨ht0, by simpa using hcid0⟩)
    rw [if_pos hin]
  · simp only
    rw [afterSends_targets, List.map_map]
    apply List.map_congr_left
    intro t _
    simp only [Function.comp]
    split <;> rfl
  · simp only
    rw [afterSends_targets]
    exact marked_others_unchanged s.campaign_targets campaignId hkey
  · exact afterSends_employees env now campaign template _ s
  · intro s' id' h
    unfold dispatchCampaign
    rcases h with h | ⟨c, h1, h2⟩
    · simp only [h]
    · simp only [h1, h2]

/-- Witness for C19: the dispatch of the campaign of `exDueStore`, through the console
transport, does not throw and leaves its target delivered. -/
theorem dispatch_success_witness :
    (dispatchCampaign exEnv "2026-01-01T09:01:00.000Z" 1 exDueStore).threw = false ∧
    ∀ t ∈ (dispatchCampaign exEnv "2026-01-01T09:01:00.000Z" 1 exDueStore).store.campaign_targets,
      t.campaign_id = 1 → t.delivered = true := by
  have h := dispatch_success exEnv "2026-01-01T09:01:00.000Z" 1 exDueStore
    (exCampaign 1 (some "2026-01-01T09:00:00.000Z") true false .scheduled)
    (templates.get ⟨0, by decide⟩) (by decide) (by rfl) (by decide) (by decide)
  exact ⟨h.1, h.2.2.2.2.1⟩

/-! ## C20 -/

/-- C20, as the code has it. For an existing campaign `POST /api/campaigns/:id/send` fails
exactly when `approval` is false, and then leaves the store unchanged; when `approval` is
true it sets `status` to `scheduled` and always sets `scheduled_time` and `updated_at` to
the current time, whether or not the campaign was already sendable, leaving every other
column of the row (approval, enable_sending and end_time among them), the targets and the
other campaigns unchanged. -/
theorem queueSend_gate (now : String) (id : Nat) (s : Store) (c : Campaign)
    (hc : getCampaign s id = some c) :
    (c.approval = false →
      (queueSend now id s).1 = .badRequest "Campaign must be approved before sending" ∧
      (queueSend now id s).2 = s) ∧
    (c.approval = true →
      (queueSend now id s).1 = .ok ∧
      getCampaign (queueSend now id s).2 id =
        some { c with status := .scheduled, scheduled_time := some now, updated_at := now } ∧
      (queueSend now id s).2.campaign_targets = s.campaign_targets ∧
      ∀ j, j ≠ id → getCampaign (queueSend now id s).2 j = getCampaign s j) := by
  have hid : c.id = id := (getCampaign_mem hc).2
  constructor
  · intro ha
    unfold queueSend
    simp [hc, ha]
  · intro ha
    unfold queueSend
    simp only [hc, ha, Bool.not_true, Bool.false_eq_true, if_false]
    refine ⟨trivial, ?_, rfl, ?_⟩
    · rw [getCampaign_updateCampaign s id id
        (fun c => { c with status := .scheduled, scheduled_time := some now, updated_at := now })
        (fun _ => rfl), hc]
      simp [hid, ha]
    · intro j hj
      rw [getCampaign_updateCampaign s id j
        (fun c => { c with status := .scheduled, scheduled_time := some now, updated_at := now })
        (fun _ => rfl)]
      cases hfind : getCampaign s j with
      | none => rfl
      | some d =>
        have hdj : d.id = j := (getCampaign_mem hfind).2
        have : d.id ≠ id := by rw [hdj]; exact hj
        simp [this]

/-- Witness for C20: the approved campaign of `exDueStore` is queued and its schedule is
stamped with the time of the request. -/
theorem queueSend_gate_witness :
    getCampaign exDueStore 1 =
      some (exCampaign 1 (some "2026-01-01T09:00:00.000Z") true false .scheduled) ∧
    (queueSend "2026-01-01T09:05:00.000Z" 1 exDueStore).1 = .ok ∧
    (getCampaign (queueSend "2026-01-01T09:05:00.000Z" 1 exDueStore).2 1).map
      (fun c => c.scheduled_time) = some (some "2026-01-01T09:05:00.000Z") := by
  have h := (queueSend_gate "2026-01-01T09:05:00.000Z" 1 exDueStore
    (exCampaign 1 (some "2026-01-01T09:00:00.000Z") true false .scheduled) (by decide)).2 rfl
  exact ⟨by decide, h.1, by rw [h.2.1]; rfl⟩

/-- C20 as stated fails: the campaign of `exDueStore` is approved and already sendable (its
`scheduled_time`, nine o'clock, is set and not after the time of the request), yet
`POST /api/campaigns/1/send` replaces its `scheduled_time` by the time of the request. -/
theorem queueSend_restamps_sendable_campaign :
    (getCampaign exDueStore 1).map (fun c => (c.approval, c.scheduled_time)) =
      some (true, some "2026-01-01T09:00:00.000Z") ∧
    textLe "2026-01-01T09:00:00.000Z" "2026-01-01T09:05:00.000Z" = true ∧
    (queueSend "2026-01-01T09:05:00.000Z" 1 exDueStore).1 = .ok ∧
    (getCampaign (queueSend "2026-01-01T09:05:00.000Z" 1 exDueStore).2 1).map
      (fun c => c.scheduled_time) = some (some "2026-01-01T09:05:00.000Z") := by
  decide

/-! ## C21 -/

theorem repeated_length {α : Type} (k : Nat) (l : List α) :
    (repeated k l).length = k * l.length := by
  induction k with
  | zero => simp [repeated]
  | succ k ih => simp only [repeated, List.length_append, ih]; ring

theorem repeated_map {α β : Type} (f : α → β) (k : Nat) (l : List α) :
    (repeated k l).map f = repeated k (l.map f) := by
  induction k with
  | zero => rfl
  | succ k ih => simp only [repeated, List.map_append, ih]

theorem dispatchMessages_marked (env : Env) (campaign : Campaign) (template : Template)
    (targets : List CampaignTarget) :
    dispatchMessages env campaign template
        (targets.map (fun t => { t with delivered := true })) =
      dispatchMessages env campaign template targets := by
  unfold dispatchMessages
  rw [List.map_map]
  rfl

/-- What a run of dispatches in which every send is accepted leaves: the campaign row as
it was, the targets of the campaign with `delivered = true` once a dispatch has run, one
round of messages and one round of `delivered` events for each dispatch. -/
theorem dispatchEach_log (env : Env) (campaignId : Nat) (campaign : Campaign)
    (template : Template) (clock : List String) (s : Store)
    (hc : getCampaign s campaignId = some campaign)
    (ht : findTemplate campaign.template_key = some template)
    (hok : ∀ t ∈ getCampaignTargets s campaignId,
      sendMail env campaign (simulationMail env campaign template t) = true) :
    getCampaign (dispatchEach env campaignId clock s) campaignId = some campaign ∧
    getCampaignTargets (dispatchEach env campaignId clock s) campaignId =
      (if clock = [] then getCampaignTargets s campaignId
       else (getCampaignTargets s campaignId).map (fun t => { t with delivered := true })) ∧
    (dispatchEach env campaignId clock s).outbox = s.outbox ++
      repeated clock.length
        (dispatchMessages env campaign template (getCampaignTargets s campaignId)) ∧
    ∃ evs : List CampaignEvent,
      (dispatchEach env campaignId clock s).campaign_events = s.campaign_events ++ evs ∧
      evs.map (fun e => (e.campaign_id, e.email, e.event_type)) =
        repeated clock.length ((getCampaignTargets s campaignId).map
          (fun t => (campaignId, t.email, EventType.delivered))) := by
  induction clock generalizing s with
  | nil =>
    refine ⟨hc, rfl, ?_, [], ?_, rfl⟩
    · simp [dispatchEach, repeated]
    · simp [dispatchEach]
  | cons now rest ih =>
    have hid : campaign.id = campaignId := (getCampaign_mem hc).2
    have hrun := dispatchCampaign_eq_afterSends env now campaignId s campaign template hc ht hok
    have hstep : dispatchEach env campaignId (now :: rest) s =
        dispatchEach env campaignId rest
          (afterSends env now campaign template (getCampaignTargets s campaignId) s) := by
      unfold dispatchEach
      rw [List.foldl_cons, hrun]
    have hc1 : getCampaign
        (afterSends env now campaign template (getCampaignTargets s campaignId) s) campaignId
          = some campaign := by
      unfold getCampaign
      rw [afterSends_campaigns]
      exact hc
    have htargets := afterSends_own_targets env now campaign template campaignId s
    have hok1 : ∀ t ∈ getCampaignTargets
        (afterSends env now campaign template (getCampaignTargets s campaignId) s) campaignId,
        sendMail env campaign (simulationMail env campaign template t) = true := by
      intro t hmem
      rw [htargets] at hmem
      obtain ⟨t0, ht0, rfl⟩ := List.mem_map.mp hmem
      rw [simulationMail_delivered]
      exact hok t0 ht0
    obtain ⟨h1, h2, h3, evs, h4, h5⟩ := ih _ hc1 hok1
    obtain ⟨evs0, h6, h7⟩ :=
      afterSends_events env now campaign template (getCampaignTargets s campaignId) s
    rw [hstep]
    refine ⟨h1, ?_, ?_, evs0 ++ evs, ?_, ?_⟩
    · rw [h2, htargets, if_neg (List.cons_ne_nil _ _)]
      split
      · rfl
      · rw [List.map_map]
        rfl
    · rw [h3, htargets, dispatchMessages_marked, afterSends_outbox, List.append_assoc]
      rfl
    · rw [h4, h6, List.append_assoc]
    · rw [List.map_append, h5, h7, htargets, List.map_map, hid]
      rfl

theorem mem_of_mem_repeated {α : Type} {k : Nat} {l : List α} {x : α}
    (h : x ∈ repeated k l) : x ∈ l := by
  induction k with
  | zero => cases h
  | succ k ih =>
    simp only [repeated, List.mem_append] at h
    rcases h with h | h
    · exact h
    · exact ih h

/-- C21. For an existing campaign whose template is in the catalog and a transport that
accepts every message of the campaign, `dispatchCampaign` invoked `k` times in a row (once
per reading of `clock`) sends, each time, one message to every target of the campaign,
whatever the target's `delivered` flag: the log grows by `k` rounds of the same messages,
and a target whose flag was already set is sent to in every round. Each dispatch appends
one `delivered` event per target, so the campaign's delivered count grows by `k` times its
number of targets; from a count of zero, the analytics endpoint reports `k` times the
number of targets. The campaign keeps its targets, all with `delivered = true` once a
dispatch has run. -/
theorem dispatch_ignores_delivered_flag (env : Env) (campaignId : Nat) (campaign : Campaign)
    (template : Template) (clock : List String) (s : Store)
    (hc : getCampaign s campaignId = some campaign)
    (ht : findTemplate campaign.template_key = some template)
    (hok : ∀ t ∈ getCampaignTargets s campaignId,
      sendMail env campaign (simulationMail env campaign template t) = true) :
    (dispatchEach env campaignId clock s).outbox = s.outbox ++
      repeated clock.length
        (dispatchMessages env campaign template (getCampaignTargets s campaignId)) ∧
    (∀ t ∈ getCampaignTargets s campaignId, t.delivered = true → clock ≠ [] →
      (⟨.simulation, campaignId, simulationMail env campaign template t⟩ : Sent) ∈
        (dispatchEach env campaignId clock s).outbox.drop s.outbox.length) ∧
    (∃ evs : List CampaignEvent,
      (dispatchEach env campaignId clock s).campaign_events = s.campaign_events ++ evs ∧
      evs.map (fun e => (e.campaign_id, e.email, e.event_type)) =
        repeated clock.length ((getCampaignTargets s campaignId).map
          (fun t => (campaignId, t.email, EventType.delivered)))) ∧
    countEvents (dispatchEach env campaignId clock s) campaignId .delivered =
      countEvents s campaignId .delivered +
        clock.length * (getCampaignTargets s campaignId).length ∧
    (countEvents s campaignId .delivered = 0 →
      (analytics (dispatchEach env campaignId clock s) campaignId).map (fun a => a.delivered) =
        some (clock.length * (getCampaignTargets s campaignId).length)) ∧
    (getCampaignTargets (dispatchEach env campaignId clock s) campaignId).map
        (fun t => (t.id, t.email, t.name, t.department, t.token)) =
      (getCampaignTargets s campaignId).map
        (fun t => (t.id, t.email, t.name, t.department, t.token)) ∧
    (clock ≠ [] →
      ∀ t ∈ getCampaignTargets (dispatchEach env campaignId clock s) campaignId,
        t.delivered = true) := by
  have hid : campaign.id = campaignId := (getCampaign_mem hc).2
  obtain ⟨h1, h2, h3, evs, h4, h5⟩ :=
    dispatchEach_log env campaignId campaign template clock s hc ht hok
  have hcount : countEvents (dispatchEach env campaignId clock s) campaignId .delivered =
      countEvents s campaignId .delivered +
        clock.length * (getCampaignTargets s campaignId).length := by
    rw [countEvents_eq_countP, countEvents_eq_countP, h4, List.countP_append]
    congr 1
    have hall : ∀ e ∈ evs,
        decide (e.campaign_id = campaignId ∧ e.event_type = EventType.delivered) = true := by
      intro e he
      have hm : (e.campaign_id, e.email, e.event_type) ∈
          evs.map (fun e => (e.campaign_id, e.email, e.event_type)) :=
        List.mem_map_of_mem (fun e => (e.campaign_id, e.email, e.event_type)) he
      rw [h5] at hm
      obtain ⟨t, _, heq⟩ := List.mem_map.mp (mem_of_mem_repeated hm)
      simp only [Prod.mk.injEq] at heq
      simp [← heq.1, ← heq.2.2]
    rw [List.countP_eq_length.mpr hall,
      ← List.length_map evs (fun e => (e.campaign_id, e.email, e.event_type)), h5,
      repeated_length, List.length_map]
  refine ⟨h3, ?_, ⟨evs, h4, h5⟩, hcount, ?_, ?_, ?_⟩
  · intro t hmem _ hne
    rw [h3, List.drop_left]
    cases hk : clock with
    | nil => exact absurd hk hne
    | cons now rest =>
      simp only [List.length_cons, repeated, List.mem_append]
      left
      unfold dispatchMessages
      rw [hid]
      exact List.mem_map_of_mem
        (fun t => (⟨.simulation, campaignId, simulationMail env campaign template t⟩ : Sent)) hmem
  · intro hzero
    rw [analytics_eq _ _ (by rw [h1]; rfl)]
    simp only [Option.map_some', analyticsReference]
    rw [← countEvents_eq_countP, hcount, hzero, Nat.zero_add]
  · rw [h2]
    split
    · rfl
    · rw [List.map_map]
      rfl
  · intro hne t hmem
    rw [h2, if_neg hne] at hmem
    obtain ⟨t0, _, rfl⟩ := List.mem_map.mp hmem
    rfl

/-- Witness for C21: the two targets of `exRaceStore` already have `delivered = true` and
the campaign has two `delivered` events; two more dispatches send four messages and bring
the delivered count to six. -/
theorem dispatch_ignores_delivered_flag_witness :
    (∀ t ∈ getCampaignTargets exRaceStore 1, t.delivered = true) ∧
    (dispatchEach exEnv 1 ["2026-01-02T09:00:00.000Z", "2026-01-03T09:00:00.000Z"]
      exRaceStore).outbox.length = 4 ∧
    countEvents (dispatchEach exEnv 1 ["2026-01-02T09:00:00.000Z", "2026-01-03T09:00:00.000Z"]
      exRaceStore) 1 .delivered = 2 + 2 * 2 := by
  have h := dispatch_ignores_delivered_flag exEnv 1
    { exCampaign 1 (some "2026-01-01T09:00:00.000Z") true false .running with
      manager_email := some "boss@co.com" }
    (templates.get ⟨0, by decide⟩) ["2026-01-02T09:00:00.000Z", "2026-01-03T09:00:00.000Z"]
    exRaceStore (by rfl) (by rfl) (by decide)
  refine ⟨by decide, ?_, h.2.2.2.1⟩
  rw [h.1]
  rfl

end PhishTrain
